import Mathlib

set_option maxHeartbeats 1000000

/- Verification of the Coveoliques2025 bot core.

   The development shallowly embeds the Python sources:
   - `astar.py` : the generic A* search (`A_star`, `A_star_classic`,
     `neighbors_one_move_udlr`, `reconstruct_path`, `d_manhattan`), including
     Python's list-indexing semantics (negative indices wrap once, too-large
     indices raise `IndexError`), which is essential to the search claims.
   - `Carrier.py` / `CarrierV2.py` : item selection (`find_blitzium_in_zone`),
     the BFS reachability check (`find_path`), safety (`is_safe_position`) and
     the per-tick decision procedure (`get_action`).
   - `Defender.py` / `DefenderV2.py` : threat scoring
     (`calculate_threat_level`), the shared `Target` registry and its per-tick
     reset, and target selection (`update_target`).

   Python `float` arithmetic on the threat scores (constants 100, 0.1, 0.2, 5)
   is embedded exactly: the idealised value `100 * max(0.2, 1 - d * 0.1)` of an
   integer distance `d` is the integer `max 20 (100 - 10 * d)`, so the scores
   are carried as `Int`; every comparison exercised below is between values on
   which the float and the exact computation agree.  Python dictionaries are embedded
   as association lists, the `heapq` priority queue as a list popped at its
   minimum element (the only property of a binary heap that the algorithm
   observes), and the unbounded `while` loops as fuel-indexed recursion. -/

namespace Astar

/-- Grid coordinates, as in the Python tuples `(x, y)`.  Integers, because the
`udlr` neighbour function can step to negative coordinates. -/
abbrev Pos := Int × Int

/-- Python list indexing `l[i]`: a negative index wraps once by adding the
length, an index out of `[-len, len)` raises `IndexError` (embedded as
`none`). -/
def pyGet {α : Type} (l : List α) (i : Int) : Option α :=
  if 0 ≤ i then l.get? i.toNat
  else if 0 ≤ i + l.length then l.get? (i + (l.length : Int)).toNat
  else none

/-- A walkability grid as passed to `neighbors_one_move_udlr`: `map[x][y]` is
`True` when the cell is walkable. -/
abbrev PyMap := List (List Bool)

/-- `map[p.1][p.2]` with Python indexing; `none` is an `IndexError`. -/
def mapAt (m : PyMap) (p : Pos) : Option Bool :=
  (pyGet m p.1).bind fun row => pyGet row p.2

/-- The four offsets `[(0, -1), (0, 1), (-1, 0), (1, 0)]` from `astar.py`. -/
def nbrOffsets : List (Int × Int) := [(0, -1), (0, 1), (-1, 0), (1, 0)]

/-- The list comprehension in `neighbors_one_move_udlr`: each offset is probed
with `map[position[0]+i][position[1]+j]`; any `IndexError` aborts the whole
call (`none`). -/
def neighborsAux (m : PyMap) (p : Pos) : List (Int × Int) → Option (List Pos)
  | [] => some []
  | o :: rest =>
    match mapAt m (p.1 + o.1, p.2 + o.2) with
    | none => none
    | some b =>
      match neighborsAux m p rest with
      | none => none
      | some tail => some (if b then (p.1 + o.1, p.2 + o.2) :: tail else tail)

/-- `neighbors_one_move_udlr(position, map)` from `astar.py`. -/
def neighbors_one_move_udlr (m : PyMap) (p : Pos) : Option (List Pos) :=
  neighborsAux m p nbrOffsets

/-- `d_manhattan(a, b)` from `astar.py` (on 2-dimensional integer points). -/
def d_manhattan (a b : Pos) : Nat :=
  (a.1 - b.1).natAbs + (a.2 - b.2).natAbs

/-- Association-list lookup, the embedding of a Python `dict` read
(`d.get(k)` / `k in d`). -/
def dictGet {κ β : Type} [DecidableEq κ] (d : List (κ × β)) (p : κ) : Option β :=
  (d.find? fun e => decide (e.1 = p)).map (·.2)

/-- Association-list update, the embedding of `d[k] = v`: the key holds exactly
one binding afterwards. -/
def dictSet {κ β : Type} [DecidableEq κ] (d : List (κ × β)) (p : κ) (v : β) : List (κ × β) :=
  (p, v) :: d.filter fun e => decide (e.1 ≠ p)

/-- The mutable state of `A_star`'s main loop: the predecessor map, the two
score dictionaries and the open set.  `g_score` and `f_score` are
`defaultdict(inf)`; a missing key embeds the value `inf`. -/
structure AState where
  came_from : List (Pos × Pos)
  g_score : List (Pos × Nat)
  f_score : List (Pos × Nat)
  open_set : List (Nat × Pos)

/-- One relaxation from the inner `for node in neighbors(current)` loop of
`A_star`: `tentative_g_score = g_score[current] + d(current, node)`; on
improvement the predecessor, `g_score` and `f_score` are updated and
`(f_score[node], node)` is pushed (the guard `node not in open_set` compares a
position with `(score, position)` pairs and is always false, so the push always
happens).  A missing `g_score[current]` is `inf`, and `inf < g_score[node]`
never holds. -/
def relax (d : Pos → Pos → Nat) (hf : Pos → Nat) (current : Pos)
    (st : AState) (node : Pos) : AState :=
  match dictGet st.g_score current with
  | none => st
  | some gc =>
    let tent := gc + d current node
    let better :=
      match dictGet st.g_score node with
      | none => true
      | some gn => decide (tent < gn)
    if better then
      let fnew := tent + hf node
      { came_from := dictSet st.came_from node current
        g_score := dictSet st.g_score node tent
        f_score := dictSet st.f_score node fnew
        open_set := st.open_set ++ [(fnew, node)] }
    else st

/-- The body of `reconstruct_path`'s `while current := came_from.get(current)`
loop, producing `[current, parent, ..., start]` (the list before the final
`[::-1]`).  The fuel bounds the chain length; a cyclic predecessor map would
diverge in Python and exhausts the fuel here. -/
def reconstructAux (cf : List (Pos × Pos)) : Nat → Pos → Option (List Pos)
  | 0, _ => none
  | fuel + 1, cur =>
    match dictGet cf cur with
    | none => some [cur]
    | some prev => (reconstructAux cf fuel prev).map fun l => cur :: l

/-- The possible outcomes of a run of `A_star`: a reconstructed path, the
implicit `return None` when the open set empties, an uncaught `IndexError`
from the neighbour function, or fuel exhaustion (the embedding's marker for a
run that needs more loop iterations). -/
inductive AResult where
  | path (l : List Pos)
  | noPath
  | err
  | out
deriving DecidableEq, Repr

/-- Python `heapq` pops the minimum element of the heap under tuple ordering
`(f, (x, y))`; this scans for it.  Ties between distinct pairs are broken by
the position, and equal pairs are interchangeable. -/
def heapMin : List (Nat × Pos) → Option (Nat × Pos)
  | [] => none
  | e :: rest =>
    some (match heapMin rest with
      | none => e
      | some mr =>
        if e.1 < mr.1 ∨ (e.1 = mr.1 ∧ (e.2.1 < mr.2.1 ∨
            (e.2.1 = mr.2.1 ∧ e.2.2 ≤ mr.2.2))) then e else mr)

/-- The `while open_set:` loop of `A_star`.  Each iteration pops the minimum
entry; reaching `goal` reconstructs the path; otherwise every neighbour is
relaxed.  The predecessor chain is acyclic in every reachable state, so
`came_from.length + 1` reconstruction fuel is never the binding constraint. -/
def astarLoop (nbrs : Pos → Option (List Pos)) (d : Pos → Pos → Nat)
    (hf : Pos → Nat) (goal : Pos) : Nat → AState → AResult
  | 0, _ => .out
  | fuel + 1, st =>
    match heapMin st.open_set with
    | none => .noPath
    | some e =>
      let current := e.2
      let rest := st.open_set.erase e
      if current = goal then
        match reconstructAux st.came_from (st.came_from.length + 1) current with
        | some l => .path l.reverse
        | none => .out
      else
        match nbrs current with
        | none => .err
        | some l =>
          astarLoop nbrs d hf goal fuel
            (l.foldl (relax d hf current) { st with open_set := rest })

/-- `A_star(start, goal, neighbors, d, h)` from `astar.py`: initial state
`g_score[start] = 0`, `f_score[start] = h(start)`, open set
`[(f_score[start], start)]`. -/
def A_star (start goal : Pos) (nbrs : Pos → Option (List Pos))
    (d : Pos → Pos → Nat) (hf : Pos → Nat) (fuel : Nat) : AResult :=
  astarLoop nbrs d hf goal fuel
    { came_from := []
      g_score := dictSet [] start 0
      f_score := dictSet [] start (hf start)
      open_set := [(hf start, start)] }

/-- `djikstra = partial(A_star, h=lambda _: 0)` from `astar.py`. -/
def djikstra (start goal : Pos) (nbrs : Pos → Option (List Pos))
    (d : Pos → Pos → Nat) (fuel : Nat) : AResult :=
  A_star start goal nbrs d (fun _ => 0) fuel

/-- `A_star_classic(start, goal, neighbors, d)` from `astar.py`: the heuristic
is `partial(d_manhattan, goal)`. -/
def A_star_classic (start goal : Pos) (nbrs : Pos → Option (List Pos))
    (d : Pos → Pos → Nat) (fuel : Nat) : AResult :=
  A_star start goal nbrs d (d_manhattan goal) fuel

/-- `A_star_voiture(game_map, start, goal)`: `A_star_classic` over the `udlr`
neighbour function on a boolean walkability grid, with `d_manhattan` edge
costs. -/
def A_star_voiture (m : PyMap) (start goal : Pos) (fuel : Nat) : AResult :=
  A_star_classic start goal (neighbors_one_move_udlr m) d_manhattan fuel

/-! ### The grid graph

The specification-level graph that BFS shortest paths are measured in: cells
with nonnegative coordinates whose map entry is `True`, joined by
4-directional unit steps. -/

/-- A walkable grid cell: nonnegative coordinates and a `True` map entry.
(Negative coordinates are excluded: Python's wrap-around read of such a cell
aliases a different physical cell.) -/
def walkable (m : PyMap) (p : Pos) : Prop :=
  0 ≤ p.1 ∧ 0 ≤ p.2 ∧ mapAt m p = some true

instance (m : PyMap) (p : Pos) : Decidable (walkable m p) := by
  unfold walkable; infer_instance

/-- One 4-directional step of a grid path, landing on a walkable cell. -/
def adjStep (m : PyMap) (p q : Pos) : Prop :=
  walkable m q ∧
    ((q.1 = p.1 ∧ (q.2 = p.2 + 1 ∨ q.2 = p.2 - 1)) ∨
     (q.2 = p.2 ∧ (q.1 = p.1 + 1 ∨ q.1 = p.1 - 1)))

instance (m : PyMap) (p q : Pos) : Decidable (adjStep m p q) := by
  unfold adjStep; infer_instance

/-- `IsPathFrom m s l`: the nonempty list `l` starts at `s` and advances by
`adjStep`s. -/
def IsPathFrom (m : PyMap) : Pos → List Pos → Prop
  | _, [] => False
  | s, [p] => p = s
  | s, p :: q :: rest => p = s ∧ adjStep m s q ∧ IsPathFrom m q (q :: rest)

def decIsPathFrom (m : PyMap) : (s : Pos) → (l : List Pos) → Decidable (IsPathFrom m s l)
  | _, [] => isFalse id
  | s, [p] => inferInstanceAs (Decidable (p = s))
  | s, p :: q :: rest =>
    haveI : Decidable (IsPathFrom m q (q :: rest)) := decIsPathFrom m q (q :: rest)
    inferInstanceAs (Decidable (p = s ∧ adjStep m s q ∧ IsPathFrom m q (q :: rest)))

instance (m : PyMap) (s : Pos) (l : List Pos) : Decidable (IsPathFrom m s l) :=
  decIsPathFrom m s l

/-- `IsPath m s g l`: `l` is a grid path from `s` to `g` (the walk a BFS over
the walkability grid would measure; its number of edges is `l.length - 1`). -/
def IsPath (m : PyMap) (s g : Pos) (l : List Pos) : Prop :=
  IsPathFrom m s l ∧ l.getLast? = some g

instance (m : PyMap) (s g : Pos) (l : List Pos) : Decidable (IsPath m s g l) := by
  unfold IsPath; infer_instance


/-! ### C1 and C2: the neighbour probe escapes the grid

`neighbors_one_move_udlr` indexes `map[position[0]+i][position[1]+j]` without
bounds checks.  On a cell of the map's high edge the probe raises
`IndexError`, and on a cell of the low edge the negative index wraps around to
the opposite side of the map.  Both counterexample maps below are 3×3. -/

/-- A 3×3 map with every cell walkable. -/
def mAll3 : PyMap := [[true, true, true], [true, true, true], [true, true, true]]

/-- A 3×3 map whose middle column `x = 1` is all walls: rows `x = 0` and
`x = 2` are two separate walkable regions. -/
def mRow3 : PyMap := [[true, true, true], [false, false, false], [true, true, true]]


/-! ### Wall-bordered maps

The amended search claims hold on maps whose outermost ring is entirely
walls: there the `udlr` probe of any cell the search ever expands stays
inside the grid, so no `IndexError` and no wrap-around read can occur. -/

/-- The length of the map's first row (the common row length of a
rectangular map). -/
def rowLen (m : PyMap) : Nat :=
  match m with
  | [] => 0
  | r :: _ => r.length

/-- An interior cell: at least one cell away from every edge of an
`m.length × rowLen m` grid, so that all four neighbour probes stay inside
the grid. -/
def Interior (m : PyMap) (p : Pos) : Prop :=
  1 ≤ p.1 ∧ p.1 + 1 < (m.length : Int) ∧ 1 ≤ p.2 ∧ p.2 + 1 < (rowLen m : Int)

instance (m : PyMap) (p : Pos) : Decidable (Interior m p) := by
  unfold Interior; infer_instance

/-- A wall-bordered map: rectangular, and every `true` cell is interior
(the outermost ring is all walls).  Stated over raw indices so that it is
decidable on concrete maps. -/
def WallBorder (m : PyMap) : Prop :=
  (∀ row ∈ m, row.length = rowLen m) ∧
  ∀ x, x < m.length → ∀ y, y < rowLen m →
    (m.get? x).bind (fun row => row.get? y) = some true →
    1 ≤ x ∧ x + 1 < m.length ∧ 1 ≤ y ∧ y + 1 < rowLen m

instance (m : PyMap) : Decidable (WallBorder m) := by
  unfold WallBorder; infer_instance

/-- `ReachN m start k p`: `p` is reachable from `start` by a grid path of at
most `k` `adjStep`s (cumulative in `k`). -/
def ReachN (m : PyMap) (start : Pos) : Nat → Pos → Prop
  | 0, p => p = start
  | k + 1, p => ReachN m start k p ∨ ∃ c, ReachN m start k c ∧ adjStep m c p

/-- Reachability from `start` in the grid graph. -/
def Reach (m : PyMap) (start p : Pos) : Prop := ∃ k, ReachN m start k p

/-- `MinReach m start p k`: `k` is the exact BFS distance from `start` to
`p`. -/
def MinReach (m : PyMap) (start p : Pos) (k : Nat) : Prop :=
  ReachN m start k p ∧ ∀ j, ReachN m start j p → k ≤ j

/-- The keys of the `g_score` dictionary. -/
def gKeys (st : AState) : List Pos := st.g_score.map Prod.fst

/-- The sum of the stored `g_score` values (part of the termination
measure). -/
def gSum (st : AState) : Nat := (st.g_score.map (·.2)).sum

/-- The loop invariant of `A_star_voiture`'s search on a wall-bordered map:
`g_score` keys are reachable and carry achievable path lengths, `start` is
pinned at `0`, open entries dominate their node's current `g + h`, every
optimally-labelled node still has its optimal entry in the open set unless it
has already been fully expanded, the goal keeps an open entry while
labelled, and the `came_from` entries step along the grid with strictly
increasing labels. -/
def AInv (m : PyMap) (start goal : Pos) (st : AState) : Prop :=
  (st.g_score.map Prod.fst).Nodup ∧
  (st.came_from.map Prod.fst).Nodup ∧
  (∀ n v, dictGet st.g_score n = some v → Reach m start n) ∧
  (∀ n v, dictGet st.g_score n = some v → ReachN m start v n) ∧
  dictGet st.g_score start = some 0 ∧
  (∀ e ∈ st.open_set, ∃ v, dictGet st.g_score e.2 = some v ∧
    v + d_manhattan goal e.2 ≤ e.1) ∧
  (∀ n v, dictGet st.g_score n = some v → MinReach m start n v →
    ((v + d_manhattan goal n, n) ∈ st.open_set ∨
      ∀ q, adjStep m n q → ∃ vq, dictGet st.g_score q = some vq ∧ vq ≤ v + 1)) ∧
  (∀ v, dictGet st.g_score goal = some v → ∃ f, (f, goal) ∈ st.open_set) ∧
  (∀ n c, dictGet st.came_from n = some c → adjStep m c n ∧
    ∃ vn vc, dictGet st.g_score n = some vn ∧ dictGet st.g_score c = some vc ∧
      vc + 1 ≤ vn) ∧
  (∀ n v, dictGet st.g_score n = some v → n ≠ start →
    (dictGet st.came_from n).isSome)

/-- A 4×4 map whose border ring is all walls and whose interior 2×2 block is
walkable. -/
def mWB4 : PyMap :=
  [[false, false, false, false], [false, true, true, false],
   [false, true, true, false], [false, false, false, false]]

/-- A 4×4 wall-bordered map with two walkable cells that are not adjacent:
`(1,1)` and `(2,2)` are diagonal, so each is its own connected region. -/
def mIso4 : PyMap :=
  [[false, false, false, false], [false, true, false, false],
   [false, false, true, false], [false, false, false, false]]

end Astar

/-! ## The game data model shared by the Carrier and Defender files

`game_message` itself is outside the repository; these records carry exactly
the fields the embedded methods read.  The static `tiles` and `teamZoneGrid`
arrays are embedded as total functions on coordinates: every modelled code
path reads them at in-bounds coordinates only, where the two presentations
agree. -/

namespace Game

structure Position where
  x : Int
  y : Int
deriving DecidableEq, Repr

structure Item where
  position : Position
  type : String
  value : Int
deriving DecidableEq, Repr

structure Character where
  id : String
  position : Position
  alive : Bool
  carriedItems : List Item
deriving DecidableEq, Repr

structure GameMap where
  width : Int
  height : Int
  tiles : Int → Int → String

/-- The `Action` variants produced by the agents (each carries the acting
character's id, as the Python constructors do). -/
inductive Action where
  | moveUp (characterId : String)
  | moveDown (characterId : String)
  | moveLeft (characterId : String)
  | moveRight (characterId : String)
  | moveTo (characterId : String) (position : Position)
  | grab (characterId : String)
  | drop (characterId : String)
deriving DecidableEq, Repr

/-- Python `range(a, b)` as a list of integers. -/
def rng (a b : Int) : List Int :=
  (List.range (b - a).toNat).map fun i => a + i

/-- Python's `str.startswith`, via the character list (the byte-level
`String.startsWith` does not reduce in the kernel). -/
def strStartsWith (s pre : String) : Bool := pre.data.isPrefixOf s.data

def exceptDecEq {ε α : Type} [DecidableEq ε] [DecidableEq α] :
    (a b : Except ε α) → Decidable (a = b)
  | .error e, .error f =>
    if h : e = f then isTrue (by rw [h]) else isFalse (by simp [h])
  | .ok x, .ok y =>
    if h : x = y then isTrue (by rw [h]) else isFalse (by simp [h])
  | .error _, .ok _ => isFalse (by simp)
  | .ok _, .error _ => isFalse (by simp)

instance {ε α : Type} [DecidableEq ε] [DecidableEq α] : DecidableEq (Except ε α) :=
  exceptDecEq

/-- Python's `max(l, key=...)` / `min(l, key=...)` fold: walk the list and
replace the current best exactly when `replace best candidate` holds, so the
first optimum is kept.  `none` on the empty list (where Python raises). -/
def pickBest {α : Type} (replace : α → α → Bool) : List α → Option α
  | [] => none
  | x :: xs => some (xs.foldl (fun b it => if replace b it then it else b) x)

/-- Stable insertion into a descending-sorted list: the new element lands
after every element whose key is `≥` its own. -/
def insertDesc {α β : Type} [LinearOrder β] (key : α → β) (x : α) : List α → List α
  | [] => [x]
  | y :: ys => if key y < key x then x :: y :: ys else y :: insertDesc key x ys

/-- Python `list.sort(key=..., reverse=True)`: the stable descending sort,
realised as left-to-right stable insertion (equal keys keep list order). -/
def sortDesc {α β : Type} [LinearOrder β] (key : α → β) (l : List α) : List α :=
  l.foldl (fun acc x => insertDesc key x acc) []

end Game

/-! ## Carrier.py and CarrierV2.py -/

namespace CarrierCore

open Game

/-- The fields a `Carrier` object holds after `__init__` (both versions set
the same fields; `value`, `tick` and `allies` are stored but never read by the
embedded methods and are omitted). -/
structure CarrierState where
  car_id : String
  position : Position
  alive : Bool
  items : List Item
  hasSpace : Bool
  team_id : String
  team_zone : Int → Int → String
  map : GameMap
  all_items : List Item
  enemies : List Character

/-- `abs(a.x - b.x) + abs(a.y - b.y)`, the Manhattan distance the carrier
methods inline everywhere. -/
def manhattanP (a b : Position) : Int := |a.x - b.x| + |a.y - b.y|

/-- `Carrier.is_in_team_zone` (identical in both files). -/
def is_in_team_zone (s : CarrierState) (pos : Position) : Bool :=
  decide (s.team_zone pos.x pos.y = s.team_id)

/-- `Carrier.is_in_enemy_zone` (identical in both files). -/
def is_in_enemy_zone (s : CarrierState) (pos : Position) : Bool :=
  decide (s.team_zone pos.x pos.y ≠ "" ∧ s.team_zone pos.x pos.y ≠ s.team_id)

/-- `Carrier.is_in_neutral_zone` (identical in both files). -/
def is_in_neutral_zone (s : CarrierState) (pos : Position) : Bool :=
  decide (s.team_zone pos.x pos.y = "")

/-- `any(item.position.x == x and item.position.y == y for item in all_items)`. -/
def itemAt (s : CarrierState) (x y : Int) : Bool :=
  s.all_items.any fun it => decide (it.position.x = x ∧ it.position.y = y)

/-- A cell the carrier BFS may occupy: in bounds and not a wall. -/
def cellOpen (mp : GameMap) (p : Int × Int) : Prop :=
  0 ≤ p.1 ∧ p.1 < mp.width ∧ 0 ≤ p.2 ∧ p.2 < mp.height ∧ mp.tiles p.1 p.2 ≠ "WALL"

instance (mp : GameMap) (p : Int × Int) : Decidable (cellOpen mp p) := by
  unfold cellOpen; infer_instance

/-- Reachability in the carrier's grid: a wall-avoiding 4-directional path
from `s` (steps land on open cells; the start cell itself is not required to
be open, matching the BFS, which never re-checks its start). -/
inductive CReach (mp : GameMap) (s : Int × Int) : Int × Int → Prop where
  | refl : CReach mp s s
  | step : ∀ {p q : Int × Int}, CReach mp s p → cellOpen mp q →
      |p.1 - q.1| + |p.2 - q.2| = 1 → CReach mp s q

end CarrierCore

namespace CarrierV2

open Game CarrierCore

/-- `CarrierV2.Carrier.is_valid_position`. -/
def is_valid_position (s : CarrierState) (pos : Position) : Bool :=
  decide (0 ≤ pos.x ∧ pos.x < s.map.width ∧ 0 ≤ pos.y ∧ pos.y < s.map.height ∧
    s.map.tiles pos.x pos.y ≠ "WALL")

/-- The `directions` list of `find_path`. -/
def bfsDirs : List (Int × Int) := [(0, 1), (0, -1), (1, 0), (-1, 0)]

/-- One direction probe of `find_path`'s BFS: enqueue and mark the neighbour
when it is unvisited, in bounds and not a wall. -/
def bfsExpand (s : CarrierState) (cx cy : Int)
    (acc : List (Int × Int) × List (Int × Int)) (d : Int × Int) :
    List (Int × Int) × List (Int × Int) :=
  let nx := cx + d.1
  let ny := cy + d.2
  if (nx, ny) ∉ acc.2 ∧ 0 ≤ nx ∧ nx < s.map.width ∧ 0 ≤ ny ∧ ny < s.map.height ∧
      s.map.tiles nx ny ≠ "WALL" then
    (acc.1 ++ [(nx, ny)], acc.2 ++ [(nx, ny)])
  else acc

/-- The `while queue:` loop of `find_path`.  The fuel passed by `find_path`
exceeds the maximum possible number of dequeues, so exhaustion (returning
`false`, the conservative answer) is unreachable; no claim below relies on
completeness of this check. -/
def bfsLoop (s : CarrierState) (ex ey : Int) :
    Nat → List (Int × Int) → List (Int × Int) → Bool
  | 0, _, _ => false
  | fuel + 1, queue, visited =>
    match queue with
    | [] => false
    | (cx, cy) :: rest =>
      if cx = ex ∧ cy = ey then true
      else
        let acc := bfsDirs.foldl (bfsExpand s cx cy) (rest, visited)
        bfsLoop s ex ey fuel acc.1 acc.2

/-- `CarrierV2.Carrier.find_path`: BFS reachability between two positions. -/
def find_path (s : CarrierState) (a b : Position) : Bool :=
  if is_valid_position s b = false then false
  else
    bfsLoop s b.x b.y (s.map.width.toNat * s.map.height.toNat + 2)
      [(a.x, a.y)] [(a.x, a.y)]

/-- `CarrierV2.Carrier.get_closest_item`: the closest reachable item. -/
def get_closest_item (s : CarrierState) (items : List Item) : Option Item :=
  if items.isEmpty then none
  else
    let reachable := items.filter fun it => find_path s s.position it.position
    if reachable.isEmpty then none
    else
      pickBest (fun b it =>
        decide (manhattanP it.position s.position < manhattanP b.position s.position))
        reachable

/-- `CarrierV2.Carrier.is_safe_position`: unreachable positions are unsafe;
positions outside the enemy zone are safe; enemy-zone positions are judged by
the load-dependent enemy-proximity rules. -/
def is_safe_position (s : CarrierState) (pos : Position) : Bool :=
  if find_path s s.position pos = false then false
  else if is_in_enemy_zone s pos = false then true
  else
    let carrying_blitzium := s.items.any fun it => strStartsWith it.type "blitzium_"
    if carrying_blitzium then
      !(s.enemies.any fun e => e.alive && decide (manhattanP e.position pos ≤ 2))
    else
      !decide ((s.enemies.countP fun e =>
        e.alive && decide (manhattanP e.position pos ≤ 1)) > 1)

/-- `CarrierV2.Carrier.find_radiant_in_team_zone`. -/
def find_radiant_in_team_zone (s : CarrierState) : Option Item :=
  get_closest_item s (s.all_items.filter fun it =>
    decide (it.type = "radiant_core" ∨ it.type = "radiant_slag") &&
    is_in_team_zone s it.position)

/-- The items accepted by `CarrierV2.Carrier.find_blitzium_in_zone`'s loop:
blitzium-typed, reachable, and in a requested zone. -/
def validBlitz (s : CarrierState) (check_enemy check_neutral : Bool) : List Item :=
  s.all_items.filter fun it =>
    strStartsWith it.type "blitzium_" &&
    find_path s s.position it.position &&
    ((check_enemy && is_in_enemy_zone s it.position) ||
     (check_neutral && is_in_neutral_zone s it.position))

/-- The sort key `(item.value, -distance)` of `find_blitzium_in_zone`. -/
def blitzKey (s : CarrierState) (it : Item) : Int ×ₗ Int :=
  toLex (it.value, -(manhattanP it.position s.position))

/-- `CarrierV2.Carrier.find_blitzium_in_zone`: the most valuable reachable
blitzium item in the requested zones, distance breaking ties. -/
def find_blitzium_in_zone (s : CarrierState) (check_enemy check_neutral : Bool) :
    Option Item :=
  let valid := validBlitz s check_enemy check_neutral
  if valid.isEmpty then none
  else pickBest (fun b it => decide (blitzKey s b < blitzKey s it)) valid

/-- The minimum-distance-to-a-living-enemy safety score of
`find_safe_drop_spot_in_enemy_zone`; `none` embeds the `ValueError` Python's
`min` raises when `self.enemies` is nonempty but no enemy is alive. -/
def drop_safety (s : CarrierState) (x y : Int) : Option Int :=
  if s.enemies.isEmpty then some 10
  else
    pickBest (fun b it => decide (it < b))
      ((s.enemies.filter (·.alive)).map fun e => |e.position.x - x| + |e.position.y - y|)

/-- The cells `find_safe_drop_spot_in_enemy_zone` scores, in iteration order:
reachable, in the enemy zone, not a wall, and free of items. -/
def dropSpotCands (s : CarrierState) : List Position :=
  (rng 0 s.map.width).flatMap fun x => (rng 0 s.map.height).filterMap fun y =>
    if find_path s s.position ⟨x, y⟩ = true ∧
        (is_in_enemy_zone s ⟨x, y⟩ = true ∧ s.map.tiles x y ≠ "WALL" ∧ itemAt s x y = false) then
      some ⟨x, y⟩
    else none

/-- `CarrierV2.Carrier.find_safe_drop_spot_in_enemy_zone`; `.error ()` is the
uncaught `ValueError` that evaluating the safety score of any candidate raises
when every listed enemy is dead. -/
def find_safe_drop_spot_in_enemy_zone (s : CarrierState) : Except Unit (Option Position) :=
  match dropSpotCands s with
  | [] => .ok none
  | cands =>
    if cands.any fun c => (drop_safety s c.x c.y).isNone then .error ()
    else
      .ok ((pickBest (fun b it => decide (b.2 < it.2))
        (cands.map fun c => (c, (drop_safety s c.x c.y).getD 0))).map (·.1))

/-- `CarrierV2.Carrier.handle_radiant_cleanup`. -/
def handle_radiant_cleanup (s : CarrierState) : Except Unit (Option Action) :=
  if s.items.any fun it => strStartsWith it.type "radiant_" then
    if is_in_enemy_zone s s.position = true ∧ itemAt s s.position.x s.position.y = false then
      .ok (some (.drop s.car_id))
    else
      match find_safe_drop_spot_in_enemy_zone s with
      | .error e => .error e
      | .ok (some p) => .ok (some (.moveTo s.car_id p))
      | .ok none => .ok none
  else if s.hasSpace then
    match find_radiant_in_team_zone s with
    | some r =>
      if s.position.x = r.position.x ∧ s.position.y = r.position.y then
        .ok (some (.grab s.car_id))
      else .ok (some (.moveTo s.car_id r.position))
    | none => .ok none
  else .ok none

/-- The blitzium acquisition attempt for one `(check_enemy, check_neutral)`
configuration of `CarrierV2.Carrier.get_action`'s zone loop. -/
def tryZone (s : CarrierState) (check_enemy check_neutral : Bool) : Option Action :=
  match find_blitzium_in_zone s check_enemy check_neutral with
  | some b =>
    if is_safe_position s b.position then
      if s.position.x = b.position.x ∧ s.position.y = b.position.y then
        some (.grab s.car_id)
      else some (.moveTo s.car_id b.position)
    else none
  | none => none

/-- `CarrierV2.Carrier.get_action`: deliver carried blitzium, else acquire the
best safe reachable blitzium (enemy zone first, then neutral), else radiant
cleanup, else no-op. -/
def get_action (s : CarrierState) : Except Unit (Option Action) :=
  if !s.alive then .ok none
  else
    let carryHome : Option Action :=
      if s.items.any fun it => strStartsWith it.type "blitzium_" then
        if is_in_team_zone s s.position then some (.drop s.car_id)
        else
          let safe_home := (rng 0 s.map.width).flatMap fun x =>
            (rng 0 s.map.height).filterMap fun y =>
              if is_in_team_zone s ⟨x, y⟩ = true ∧ is_valid_position s ⟨x, y⟩ = true ∧
                  find_path s s.position ⟨x, y⟩ = true then
                some (Position.mk x y)
              else none
          match pickBest (fun b it =>
              decide (manhattanP it s.position < manhattanP b s.position)) safe_home with
          | some closest => some (.moveTo s.car_id closest)
          | none => none
      else none
    match carryHome with
    | some a => .ok (some a)
    | none =>
      match tryZone s true false with
      | some a => .ok (some a)
      | none =>
        match tryZone s false true with
        | some a => .ok (some a)
        | none => handle_radiant_cleanup s

end CarrierV2

namespace CarrierV1

open Game CarrierCore

/-- `Carrier.get_closest_item` (Carrier.py: no reachability filter). -/
def get_closest_item (s : CarrierState) (items : List Item) : Option Item :=
  if items.isEmpty then none
  else
    pickBest (fun b it =>
      decide (manhattanP it.position s.position < manhattanP b.position s.position))
      items

/-- `Carrier.is_safe_position` (Carrier.py: no reachability gate; a position
outside the enemy zone is safe unconditionally). -/
def is_safe_position (s : CarrierState) (pos : Position) : Bool :=
  if is_in_enemy_zone s pos = false then true
  else
    let carrying_blitzium := s.items.any fun it => strStartsWith it.type "blitzium_"
    if carrying_blitzium then
      !(s.enemies.any fun e => e.alive && decide (manhattanP e.position pos ≤ 2))
    else
      !decide ((s.enemies.countP fun e =>
        e.alive && decide (manhattanP e.position pos ≤ 1)) > 1)

/-- The radiant items `Carrier.find_radiant_in_team_zone` collects. -/
def radiantCands (s : CarrierState) : List Item :=
  s.all_items.filter fun it =>
    decide (it.type = "radiant_core" ∨ it.type = "radiant_slag") &&
    is_in_team_zone s it.position

/-- `Carrier.find_radiant_in_team_zone` (Carrier.py). -/
def find_radiant_in_team_zone (s : CarrierState) : Option Item :=
  get_closest_item s (radiantCands s)

/-- The items accepted by `Carrier.find_blitzium_in_zone`'s loop (Carrier.py:
no reachability check). -/
def validBlitz (s : CarrierState) (check_enemy check_neutral : Bool) : List Item :=
  s.all_items.filter fun it =>
    strStartsWith it.type "blitzium_" &&
    ((check_enemy && is_in_enemy_zone s it.position) ||
     (check_neutral && is_in_neutral_zone s it.position))

/-- `Carrier.find_blitzium_in_zone` (Carrier.py): maximum by
`(value, -distance)` over the zone-filtered blitzium items, reachable or not. -/
def find_blitzium_in_zone (s : CarrierState) (check_enemy check_neutral : Bool) :
    Option Item :=
  let valid := validBlitz s check_enemy check_neutral
  if valid.isEmpty then none
  else pickBest (fun b it => decide (CarrierV2.blitzKey s b < CarrierV2.blitzKey s it)) valid

/-- `min([e for e in self.enemies if e.alive], key=distance, default=None)`
from `Carrier.get_action`'s radiant branch. -/
def closest_alive_enemy (s : CarrierState) : Option Character :=
  pickBest (fun b it =>
    decide (manhattanP it.position s.position < manhattanP b.position s.position))
    (s.enemies.filter (·.alive))

/-- `sum(1 for enemy ...)` of living enemies within `r` of `pos`. -/
def countAliveWithin (s : CarrierState) (pos : Position) (r : Int) : Nat :=
  s.enemies.countP fun e => e.alive && decide (manhattanP e.position pos ≤ r)

/-- `Carrier.find_juke_path_to_enemy`: safe enemy-zone cells in a 7×7 window
around the enemy, best progress first. -/
def find_juke_path_to_enemy (s : CarrierState) (enemy_pos : Position) : Option Position :=
  let cands := (rng (-3) 4).flatMap fun dx => (rng (-3) 4).filterMap fun dy =>
    let pos : Position := ⟨enemy_pos.x + dx, enemy_pos.y + dy⟩
    if 0 ≤ pos.x ∧ pos.x < s.map.width ∧ 0 ≤ pos.y ∧ pos.y < s.map.height ∧
        s.map.tiles pos.x pos.y ≠ "WALL" ∧ is_in_enemy_zone s pos = true then
      if countAliveWithin s pos 1 = 0 then
        some (pos, -(|pos.x - enemy_pos.x| + |pos.y - enemy_pos.y|))
      else none
    else none
  (pickBest (fun b it => decide (b.2 < it.2)) cands).map (·.1)

/-- `Carrier.find_safest_team_position`: item-free own-territory cells scored
by `-risk - border_count`, first maximum kept. -/
def find_safest_team_position (s : CarrierState) : Option Position :=
  let cands := (rng 0 s.map.width).flatMap fun x => (rng 0 s.map.height).filterMap fun y =>
    if s.team_zone x y = s.team_id ∧ s.map.tiles x y ≠ "WALL" ∧ itemAt s x y = false then
      let risk : Int := countAliveWithin s ⟨x, y⟩ 3
      let border : Int := ([((1:Int),(0:Int)), (-1,0), (0,1), (0,-1)].countP fun d =>
        decide (0 ≤ x + d.1 ∧ x + d.1 < s.map.width ∧ 0 ≤ y + d.2 ∧ y + d.2 < s.map.height ∧
          s.team_zone (x + d.1) (y + d.2) ≠ s.team_id))
      some (Position.mk x y, -risk - border)
    else none
  (pickBest (fun b it => decide (b.2 < it.2)) cands).map (·.1)

/-- `Carrier.find_juke_path_home`: safe own-territory cells scored by progress
towards the carrier. -/
def find_juke_path_home (s : CarrierState) : Option Position :=
  let cands := (rng 0 s.map.width).flatMap fun x => (rng 0 s.map.height).filterMap fun y =>
    if s.team_zone x y = s.team_id ∧ s.map.tiles x y ≠ "WALL" then
      if countAliveWithin s ⟨x, y⟩ 2 = 0 then
        some (Position.mk x y, -(|x - s.position.x| + |y - s.position.y|))
      else none
    else none
  (pickBest (fun b it => decide (b.2 < it.2)) cands).map (·.1)

/-- `Carrier.find_juke_path_to_target`: safe cells in a 5×5 window around the
carrier, scored by progress towards the target. -/
def find_juke_path_to_target (s : CarrierState) (target_pos : Position) : Option Position :=
  let cands := (rng (-2) 3).flatMap fun dx => (rng (-2) 3).filterMap fun dy =>
    let pos : Position := ⟨s.position.x + dx, s.position.y + dy⟩
    if 0 ≤ pos.x ∧ pos.x < s.map.width ∧ 0 ≤ pos.y ∧ pos.y < s.map.height ∧
        s.map.tiles pos.x pos.y ≠ "WALL" then
      if countAliveWithin s pos 1 = 0 then
        some (pos, -(|pos.x - target_pos.x| + |pos.y - target_pos.y|))
      else none
    else none
  (pickBest (fun b it => decide (b.2 < it.2)) cands).map (·.1)

/-- Step 1 of `Carrier.get_action` (Carrier.py): an empty-handed carrier
standing in its own zone heads for the closest radiant there. -/
def step1 (s : CarrierState) : Option Action :=
  if is_in_team_zone s s.position && s.items.isEmpty then
    match find_radiant_in_team_zone s with
    | some r =>
      if s.position.x = r.position.x ∧ s.position.y = r.position.y then
        some (.grab s.car_id)
      else some (.moveTo s.car_id r.position)
    | none => none
  else none

/-- Step 2 of `Carrier.get_action`: offload carried radiant in the enemy zone
(drop on an empty cell, else juke towards the closest enemy's zone). -/
def step2 (s : CarrierState) : Option Action :=
  if s.items.any fun it => strStartsWith it.type "radiant_" then
    if is_in_enemy_zone s s.position = true ∧ itemAt s s.position.x s.position.y = false then
      some (.drop s.car_id)
    else
      match closest_alive_enemy s with
      | some ce =>
        match find_juke_path_to_enemy s ce.position with
        | some dsp => some (.moveTo s.car_id dsp)
        | none => none
      | none => none
  else none

/-- Step 3 of `Carrier.get_action`: bring carried blitzium home (move deeper
or drop when already home, else juke home). -/
def step3 (s : CarrierState) : Option Action :=
  if s.items.any fun it => strStartsWith it.type "blitzium_" then
    if is_in_team_zone s s.position then
      match find_safest_team_position s with
      | some d =>
        if ¬(s.position.x = d.x ∧ s.position.y = d.y) then some (.moveTo s.car_id d)
        else some (.drop s.car_id)
      | none => some (.drop s.car_id)
    else
      match find_juke_path_home s with
      | some p => some (.moveTo s.car_id p)
      | none => none
  else none

/-- The final blitzium-acquisition stage of `Carrier.get_action`. -/
def step4 (s : CarrierState) : Option Action :=
  match find_blitzium_in_zone s true true with
  | some tb =>
    if s.hasSpace then
      if s.position.x = tb.position.x ∧ s.position.y = tb.position.y then
        some (.grab s.car_id)
      else if is_safe_position s tb.position then
        match find_juke_path_to_target s tb.position with
        | some p => some (.moveTo s.car_id p)
        | none => none
      else none
    else none
  | none => none

/-- `Carrier.get_action` (Carrier.py): radiant pickup when home and
empty-handed, then the carrying strategies, then blitzium acquisition, else
no-op.  A stage whose inner selections all fail falls through to the next. -/
def get_action (s : CarrierState) : Option Action :=
  if !s.alive then none
  else
    match step1 s with
    | some a => some a
    | none =>
      let carrying : Option Action :=
        if !s.items.isEmpty then
          match step2 s with
          | some a => some a
          | none => step3 s
        else none
      match carrying with
      | some a => some a
      | none => step4 s

end CarrierV1


/-! ## Defender.py and DefenderV2.py -/

namespace DefenderCore

open Game Astar

/-- The `Target` record (identical in `Defender.py` and `DefenderV2.py`). -/
structure Target where
  enemy : Character
  defender_id : String
  threat_level : Int
  last_seen_pos : Position
deriving DecidableEq, Repr

/-- The class-level `_targets` dictionary, keyed by enemy id. -/
abbrev Registry := List (String × Target)

/-- `Defender.manhattan_distance` (identical in both files). -/
def manhattan_distance (a b : Position) : Int := |a.x - b.x| + |a.y - b.y|

/-- The per-tick snapshot data both defender classes copy out of
`TeamGameState` in `__init__`. -/
structure Snapshot where
  team_id : String
  team_zone : Int → Int → String
  map : GameMap
  enemies : List Character
  allies : List Character

/-- The least Manhattan distance from `p` to an own-territory cell of a
`w × h` zone grid (`none` when the grid holds no own-territory cell) — the
scan `Defender.calculate_threat_level` (Defender.py) performs, and the
distance notion the threat-scoring claim is phrased in. -/
def nearestOwnCellDist (zone : Int → Int → String) (team : String) (w h : Int)
    (p : Position) : Option Int :=
  pickBest (fun b it => decide (it < b))
    ((rng 0 w).flatMap fun x => (rng 0 h).filterMap fun y =>
      if zone x y = team then some (manhattan_distance p ⟨x, y⟩) else none)

end DefenderCore

namespace DefenderV1

open Game Astar DefenderCore

/-- The fields `Defender.__init__` (Defender.py) actually assigns.  It never
assigns `self.items` or `self.all_items`, although several methods read them;
such a read is an uncaught `AttributeError`, embedded below as `.error ()`. -/
structure DefenderState where
  car_id : String
  position : Position
  alive : Bool
  team_id : String
  team_zone : Int → Int → String
  map : GameMap
  enemies : List Character
  allies : List Character

/-- The defender view of one snapshot character. -/
def mkState (snap : Snapshot) (c : Character) : DefenderState :=
  { car_id := c.id, position := c.position, alive := c.alive,
    team_id := snap.team_id, team_zone := snap.team_zone, map := snap.map,
    enemies := snap.enemies, allies := snap.allies }

/-- `Defender.is_valid_position`. -/
def is_valid_position (s : DefenderState) (x y : Int) : Bool :=
  decide (0 ≤ x ∧ x < s.map.width ∧ 0 ≤ y ∧ y < s.map.height ∧
    s.map.tiles x y ≠ "WALL")

/-- `Defender.is_in_our_territory`. -/
def is_in_our_territory (s : DefenderState) (p : Position) : Bool :=
  decide (s.team_zone p.x p.y = s.team_id)

/-- The `min_border_dist` scan of `Defender.calculate_threat_level`: the least
Manhattan distance from `p` to any own-territory cell of the grid (`none`
embeds the untouched `float('inf')` when no such cell exists). -/
def min_border_dist (s : DefenderState) (p : Position) : Option Int :=
  nearestOwnCellDist s.team_zone s.team_id s.map.width s.map.height p

/-- `Defender.calculate_threat_level` (Defender.py): 0 for a dead enemy, else
`100 * max(0.2, 1 - dist * 0.1)`, times 5 inside own territory.  Python float
arithmetic is embedded exactly: `100 * max(0.2, 1 - d * 0.1)` is the integer
`max 20 (100 - 10 * d)`, so the score is carried as `Int` (`1 - inf * 0.1 =
-inf` makes the no-own-cell case `20`). -/
def calculate_threat_level (s : DefenderState) (enemy : Character) : Int :=
  if !enemy.alive then 0
  else
    let threat : Int :=
      match min_border_dist s enemy.position with
      | none => 20
      | some d => max 20 (100 - 10 * d)
    if is_in_our_territory s enemy.position then threat * 5 else threat

/-- The `for enemy, threat in available_enemies:` claim loop shared by the
tail of `update_target`: highest-threat living enemy with positive threat not
already claimed by a different defender (`sort(..., reverse=True)` is stable,
so equal threats keep enemy-list order). -/
def pick_new_target (s : DefenderState) (reg1 : Registry) : Option Target × Registry :=
  let avail := (s.enemies.filter (·.alive)).map fun e => (e, calculate_threat_level s e)
  let sorted := sortDesc (fun et => et.2) avail
  match sorted.find? (fun et => decide (0 < et.2) &&
      ((dictGet reg1 et.1.id).all fun tr => decide (tr.defender_id = s.car_id))) with
  | some et =>
    let t : Target := ⟨et.1, s.car_id, et.2, et.1.position⟩
    (some t, dictSet reg1 et.1.id t)
  | none => (none, reg1)

/-- `Defender.update_target` (Defender.py).  Stale registry entries are
dropped first; a current target still registered to this defender is refreshed
(the bare `next(...)` would raise `StopIteration` if its enemy vanished,
embedded as `none`); otherwise the highest-threat unclaimed enemy is taken. -/
def update_target (s : DefenderState) (cur : Option Target) (reg : Registry) :
    Option (Option Target × Registry) :=
  let reg1 := reg.filter fun kv => s.enemies.any fun e => decide (e.id = kv.1) && e.alive
  match cur with
  | some t =>
    if (dictGet reg1 t.enemy.id).any (fun tr => decide (tr.defender_id = s.car_id)) then
      match s.enemies.find? fun e => decide (e.id = t.enemy.id) with
      | some e =>
        let t' : Target := ⟨e, s.car_id, calculate_threat_level s e, e.position⟩
        some (some t', dictSet reg1 e.id t')
      | none => none
    else some (pick_new_target s reg1)
  | none => some (pick_new_target s reg1)

/-- The reset guard of `Defender.__init__` (Defender.py):
`any(ally.id == self.allies[0].id for ally in self.allies)`.  `none` embeds
the `IndexError` of `self.allies[0]` on an empty ally list. -/
def reset_condition (allies : List Character) : Option Bool :=
  match allies with
  | [] => none
  | a :: _ => some (allies.any fun al => decide (al.id = a.id))

/-- The target-tracking part of `Defender.__init__`: conditionally clear the
shared registry, then run the initial `update_target` with no current
target. -/
def evalInit (s : DefenderState) (reg : Registry) : Option (Option Target × Registry) :=
  match reset_condition s.allies with
  | none => none
  | some cond =>
    let reg0 := if cond then [] else reg
    update_target s none reg0

/-- One defender's evaluation within a tick, as driven by the bots:
construction (`__init__`, which updates the target once) followed by the
`update_target` call at the top of `get_action`. -/
def evalDefender (snap : Snapshot) (c : Character) (reg : Registry) :
    Option (Option Target × Registry) :=
  match evalInit (mkState snap c) reg with
  | none => none
  | some (t1, reg1) => update_target (mkState snap c) t1 reg1

/-- A full tick over `Defender.py` defenders: each snapshot ally is evaluated
in list order against the shared registry, collecting every defender's final
`current_target`. -/
def runTick (snap : Snapshot) : List Character → Registry →
    Option (List (String × Option Target) × Registry)
  | [], reg => some ([], reg)
  | c :: cs, reg =>
    (evalDefender snap c reg).bind fun x =>
      (runTick snap cs x.2).map fun r => ((c.id, x.1) :: r.1, r.2)

/-- `Defender.get_next_move`: of the four orthogonal steps that stay valid and
inside own territory, the one minimising the distance to the target position,
with a 2-cell discount for steps landing adjacent to a living enemy. -/
def get_next_move (s : DefenderState) (target_pos : Position) : Option Action :=
  let moves : List ((Int × Int) × (String → Action)) :=
    [((0, 1), Action.moveDown), ((0, -1), Action.moveUp),
     ((1, 0), Action.moveRight), ((-1, 0), Action.moveLeft)]
  let step := fun (acc : Option ((String → Action) × Int)) (mv : (Int × Int) × (String → Action)) =>
    let nx := s.position.x + mv.1.1
    let ny := s.position.y + mv.1.2
    if is_valid_position s nx ny && is_in_our_territory s ⟨nx, ny⟩ then
      let d0 := manhattan_distance ⟨nx, ny⟩ target_pos
      let d1 := if s.enemies.any fun e =>
          e.alive && decide (manhattan_distance ⟨nx, ny⟩ e.position ≤ 1) then d0 - 2 else d0
      match acc with
      | none => some (mv.2, d1)
      | some (_, dm) => if d1 < dm then some (mv.2, d1) else acc
    else acc
  (moves.foldl step none).map fun fd => fd.1 s.car_id

/-- `self.get_next_move(...)` where the argument may be `None`
(`if not target_pos: return None`). -/
def get_next_move_opt (s : DefenderState) : Option Position → Option Action
  | none => none
  | some p => get_next_move s p

/-- `Defender.is_border_position`. -/
def is_border_position (s : DefenderState) (p : Position) : Bool :=
  is_in_our_territory s p &&
  ([((0:Int), (1:Int)), (0, -1), (1, 0), (-1, 0)].any fun d =>
    is_valid_position s (p.x + d.1) (p.y + d.2) &&
    !is_in_our_territory s ⟨p.x + d.1, p.y + d.2⟩)

/-- `Defender.find_nearest_border_position`: border cell minimising
`dist(cell, enemy) + dist(cell, self) * 0.5`. -/
def find_nearest_border_position (s : DefenderState) (enemy_pos : Position) : Option Position :=
  let cands := (rng 0 s.map.width).flatMap fun x => (rng 0 s.map.height).filterMap fun y =>
    if is_in_our_territory s ⟨x, y⟩ = true ∧
        ([((0:Int), (1:Int)), (0, -1), (1, 0), (-1, 0)].any fun d =>
          is_valid_position s (x + d.1) (y + d.2) &&
          !is_in_our_territory s ⟨x + d.1, y + d.2⟩) = true then
      some (Position.mk x y,
        (manhattan_distance ⟨x, y⟩ enemy_pos : ℚ) +
          (manhattan_distance ⟨x, y⟩ s.position : ℚ) * (1 / 2))
    else none
  (pickBest (fun b it => decide (it.2 < b.2)) cands).map (·.1)

/-- `Defender.find_patrol_position`: valid own-territory cell maximising a
border bonus plus half the count of nearby own valid cells. -/
def find_patrol_position (s : DefenderState) : Option Position :=
  let cands := (rng 0 s.map.width).flatMap fun x => (rng 0 s.map.height).filterMap fun y =>
    if is_valid_position s x y = true ∧ is_in_our_territory s ⟨x, y⟩ = true then
      let border10 : ℚ :=
        if [((0:Int), (1:Int)), (0, -1), (1, 0), (-1, 0)].any fun d =>
            is_valid_position s (x + d.1) (y + d.2) &&
            !is_in_our_territory s ⟨x + d.1, y + d.2⟩ then 10 else 0
      let coverage : ℚ := (((rng (-2) 3).flatMap fun dx => (rng (-2) 3).filterMap fun dy =>
        if is_valid_position s (x + dx) (y + dy) &&
            is_in_our_territory s ⟨x + dx, y + dy⟩ then some () else none).length : ℚ)
      some (Position.mk x y, border10 + coverage * (1 / 2))
    else none
  (pickBest (fun b it => decide (b.2 < it.2)) cands).map (·.1)

/-- `Defender.is_safe_to_clean_radiant` reads `self.items`, which
`Defender.__init__` never assigns: every call raises `AttributeError`. -/
def is_safe_to_clean_radiant (_s : DefenderState) : Except Unit Bool := .error ()

/-- `Defender.find_nearby_radiant`: its first statement calls
`is_safe_to_clean_radiant`, so the `AttributeError` always propagates (the
later read of the equally unassigned `self.all_items` is unreachable). -/
def find_nearby_radiant (s : DefenderState) : Except Unit (Option (Position × Position)) :=
  match is_safe_to_clean_radiant s with
  | .error u => .error u
  | .ok false => .ok none
  | .ok true => .error ()

/-- The part of `Defender.get_action` past the targeting block: `cleanup_info
= self.find_nearby_radiant()` raises before the patrol fallback can run. -/
def afterTarget (s : DefenderState) : Except Unit (Option Action) :=
  match find_nearby_radiant s with
  | .error u => .error u
  | .ok (some _) => .error ()
  | .ok none =>
    if is_border_position s s.position then .ok none
    else .ok (get_next_move_opt s (find_patrol_position s))

/-- The `if self.current_target:` block of `Defender.get_action`.  `.ok (some
r)` is an executed `return r`; `.ok none` falls through to the cleanup/patrol
section; `.error ()` is the `AttributeError` out of `find_nearby_radiant`
when holding a good border position. -/
def targetStage (s : DefenderState) (t : Target) : Except Unit (Option (Option Action)) :=
  let e := t.enemy
  if is_in_our_territory s e.position then
    if manhattan_distance s.position e.position ≤ 1 then .ok (some none)
    else .ok (some (get_next_move s e.position))
  else
    let fromBorder : Except Unit (Option (Option Action)) :=
      if is_border_position s s.position then
        match find_nearest_border_position s e.position with
        | some bi =>
          if manhattan_distance s.position e.position ≤
              manhattan_distance bi e.position + 1 then .error ()
          else .ok none
        | none => .ok none
      else .ok none
    match fromBorder with
    | .error u => .error u
    | .ok (some r) => .ok (some r)
    | .ok none =>
      match find_nearest_border_position s e.position with
      | some ip => .ok (some (get_next_move s ip))
      | none => .ok none

/-- `Defender.get_action` (Defender.py): update the target, then engage /
intercept, then radiant cleanup, then patrol.  Every path that reaches
`find_nearby_radiant` — in particular any tick with no current target — dies
with `AttributeError` on the unassigned `self.items`. -/
def get_action (s : DefenderState) (cur : Option Target) (reg : Registry) :
    Except Unit (Option Action) :=
  match update_target s cur reg with
  | none => .error ()
  | some (t?, _) =>
    match t? with
    | some t =>
      match targetStage s t with
      | .error u => .error u
      | .ok (some r) => .ok r
      | .ok none => afterTarget s
    | none => afterTarget s

end DefenderV1

namespace DefenderV2

open Game Astar DefenderCore

/-- The fields `Defender.__init__` (DefenderV2.py) assigns. -/
structure DefenderState where
  car_id : String
  position : Position
  alive : Bool
  items : List Item
  hasSpace : Bool
  team_id : String
  team_zone : Int → Int → String
  map : GameMap
  enemies : List Character
  allies : List Character
  all_items : List Item

/-- The V2 defender view of one snapshot character (the snapshot's item list
is a parameter because `DefenderV2` stores it). -/
def mkState (snap : Snapshot) (all_items : List Item) (maxCarry : Nat) (c : Character) :
    DefenderState :=
  { car_id := c.id, position := c.position, alive := c.alive,
    items := c.carriedItems, hasSpace := decide (c.carriedItems.length < maxCarry),
    team_id := snap.team_id, team_zone := snap.team_zone, map := snap.map,
    enemies := snap.enemies, allies := snap.allies, all_items := all_items }

/-- `Defender._is_valid_position` (DefenderV2.py). -/
def _is_valid_position (s : DefenderState) (x y : Int) : Bool :=
  decide (0 ≤ x ∧ x < s.map.width ∧ 0 ≤ y ∧ y < s.map.height ∧
    s.map.tiles x y ≠ "WALL")

/-- `Defender._is_in_our_territory` (DefenderV2.py). -/
def _is_in_our_territory (s : DefenderState) (p : Position) : Bool :=
  decide (s.team_zone p.x p.y = s.team_id)

/-- `Defender._precompute_border_positions` (DefenderV2.py): own-territory
cells with a valid adjacent cell outside own territory, in scan order. -/
def _precompute_border_positions (s : DefenderState) : List Position :=
  (rng 0 s.map.width).flatMap fun x => (rng 0 s.map.height).filterMap fun y =>
    if _is_in_our_territory s ⟨x, y⟩ = true ∧
        ([((0:Int), (1:Int)), (0, -1), (1, 0), (-1, 0)].any fun d =>
          _is_valid_position s (x + d.1) (y + d.2) &&
          !_is_in_our_territory s ⟨x + d.1, y + d.2⟩) = true then
      some (Position.mk x y)
    else none

/-- The `min_border_dist` scan of `Defender._calculate_threat_level`
(DefenderV2.py): least Manhattan distance to a precomputed border cell. -/
def min_border_dist (borders : List Position) (p : Position) : Option Int :=
  pickBest (fun b it => decide (it < b)) (borders.map fun bp => manhattan_distance p bp)

/-- `Defender._calculate_threat_level` (DefenderV2.py): as the V1 formula, but
the decay distance is measured to the precomputed border cells (the class
attribute `_border_positions`), not to the nearest own-territory cell.  As in
V1 the score `100 * max(0.2, 1 - d * 0.1)` is the integer
`max 20 (100 - 10 * d)`, carried as `Int`. -/
def _calculate_threat_level (s : DefenderState) (borders : List Position)
    (enemy : Character) : Int :=
  if !enemy.alive then 0
  else
    let threat : Int :=
      match min_border_dist borders enemy.position with
      | none => 20
      | some d => max 20 (100 - 10 * d)
    if _is_in_our_territory s enemy.position then threat * 5 else threat

/-- The claim loop at the tail of `Defender._update_target` (DefenderV2.py). -/
def pick_new_target (s : DefenderState) (borders : List Position) (reg1 : Registry) :
    Option Target × Registry :=
  let avail := (s.enemies.filter (·.alive)).map fun e =>
    (e, _calculate_threat_level s borders e)
  let sorted := sortDesc (fun et => et.2) avail
  match sorted.find? (fun et => decide (0 < et.2) &&
      ((dictGet reg1 et.1.id).all fun tr => decide (tr.defender_id = s.car_id))) with
  | some et =>
    let t : Target := ⟨et.1, s.car_id, et.2, et.1.position⟩
    (some t, dictSet reg1 et.1.id t)
  | none => (none, reg1)

/-- `Defender._update_target` (DefenderV2.py).  Unlike the V1 version, a
current target whose enemy is not found falls through to the claim loop
(`next(..., None)`) rather than raising. -/
def _update_target (s : DefenderState) (borders : List Position)
    (cur : Option Target) (reg : Registry) : Option Target × Registry :=
  let reg1 := reg.filter fun kv =>
    (s.enemies.filter (·.alive)).any fun e => decide (e.id = kv.1)
  let keep : Option (Option Target × Registry) :=
    match cur with
    | some t =>
      if (dictGet reg1 t.enemy.id).any (fun tr => decide (tr.defender_id = s.car_id)) then
        match s.enemies.find? fun e => decide (e.id = t.enemy.id) with
        | some e =>
          let t' : Target :=
            { t with enemy := e, threat_level := _calculate_threat_level s borders e }
          some (some t', dictSet reg1 e.id t')
        | none => none
      else none
    | none => none
  match keep with
  | some r => r
  | none => pick_new_target s borders reg1

/-- The reset guard of `Defender.__init__` (DefenderV2.py):
`self.allies and self.car_id == self.allies[0].id`. -/
def reset_condition (car_id : String) (allies : List Character) : Bool :=
  match allies with
  | [] => false
  | a :: _ => decide (car_id = a.id)

/-- The target-tracking part of `Defender.__init__` (DefenderV2.py): the
first-listed ally clears the registry and recomputes the border cache, then
`_update_target` runs.  `none` embeds the `TypeError` of iterating the class
attribute `_border_positions` while it is still Python `None` (no defender
has computed it yet). -/
def evalInit (s : DefenderState) (reg : Registry) (bord : Option (List Position)) :
    Option ((Option Target × Registry) × List Position) :=
  let rb := if reset_condition s.car_id s.allies
    then ([], some (_precompute_border_positions s))
    else (reg, bord)
  match rb.2 with
  | none => none
  | some borders => some (_update_target s borders none rb.1, borders)

/-- One V2 defender's evaluation within a tick: construction followed by the
`_update_target` call at the top of `get_action`. -/
def evalDefender (snap : Snapshot) (all_items : List Item) (maxCarry : Nat)
    (c : Character) (reg : Registry) (bord : Option (List Position)) :
    Option ((Option Target × Registry) × List Position) :=
  match evalInit (mkState snap all_items maxCarry c) reg bord with
  | none => none
  | some ((t1, reg1), borders) =>
    some (_update_target (mkState snap all_items maxCarry c) borders t1 reg1, borders)

/-- A full tick over `DefenderV2.py` defenders, threading the registry and the
border cache through the ally list in order. -/
def runTick (snap : Snapshot) (all_items : List Item) (maxCarry : Nat) :
    List Character → Registry → Option (List Position) →
    Option (List (String × Option Target) × Registry)
  | [], reg, _ => some ([], reg)
  | c :: cs, reg, bord =>
    (evalDefender snap all_items maxCarry c reg bord).bind fun x =>
      (runTick snap all_items maxCarry cs x.1.2 (some x.2)).map
        fun r => ((c.id, x.1.1) :: r.1, r.2)


/-- The registration discipline the V2 tick maintains: every evaluated
defender holding a live current target is recorded in the shared registry
under its enemy's id, carries its own id in the target, and targets the id of
a living snapshot enemy. -/
def TargetInv (enemies : List Character) (outs : List (String × Option Target))
    (reg : Registry) : Prop :=
  ∀ p ∈ outs, ∀ t : Target, p.2 = some t →
    t.defender_id = p.1 ∧
    (∃ tr : Target, dictGet reg t.enemy.id = some tr ∧ tr.defender_id = p.1) ∧
    (∃ e ∈ enemies, e.alive = true ∧ e.id = t.enemy.id)

end DefenderV2


/-! ## Concrete instances

Small closed game states used to evaluate the embedded code at specific
inputs (counterexamples and witnesses). -/

namespace Scenarios

open Game CarrierCore DefenderCore

/-- 3×1 carrier map `[open, WALL, open]`: two cells separated by a wall. -/
def gm31 : GameMap := ⟨3, 1, fun x _ => if x = 1 then "WALL" else ""⟩

/-- A high-value blitzium item beyond the wall of `gm31`. -/
def itemFar : Item := ⟨⟨2, 0⟩, "blitzium_ingot", 5⟩

/-- Carrier on `gm31` at `(0,0)`, team `"A"` owning `x ≤ 1`, enemy zone at
`x = 2` holding `itemFar` — which no wall-avoiding path reaches. -/
def sC3 : CarrierState :=
  { car_id := "c1", position := ⟨0, 0⟩, alive := true, items := [],
    hasSpace := true, team_id := "A",
    team_zone := fun x _ => if x = 2 then "B" else "A",
    map := gm31, all_items := [itemFar], enemies := [] }

/-- Carrier on `gm31` whose whole zone grid is own territory: the cell
`(2, 0)` is inside own territory yet unreachable. -/
def sC9 : CarrierState :=
  { car_id := "c1", position := ⟨0, 0⟩, alive := true, items := [],
    hasSpace := true, team_id := "A",
    team_zone := fun _ _ => "A",
    map := gm31, all_items := [], enemies := [] }

/-- 5×5 open carrier map. -/
def gm55 : GameMap := ⟨5, 5, fun _ _ => ""⟩

/-- A liability item sitting in own territory. -/
def itemRad : Item := ⟨⟨2, 1⟩, "radiant_core", -1⟩

/-- A high-value item sitting in enemy territory. -/
def itemBlitz : Item := ⟨⟨3, 1⟩, "blitzium_ingot", 10⟩

/-- Empty-handed carrier with free capacity at `(1,1)` on `gm55`; own zone
`x ≤ 2`, enemy zone `x ≥ 3`; one reachable radiant in own territory and one
reachable blitzium in enemy territory; no enemies. -/
def sC7 : CarrierState :=
  { car_id := "c1", position := ⟨1, 1⟩, alive := true, items := [],
    hasSpace := true, team_id := "A",
    team_zone := fun x _ => if x ≤ 2 then "A" else "B",
    map := gm55, all_items := [itemRad, itemBlitz], enemies := [] }

/-- 7×5 defender map with a walled-off own-territory pocket: walls isolate
the own cell `(1, 2)`, whose only companions are the walls around it, while
the own cell `(4, 2)` lies in the open. -/
def gm75 : GameMap :=
  ⟨7, 5, fun x y =>
    if (x = 0 ∧ y = 2) ∨ (x = 2 ∧ y = 2) ∨ (x = 1 ∧ y = 1) ∨ (x = 1 ∧ y = 3)
    then "WALL" else ""⟩

/-- Zone grid for `gm75`: own territory is exactly `{(1,2), (4,2)}`. -/
def zone75 : Int → Int → String :=
  fun x y => if (x = 1 ∧ y = 2) ∨ (x = 4 ∧ y = 2) then "A" else ""

/-- A living enemy near the walled-off own cell: close to own territory, far
from the open border cell. -/
def enemyNear : Character := ⟨"eA", ⟨1, 4⟩, true, []⟩

/-- A living enemy farther from own territory but closer to the open border
cell. -/
def enemyFar : Character := ⟨"eB", ⟨6, 4⟩, true, []⟩

/-- The V2 defender evaluating the two enemies above. -/
def sC6 : DefenderV2.DefenderState :=
  { car_id := "d1", position := ⟨4, 2⟩, alive := true, items := [],
    hasSpace := true, team_id := "A", team_zone := zone75, map := gm75,
    enemies := [enemyNear, enemyFar],
    allies := [⟨"d1", ⟨4, 2⟩, true, []⟩], all_items := [] }

/-- 2×2 open defender map. -/
def gm22 : GameMap := ⟨2, 2, fun _ _ => ""⟩

/-- The single living enemy of the two-defender tick. -/
def enemyE : Character := ⟨"E", ⟨0, 1⟩, true, []⟩

def ally1 : Character := ⟨"d1", ⟨0, 0⟩, true, []⟩

def ally2 : Character := ⟨"d2", ⟨1, 0⟩, true, []⟩

/-- A tick snapshot with two defenders and one enemy (all territory
neutral). -/
def snapC4 : Snapshot := ⟨"A", fun _ _ => "", gm22, [enemyE], [ally1, ally2]⟩

/-- A tick snapshot with no enemies at all. -/
def snapC8 : Snapshot := ⟨"A", fun _ _ => "", gm22, [], [ally1]⟩

/-- The V1 defender of `snapC8`. -/
def sC8 : DefenderV1.DefenderState := DefenderV1.mkState snapC8 ally1

/-- The target the first V2 defender of `snapC4` ends the tick with. -/
def tE : Target := ⟨enemyE, "d1", 20, ⟨0, 1⟩⟩

/-- A V1 defender on the `gm75` / `zone75` board, facing `enemyNear` and
`enemyFar`. -/
def sD6 : DefenderV1.DefenderState :=
  { car_id := "d1", position := ⟨4, 2⟩, alive := true, team_id := "A",
    team_zone := zone75, map := gm75, enemies := [enemyNear, enemyFar],
    allies := [⟨"d1", ⟨4, 2⟩, true, []⟩] }

/-- A dead enemy. -/
def enemyDead : Character := ⟨"eD", ⟨0, 0⟩, false, []⟩

/-- A living enemy standing inside own territory on `zone75`. -/
def enemyIn : Character := ⟨"eC", ⟨4, 2⟩, true, []⟩

end Scenarios

/-! # Theorems -/

namespace Game

theorem pickBest_isSome {α : Type} (replace : α → α → Bool) (x : α) (xs : List α) :
    (pickBest replace (x :: xs)).isSome := by
  simp [pickBest]

theorem pickBest_eq_none {α : Type} (replace : α → α → Bool) :
    pickBest replace [] = none := rfl

theorem foldl_pick_mem {α : Type} (replace : α → α → Bool) :
    ∀ (xs : List α) (b : α), xs.foldl (fun b it => if replace b it then it else b) b = b ∨
      xs.foldl (fun b it => if replace b it then it else b) b ∈ xs := by
  intro xs
  induction xs with
  | nil => intro b; exact Or.inl rfl
  | cons y ys ih =>
    intro b
    simp only [List.foldl_cons]
    rcases ih (if replace b y then y else b) with h | h
    · rw [h]
      by_cases hr : replace b y
      · simp [hr]
      · simp [hr]
    · exact Or.inr (List.mem_cons_of_mem _ h)

theorem pickBest_mem {α : Type} (replace : α → α → Bool) (l : List α) (x : α)
    (h : pickBest replace l = some x) : x ∈ l := by
  cases l with
  | nil => simp [pickBest] at h
  | cons y ys =>
    simp only [pickBest, Option.some.injEq] at h
    rcases foldl_pick_mem replace ys y with h' | h'
    · rw [h] at h'; exact h' ▸ List.mem_cons_self y ys
    · rw [h] at h'; exact List.mem_cons_of_mem _ h'

/-- The fold for a key into a linear order, `replace b it := key b < key it`
(Python `max(..., key)`), never decreases the key of the running best and ends
at a value dominating every element. -/
theorem foldl_max_key {α β : Type} [LinearOrder β] (key : α → β) :
    ∀ (xs : List α) (b : α),
      key b ≤ key (xs.foldl (fun b it => if decide (key b < key it) then it else b) b) ∧
      ∀ y ∈ xs, key y ≤ key (xs.foldl (fun b it => if decide (key b < key it) then it else b) b) := by
  intro xs
  induction xs with
  | nil => intro b; exact ⟨le_refl _, by simp⟩
  | cons z zs ih =>
    intro b
    simp only [List.foldl_cons]
    by_cases hr : key b < key z
    · rcases ih z with ⟨h1, h2⟩
      refine ⟨le_trans (le_of_lt hr) (by simpa [hr] using h1), ?_⟩
      intro y hy
      rcases List.mem_cons.mp hy with rfl | hy
      · simpa [hr] using h1
      · simpa [hr] using h2 y hy
    · rcases ih b with ⟨h1, h2⟩
      refine ⟨by simpa [hr] using h1, ?_⟩
      intro y hy
      rcases List.mem_cons.mp hy with rfl | hy
      · exact le_trans (not_lt.mp hr) (by simpa [hr] using h1)
      · simpa [hr] using h2 y hy

theorem pickBest_max_key {α β : Type} [LinearOrder β] (key : α → β) (l : List α) (x : α)
    (h : pickBest (fun b it => decide (key b < key it)) l = some x) :
    x ∈ l ∧ ∀ y ∈ l, key y ≤ key x := by
  refine ⟨pickBest_mem _ l x h, ?_⟩
  cases l with
  | nil => simp [pickBest] at h
  | cons z zs =>
    simp only [pickBest, Option.some.injEq] at h
    intro y hy
    rcases List.mem_cons.mp hy with rfl | hy
    · rw [← h]; exact (foldl_max_key key zs y).1
    · rw [← h]; exact (foldl_max_key key zs z).2 y hy

theorem foldl_min_key {α β : Type} [LinearOrder β] (key : α → β) :
    ∀ (xs : List α) (b : α),
      key (xs.foldl (fun b it => if decide (key it < key b) then it else b) b) ≤ key b ∧
      ∀ y ∈ xs, key (xs.foldl (fun b it => if decide (key it < key b) then it else b) b) ≤ key y := by
  intro xs
  induction xs with
  | nil => intro b; exact ⟨le_refl _, by simp⟩
  | cons z zs ih =>
    intro b
    simp only [List.foldl_cons]
    by_cases hr : key z < key b
    · rcases ih z with ⟨h1, h2⟩
      refine ⟨le_trans (by simpa [hr] using h1) (le_of_lt hr), ?_⟩
      intro y hy
      rcases List.mem_cons.mp hy with rfl | hy
      · simpa [hr] using h1
      · simpa [hr] using h2 y hy
    · rcases ih b with ⟨h1, h2⟩
      refine ⟨by simpa [hr] using h1, ?_⟩
      intro y hy
      rcases List.mem_cons.mp hy with rfl | hy
      · exact le_trans (by simpa [hr] using h1) (not_lt.mp hr)
      · simpa [hr] using h2 y hy

theorem pickBest_min_key {α β : Type} [LinearOrder β] (key : α → β) (l : List α) (x : α)
    (h : pickBest (fun b it => decide (key it < key b)) l = some x) :
    x ∈ l ∧ ∀ y ∈ l, key x ≤ key y := by
  refine ⟨pickBest_mem _ l x h, ?_⟩
  cases l with
  | nil => simp [pickBest] at h
  | cons z zs =>
    simp only [pickBest, Option.some.injEq] at h
    intro y hy
    rcases List.mem_cons.mp hy with rfl | hy
    · rw [← h]; exact (foldl_min_key key zs y).1
    · rw [← h]; exact (foldl_min_key key zs z).2 y hy


theorem mem_insertDesc {α β : Type} [LinearOrder β] (key : α → β) (x z : α) :
    ∀ l : List α, z ∈ Game.insertDesc key x l ↔ z = x ∨ z ∈ l := by
  intro l
  induction l with
  | nil => simp [Game.insertDesc]
  | cons y ys ih =>
    unfold Game.insertDesc
    by_cases hlt : key y < key x
    · simp [hlt]
    · simp only [if_neg hlt, List.mem_cons, ih]
      tauto

theorem mem_foldl_insertDesc {α β : Type} [LinearOrder β] (key : α → β) :
    ∀ (l acc : List α) (z : α),
      (z ∈ l.foldl (fun acc x => Game.insertDesc key x acc) acc) ↔ z ∈ acc ∨ z ∈ l := by
  intro l
  induction l with
  | nil => simp
  | cons x xs ih =>
    intro acc z
    simp only [List.foldl_cons, ih, mem_insertDesc, List.mem_cons]
    tauto

theorem mem_sortDesc {α β : Type} [LinearOrder β] (key : α → β) (l : List α) (z : α) :
    z ∈ Game.sortDesc key l ↔ z ∈ l := by
  unfold Game.sortDesc
  rw [mem_foldl_insertDesc]
  simp

end Game

namespace Astar

/-! ### Stability of the search in its fuel -/

theorem astarLoop_stable (nbrs : Pos → Option (List Pos)) (d : Pos → Pos → Nat)
    (hf : Pos → Nat) (goal : Pos) :
    ∀ (fuel : Nat) (st : AState) (r : AResult),
      astarLoop nbrs d hf goal fuel st = r → r ≠ .out →
      ∀ (fuel' : Nat), fuel ≤ fuel' → astarLoop nbrs d hf goal fuel' st = r := by
  intro fuel
  induction fuel with
  | zero =>
    intro st r hr hne
    simp only [astarLoop] at hr
    exact absurd hr.symm hne
  | succ n ih =>
    intro st r hr hne fuel' hle
    obtain ⟨m, rfl⟩ : ∃ m, fuel' = m + 1 := ⟨fuel' - 1, by omega⟩
    rw [astarLoop] at hr ⊢
    cases hm : heapMin st.open_set with
    | none => rw [hm] at hr; simpa using hr
    | some e =>
      rw [hm] at hr
      simp only at hr ⊢
      by_cases hg : e.2 = goal
      · simp only [hg, if_pos rfl] at hr ⊢
        exact hr
      · simp only [if_neg hg] at hr ⊢
        cases hn : nbrs e.2 with
        | none => rw [hn] at hr; simpa using hr
        | some l =>
          rw [hn] at hr
          simp only at hr ⊢
          exact ih _ _ hr hne m (by omega)

theorem A_star_stable (start goal : Pos) (nbrs : Pos → Option (List Pos))
    (d : Pos → Pos → Nat) (hf : Pos → Nat) (fuel : Nat) (r : AResult)
    (hr : A_star start goal nbrs d hf fuel = r) (hne : r ≠ .out)
    (fuel' : Nat) (hle : fuel ≤ fuel') : A_star start goal nbrs d hf fuel' = r :=
  astarLoop_stable nbrs d hf goal fuel _ r hr hne fuel' hle

theorem A_star_voiture_stable (m : PyMap) (start goal : Pos) (fuel : Nat) (r : AResult)
    (hr : A_star_voiture m start goal fuel = r) (hne : r ≠ .out)
    (fuel' : Nat) (hle : fuel ≤ fuel') : A_star_voiture m start goal fuel' = r :=
  A_star_stable start goal (neighbors_one_move_udlr m) d_manhattan (d_manhattan goal)
    fuel r hr hne fuel' hle

/-! ### C10: searching for the start cell itself -/

/-- C10: for every start cell and every neighbour function, edge cost and
heuristic, `A_star` with `goal = start` immediately returns the single-cell
path `[start]`: the initial open-set entry is popped, `current == goal` holds
before any call to `neighbors`, and `reconstruct_path` of the empty
predecessor map is `[start]`.  No walkability condition is ever consulted, so
this holds even when the cell is a wall or outside the walkability grid. -/
theorem astar_goal_eq_start (start : Pos) (nbrs : Pos → Option (List Pos))
    (d : Pos → Pos → Nat) (hf : Pos → Nat) (fuel : Nat) (hfuel : 1 ≤ fuel) :
    A_star start start nbrs d hf fuel = .path [start] := by
  obtain ⟨n, rfl⟩ : ∃ n, fuel = n + 1 := ⟨fuel - 1, by omega⟩
  simp [A_star, astarLoop, heapMin, reconstructAux, dictGet, dictSet]

/-- Witness for C10: the empty map, whose every cell is out of bounds. -/
theorem astar_goal_eq_start_witness :
    1 ≤ 1 ∧ A_star (5, 5) (5, 5) (neighbors_one_move_udlr [])
      d_manhattan (d_manhattan (5, 5)) 1 = .path [(5, 5)] :=
  ⟨le_refl 1,
    astar_goal_eq_start (5, 5) (neighbors_one_move_udlr []) d_manhattan
      (d_manhattan (5, 5)) 1 (le_refl 1)⟩

/-- C1 counterexample: on the all-walkable 3×3 map the instance
`start = (0,0)`, `goal = (2,2)` is solvable (a concrete shortest path is
exhibited), yet `A_star_classic` with the `udlr` neighbour function never
returns a path: expanding the cell `(0, 2)` probes `map[0][3]` and raises
`IndexError`, whatever the fuel. -/
theorem astar_crash_on_solvable :
    IsPath mAll3 (0, 0) (2, 2) [(0, 0), (1, 0), (2, 0), (2, 1), (2, 2)] ∧
    ∀ (fuel : Nat) (l : List Pos), A_star_voiture mAll3 (0, 0) (2, 2) fuel ≠ .path l := by
  refine ⟨by decide, fun fuel l h => ?_⟩
  have herr : A_star_voiture mAll3 (0, 0) (2, 2) 3 = .err := by decide
  have h1 : A_star_voiture mAll3 (0, 0) (2, 2) (fuel + 3) = .path l :=
    A_star_voiture_stable _ _ _ fuel _ h (by simp) (fuel + 3) (by omega)
  have h2 : A_star_voiture mAll3 (0, 0) (2, 2) (fuel + 3) = .err :=
    A_star_voiture_stable _ _ _ 3 _ herr (by simp) (fuel + 3) (by omega)
  rw [h1] at h2
  exact absurd h2 (by simp)

/-- C2 counterexample: on `mRow3` with `start = (0,0)` and the wall cell
`goal = (1,0)`, the search never returns the "no path" result `None`: the
flood around the start region probes `map[0][3]` and raises `IndexError`
(fuel 8 reaches it), so the open set never empties cleanly. -/
theorem astar_crash_on_wall_goal :
    mapAt mRow3 (1, 0) = some false ∧
    A_star_voiture mRow3 (0, 0) (1, 0) 8 = .err ∧
    ∀ (fuel : Nat), A_star_voiture mRow3 (0, 0) (1, 0) fuel ≠ .noPath := by
  have herr : A_star_voiture mRow3 (0, 0) (1, 0) 8 = .err := by decide
  refine ⟨by decide, herr, fun fuel h => ?_⟩
  have h1 : A_star_voiture mRow3 (0, 0) (1, 0) (fuel + 8) = .noPath :=
    A_star_voiture_stable _ _ _ fuel _ h (by simp) (fuel + 8) (by omega)
  have h2 : A_star_voiture mRow3 (0, 0) (1, 0) (fuel + 8) = .err :=
    A_star_voiture_stable _ _ _ 8 _ herr (by simp) (fuel + 8) (by omega)
  rw [h1] at h2
  exact absurd h2 (by simp)

end Astar

namespace CarrierV2

open Game CarrierCore

theorem bfsExpand_step (s : CarrierState) (st0 : Int × Int) (cx cy : Int)
    (hc : CReach s.map st0 (cx, cy)) (acc : List (Int × Int) × List (Int × Int))
    (h1 : ∀ c ∈ acc.2, CReach s.map st0 c) (h2 : ∀ c ∈ acc.1, c ∈ acc.2)
    (d : Int × Int) (hd : |d.1| + |d.2| = 1) :
    (∀ c ∈ (bfsExpand s cx cy acc d).2, CReach s.map st0 c) ∧
    (∀ c ∈ (bfsExpand s cx cy acc d).1, c ∈ (bfsExpand s cx cy acc d).2) := by
  unfold bfsExpand
  dsimp only
  split_ifs with h
  · obtain ⟨-, hx0, hxw, hy0, hyh, hw⟩ := h
    have hreach : CReach s.map st0 (cx + d.1, cy + d.2) := by
      refine CReach.step hc ⟨hx0, hxw, hy0, hyh, hw⟩ ?_
      have e1 : cx - (cx + d.1) = -d.1 := by ring
      have e2 : cy - (cy + d.2) = -d.2 := by ring
      simp only [e1, e2, abs_neg]
      exact hd
    constructor
    · intro c hcmem
      rcases List.mem_append.mp hcmem with hcm | hcm
      · exact h1 c hcm
      · simp only [List.mem_singleton] at hcm
        exact hcm ▸ hreach
    · intro c hcmem
      rcases List.mem_append.mp hcmem with hcm | hcm
      · exact List.mem_append_left _ (h2 c hcm)
      · exact List.mem_append_right _ hcm
  · exact ⟨h1, h2⟩

theorem bfsExpand_fold (s : CarrierState) (st0 : Int × Int) (cx cy : Int)
    (hc : CReach s.map st0 (cx, cy)) :
    ∀ (ds : List (Int × Int)), (∀ d ∈ ds, |d.1| + |d.2| = 1) →
    ∀ (acc : List (Int × Int) × List (Int × Int)),
      (∀ c ∈ acc.2, CReach s.map st0 c) → (∀ c ∈ acc.1, c ∈ acc.2) →
      (∀ c ∈ (ds.foldl (bfsExpand s cx cy) acc).2, CReach s.map st0 c) ∧
      (∀ c ∈ (ds.foldl (bfsExpand s cx cy) acc).1, c ∈ (ds.foldl (bfsExpand s cx cy) acc).2) := by
  intro ds
  induction ds with
  | nil => intro _ acc h1 h2; exact ⟨h1, h2⟩
  | cons d ds ih =>
    intro hds acc h1 h2
    simp only [List.foldl_cons]
    have hstep := bfsExpand_step s st0 cx cy hc acc h1 h2 d (hds d (List.mem_cons_self d ds))
    exact ih (fun e he => hds e (List.mem_cons_of_mem _ he)) _ hstep.1 hstep.2

theorem bfsLoop_sound (s : CarrierState) (st0 : Int × Int) (ex ey : Int) :
    ∀ (fuel : Nat) (queue visited : List (Int × Int)),
      (∀ c ∈ visited, CReach s.map st0 c) → (∀ c ∈ queue, c ∈ visited) →
      bfsLoop s ex ey fuel queue visited = true → CReach s.map st0 (ex, ey) := by
  intro fuel
  induction fuel with
  | zero => intro queue visited _ _ h; simp [bfsLoop] at h
  | succ n ih =>
    intro queue visited h1 h2 h
    match queue, h2, h with
    | [], h2, h => simp [bfsLoop] at h
    | (cx, cy) :: rest, h2, h =>
      rw [bfsLoop] at h
      by_cases hgoal : cx = ex ∧ cy = ey
      · have : (cx, cy) ∈ visited := h2 _ (List.mem_cons_self _ _)
        have := h1 _ this
        rwa [hgoal.1, hgoal.2] at this
      · simp only [if_neg hgoal] at h
        have hcr : CReach s.map st0 (cx, cy) := h1 _ (h2 _ (List.mem_cons_self _ _))
        have hdirs : ∀ d ∈ bfsDirs, |d.1| + |d.2| = 1 := by decide
        have hrest : ∀ c ∈ rest, c ∈ visited := fun c hcm => h2 c (List.mem_cons_of_mem _ hcm)
        have hfold := bfsExpand_fold s st0 cx cy hcr bfsDirs hdirs (rest, visited) h1 hrest
        exact ih _ _ hfold.1 hfold.2 h

theorem find_path_sound (s : CarrierState) (a b : Position)
    (h : find_path s a b = true) : CReach s.map (a.x, a.y) (b.x, b.y) := by
  unfold find_path at h
  by_cases hv : is_valid_position s b = false
  · rw [if_pos hv] at h
    exact absurd h (by simp)
  · rw [if_neg hv] at h
    refine bfsLoop_sound s (a.x, a.y) b.x b.y _ _ _ ?_ ?_ h
    · intro c hcm
      simp only [List.mem_singleton] at hcm
      exact hcm ▸ CReach.refl
    · intro c hcm
      exact hcm

/-- C3 (amended, CarrierV2): whenever `find_blitzium_in_zone` selects an item,
that item passed the BFS reachability filter — so a wall-avoiding
4-directional path from the carrier to it exists — and among all filtered
candidates it maximises value first, with smaller Manhattan distance used only
to break value ties (never the reverse). -/
theorem find_blitzium_reachable_and_best (s : CarrierState) (ce cn : Bool) (it : Item)
    (h : find_blitzium_in_zone s ce cn = some it) :
    CReach s.map (s.position.x, s.position.y) (it.position.x, it.position.y) ∧
    it ∈ validBlitz s ce cn ∧
    ∀ j ∈ validBlitz s ce cn,
      j.value < it.value ∨ (j.value = it.value ∧
        manhattanP it.position s.position ≤ manhattanP j.position s.position) := by
  unfold find_blitzium_in_zone at h
  dsimp only at h
  by_cases hemp : (validBlitz s ce cn).isEmpty = true
  · rw [if_pos hemp] at h
    exact absurd h (by simp)
  · rw [if_neg hemp] at h
    have hmax := pickBest_max_key (blitzKey s) _ it h
    have hmem := hmax.1
    have hreach : find_path s s.position it.position = true := by
      have hm := hmem
      unfold validBlitz at hm
      rw [List.mem_filter] at hm
      have hconj := hm.2
      rw [Bool.and_assoc, Bool.and_eq_true, Bool.and_eq_true] at hconj
      exact hconj.2.1
    refine ⟨find_path_sound s _ _ hreach, hmem, ?_⟩
    intro j hj
    have hle := hmax.2 j hj
    unfold blitzKey at hle
    rw [Prod.Lex.le_iff] at hle
    rcases hle with h1 | ⟨h1, h2⟩
    · exact Or.inl h1
    · simp only at h1 h2
      exact Or.inr ⟨h1, by linarith⟩

/-- Witness for the amended C3 on the concrete 5×5 scenario: the selected
enemy-zone blitzium item is reachable and value-maximal. -/
theorem find_blitzium_reachable_and_best_witness :
    CReach Scenarios.sC7.map (Scenarios.sC7.position.x, Scenarios.sC7.position.y)
      (Scenarios.itemBlitz.position.x, Scenarios.itemBlitz.position.y) ∧
    Scenarios.itemBlitz ∈ validBlitz Scenarios.sC7 true false ∧
    ∀ j ∈ validBlitz Scenarios.sC7 true false,
      j.value < Scenarios.itemBlitz.value ∨ (j.value = Scenarios.itemBlitz.value ∧
        manhattanP Scenarios.itemBlitz.position Scenarios.sC7.position ≤
          manhattanP j.position Scenarios.sC7.position) :=
  find_blitzium_reachable_and_best Scenarios.sC7 true false Scenarios.itemBlitz (by decide)

end CarrierV2

namespace CarrierV1

open Game CarrierCore

/-- C3 counterexample: `Carrier.find_blitzium_in_zone` (Carrier.py) has no
reachability filter.  On the 3×1 map `[open, WALL, open]` it selects the
blitzium item at `(2, 0)` although no wall-avoiding path connects the carrier
at `(0, 0)` to it. -/
theorem find_blitzium_selects_unreachable :
    find_blitzium_in_zone Scenarios.sC3 true true = some Scenarios.itemFar ∧
    ¬ CReach Scenarios.sC3.map (0, 0) (2, 0) := by
  refine ⟨by decide, fun hr => ?_⟩
  have key : ∀ c, CReach Scenarios.sC3.map (0, 0) c → c = (0, 0) := by
    intro c hc
    induction hc with
    | refl => rfl
    | step hp hopen hdist ih =>
      exfalso
      rename_i p q
      rw [ih] at hdist
      obtain ⟨hx0, hxw, hy0, hyh, hw⟩ := hopen
      have hy : q.2 = 0 := by
        have : q.2 < 1 := hyh
        omega
      rw [hy] at hdist
      simp only [abs_zero, sub_zero, zero_sub, abs_neg, add_zero] at hdist
      have hx : q.1 = 1 := by
        rcases abs_eq (by norm_num : (0:Int) ≤ 1) |>.mp hdist with h | h
        · exact h
        · omega
      rw [hx, hy] at hw
      exact hw (by norm_num [Scenarios.gm31, Scenarios.sC3])
  exact absurd (key _ hr) (by decide)

end CarrierV1

namespace CarrierSafety

open Game CarrierCore

/-- C9 (amended): `Carrier.is_safe_position` (Carrier.py) returns `true` for
every position in own territory, whatever the carried load and enemy
configuration; `CarrierV2.is_safe_position` additionally requires the
position to pass the BFS reachability check, and then an own-territory
position is likewise always safe. -/
theorem is_safe_in_own_territory :
    (∀ (s : CarrierState) (pos : Position), s.team_zone pos.x pos.y = s.team_id →
      CarrierV1.is_safe_position s pos = true) ∧
    (∀ (s : CarrierState) (pos : Position), s.team_zone pos.x pos.y = s.team_id →
      CarrierV2.find_path s s.position pos = true →
      CarrierV2.is_safe_position s pos = true) := by
  constructor
  · intro s pos h
    have hz : is_in_enemy_zone s pos = false := by
      simp [is_in_enemy_zone, h]
    unfold CarrierV1.is_safe_position
    rw [if_pos (by rw [hz])]
  · intro s pos h hp
    have hz : is_in_enemy_zone s pos = false := by
      simp [is_in_enemy_zone, h]
    unfold CarrierV2.is_safe_position
    rw [if_neg (by rw [hp]; simp), if_pos (by rw [hz])]

/-- Witness for the amended C9 on the concrete all-own-territory scenario. -/
theorem is_safe_in_own_territory_witness :
    CarrierV1.is_safe_position Scenarios.sC9 ⟨0, 0⟩ = true ∧
    CarrierV2.is_safe_position Scenarios.sC9 ⟨0, 0⟩ = true :=
  ⟨is_safe_in_own_territory.1 Scenarios.sC9 ⟨0, 0⟩ (by decide),
   is_safe_in_own_territory.2 Scenarios.sC9 ⟨0, 0⟩ (by decide) (by decide)⟩

/-- C9 counterexample: on the 3×1 map whose zone grid is entirely own
territory, the cell `(2, 0)` is inside own territory yet
`CarrierV2.is_safe_position` reports it unsafe, because its leading BFS check
finds no path around the wall. -/
theorem is_safe_false_in_own_territory :
    Scenarios.sC9.team_zone 2 0 = Scenarios.sC9.team_id ∧
    CarrierV2.is_safe_position Scenarios.sC9 ⟨2, 0⟩ = false :=
  ⟨rfl, by decide⟩

end CarrierSafety

namespace CarrierPriority

open Game CarrierCore

/-- C7 (amended, Carrier.py): a living, empty-handed carrier standing in its
own zone heads for the closest own-zone radiant item when one exists — it
grabs it when co-located and moves to it otherwise — before any blitzium
consideration.  (CarrierV2 instead tries blitzium first; see the
counterexample.) -/
theorem carrier_v1_radiant_first (s : CarrierState)
    (halive : s.alive = true)
    (hzone : is_in_team_zone s s.position = true)
    (hempty : s.items = [])
    (r : Item) (hr : CarrierV1.find_radiant_in_team_zone s = some r) :
    CarrierV1.get_action s =
      some (if s.position.x = r.position.x ∧ s.position.y = r.position.y
        then Action.grab s.car_id else Action.moveTo s.car_id r.position) := by
  unfold CarrierV1.get_action
  rw [halive]
  have hstep : CarrierV1.step1 s =
      some (if s.position.x = r.position.x ∧ s.position.y = r.position.y
        then Action.grab s.car_id else Action.moveTo s.car_id r.position) := by
    unfold CarrierV1.step1
    rw [hempty, hzone]
    simp only [List.isEmpty_nil, Bool.and_true, if_true, hr]
    split_ifs with hco
    · rfl
    · rfl
  rw [hstep]
  simp

/-- Witness for the amended C7: on the 5×5 scenario the Carrier.py carrier
heads for the radiant item at `(2, 1)`. -/
theorem carrier_v1_radiant_first_witness :
    CarrierV1.get_action Scenarios.sC7 = some (Action.moveTo "c1" ⟨2, 1⟩) :=
  (carrier_v1_radiant_first Scenarios.sC7 rfl (by decide) rfl
    Scenarios.itemRad (by decide)).trans (by decide)

/-- C7 counterexample: the 5×5 scenario satisfies the claim's premises — an
empty-handed carrier with free capacity, a reachable radiant item in own
territory and a reachable blitzium item in enemy territory — yet
`CarrierV2.get_action` emits a move towards the blitzium item at `(3, 1)`,
not towards (or a grab of) the radiant item at `(2, 1)`. -/
theorem carrier_v2_blitzium_first :
    Scenarios.sC7.items = [] ∧ Scenarios.sC7.hasSpace = true ∧
    Scenarios.itemRad ∈ Scenarios.sC7.all_items ∧
    is_in_team_zone Scenarios.sC7 Scenarios.itemRad.position = true ∧
    CReach Scenarios.sC7.map (1, 1) (2, 1) ∧
    Scenarios.itemBlitz ∈ Scenarios.sC7.all_items ∧
    is_in_enemy_zone Scenarios.sC7 Scenarios.itemBlitz.position = true ∧
    CReach Scenarios.sC7.map (1, 1) (3, 1) ∧
    CarrierV2.get_action Scenarios.sC7 = .ok (some (.moveTo "c1" ⟨3, 1⟩)) ∧
    Scenarios.itemRad.position ≠ (⟨3, 1⟩ : Position) := by
  refine ⟨rfl, rfl, by decide, by decide, ?_, by decide, by decide, ?_, by decide, by decide⟩
  · exact CarrierV2.find_path_sound Scenarios.sC7 ⟨1, 1⟩ ⟨2, 1⟩ (by decide)
  · exact CarrierV2.find_path_sound Scenarios.sC7 ⟨1, 1⟩ ⟨3, 1⟩ (by decide)

end CarrierPriority

namespace Astar

theorem dictGet_set_self {κ β : Type} [DecidableEq κ] (d : List (κ × β)) (k : κ) (v : β) :
    dictGet (dictSet d k v) k = some v := by
  simp [dictGet, dictSet, List.find?]

theorem dictGet_set_ne {κ β : Type} [DecidableEq κ] (d : List (κ × β)) (k k' : κ) (v : β)
    (h : k' ≠ k) : dictGet (dictSet d k v) k' = dictGet d k' := by
  unfold dictGet dictSet
  have hkv : (decide ((k, v).1 = k')) = false := by simpa using fun e => h e.symm
  simp only [List.find?_cons, hkv]
  induction d with
  | nil => simp
  | cons e rest ih =>
    by_cases hk : e.1 = k
    · have hpe : (decide (e.1 ≠ k)) = false := by simpa using hk
      have hne : (decide (e.1 = k')) = false := by
        simp only [decide_eq_false_iff_not]
        rw [hk]
        exact fun e => h e.symm
      rw [List.filter_cons, hpe]
      simp only [Bool.false_eq_true, if_false, List.find?_cons, hne]
      exact ih
    · have hpe : (decide (e.1 ≠ k)) = true := by simpa using hk
      rw [List.filter_cons, hpe]
      simp only [if_true, List.find?_cons]
      by_cases he : e.1 = k'
      · have : (decide (e.1 = k')) = true := by simpa using he
        rw [this]
      · have : (decide (e.1 = k')) = false := by simpa using he
        rw [this]
        exact ih

theorem dictGet_filter {κ β : Type} [DecidableEq κ] (p : κ × β → Bool) (d : List (κ × β))
    (k : κ) (hp : ∀ v, p (k, v) = true) : dictGet (d.filter p) k = dictGet d k := by
  induction d with
  | nil => simp [dictGet]
  | cons e rest ih =>
    by_cases he : e.1 = k
    · have hpe : p e = true := by
        have : e = (k, e.2) := by
          cases e; simp_all
        rw [this]
        exact hp e.2
      rw [List.filter_cons, hpe]
      unfold dictGet
      have : (decide (e.1 = k)) = true := by simpa using he
      simp only [if_true, List.find?_cons, this]
    · unfold dictGet
      rw [List.filter_cons]
      have hne : (decide (e.1 = k)) = false := by simpa using he
      by_cases hpe : p e = true
      · rw [hpe]
        simp only [if_true, List.find?_cons, hne]
        exact ih
      · rw [Bool.not_eq_true] at hpe
        rw [hpe]
        simp only [Bool.false_eq_true, if_false, List.find?_cons, hne]
        exact ih

theorem dictGet_mem {κ β : Type} [DecidableEq κ] (d : List (κ × β)) (k : κ) (v : β)
    (h : dictGet d k = some v) : (k, v) ∈ d := by
  unfold dictGet at h
  rcases Option.map_eq_some'.mp h with ⟨e, hfind, hsnd⟩
  have hkey : e.1 = k := by simpa using List.find?_some hfind
  have hmem := List.mem_of_find?_eq_some hfind
  have : e = (k, v) := by
    cases e
    simp only at hkey hsnd
    rw [hkey, hsnd]
  exact this ▸ hmem

end Astar

namespace DefenderV2

open Game Astar DefenderCore

theorem pick_new_target_spec (s : DefenderState) (borders : List Position) (reg1 : Registry) :
    (∀ t : Target, (pick_new_target s borders reg1).1 = some t →
      t.defender_id = s.car_id ∧
      dictGet (pick_new_target s borders reg1).2 t.enemy.id = some t ∧
      ∃ e ∈ s.enemies, e.alive = true ∧ e.id = t.enemy.id) ∧
    (∀ (k : String) (tr : Target), dictGet reg1 k = some tr → tr.defender_id ≠ s.car_id →
      dictGet (pick_new_target s borders reg1).2 k = some tr) := by
  unfold pick_new_target
  dsimp only
  cases hfind : (sortDesc (fun et => et.2) ((s.enemies.filter (·.alive)).map fun e =>
      (e, _calculate_threat_level s borders e)))
        |>.find? (fun et => decide (0 < et.2) &&
          ((dictGet reg1 et.1.id).all fun tr => decide (tr.defender_id = s.car_id))) with
  | none =>
    refine ⟨by simp, fun k tr hk _ => hk⟩
  | some et =>
    have hguard := List.find?_some hfind
    rw [Bool.and_eq_true] at hguard
    have hmem := List.mem_of_find?_eq_some hfind
    have hmem2 : et ∈ (s.enemies.filter (·.alive)).map fun e =>
        (e, _calculate_threat_level s borders e) :=
      (Game.mem_sortDesc _ _ _).mp hmem
    rcases List.mem_map.mp hmem2 with ⟨e, hemem,
      hmk⟩
    have halive : e.alive = true := (List.mem_filter.mp hemem).2
    have henemy : e ∈ s.enemies := (List.mem_filter.mp hemem).1
    constructor
    · intro t ht
      simp only [Option.some.injEq] at ht
      constructor
      · rw [← ht]
      · constructor
        · rw [← ht]
          simp only
          exact dictGet_set_self reg1 et.1.id _
        · refine ⟨e, henemy, halive, ?_⟩
          rw [← ht]
          simp only
          rw [← hmk]
    · intro k tr hk hforeign
      have hne : k ≠ et.1.id := by
        intro hkeq
        have := hguard.2
        rw [← hkeq, hk] at this
        simp only [Option.all_some, decide_eq_true_eq] at this
        exact hforeign this
      rw [dictGet_set_ne reg1 et.1.id k _ hne]
      exact hk

theorem update_target_spec (s : DefenderState) (borders : List Position)
    (cur : Option Target) (reg : Registry)
    (hcur : ∀ t : Target, cur = some t → t.defender_id = s.car_id) :
    (∀ t : Target, (_update_target s borders cur reg).1 = some t →
      t.defender_id = s.car_id ∧
      dictGet (_update_target s borders cur reg).2 t.enemy.id = some t ∧
      ∃ e ∈ s.enemies, e.alive = true ∧ e.id = t.enemy.id) ∧
    (∀ (k : String) (tr : Target), dictGet reg k = some tr → tr.defender_id ≠ s.car_id →
      (∃ e ∈ s.enemies, e.alive = true ∧ e.id = k) →
      dictGet (_update_target s borders cur reg).2 k = some tr) := by
  unfold _update_target
  set reg1 := reg.filter fun kv =>
    (s.enemies.filter (·.alive)).any fun e => decide (e.id = kv.1) with hreg1
  have hpass : ∀ (k : String), (∃ e ∈ s.enemies, e.alive = true ∧ e.id = k) →
      ∀ v : Target, ((fun kv => (s.enemies.filter (·.alive)).any
        fun e => decide (e.id = kv.1)) (k, v)) = true := by
    rintro k ⟨e, hmem, hal, hid⟩ v
    simp only [List.any_eq_true, List.mem_filter, decide_eq_true_eq]
    exact ⟨e, ⟨hmem, hal⟩, hid⟩
  have hgetreg1 : ∀ (k : String), (∃ e ∈ s.enemies, e.alive = true ∧ e.id = k) →
      dictGet reg1 k = dictGet reg k := by
    intro k hk
    rw [hreg1]
    exact dictGet_filter _ reg k (hpass k hk)
  have hlive : ∀ (k : String) (v : Target), dictGet reg1 k = some v →
      ∃ e ∈ s.enemies, e.alive = true ∧ e.id = k := by
    intro k v hk
    have := dictGet_mem reg1 k v hk
    rw [hreg1] at this
    have hp := (List.mem_filter.mp this).2
    simp only [List.any_eq_true, List.mem_filter, decide_eq_true_eq] at hp
    rcases hp with ⟨e, ⟨hmem, hal⟩, hid⟩
    exact ⟨e, hmem, hal, hid⟩
  cases cur with
  | none =>
    simp only
    have := pick_new_target_spec s borders reg1
    refine ⟨this.1, fun k tr hk hforeign hex => ?_⟩
    exact this.2 k tr (by rw [hgetreg1 k hex]; exact hk) hforeign
  | some t =>
    simp only
    by_cases hmine : (dictGet reg1 t.enemy.id).any (fun tr => decide (tr.defender_id = s.car_id)) = true
    · rw [if_pos hmine]
      cases hfe : s.enemies.find? fun e => decide (e.id = t.enemy.id) with
      | none =>
        -- the registry guard found a live entry for this id, so some enemy has it
        exfalso
        cases hget : dictGet reg1 t.enemy.id with
        | none => rw [hget] at hmine; simp [Option.any] at hmine
        | some tr0 =>
          rcases hlive _ _ hget with ⟨e, hmem, _, hid⟩
          have := List.find?_eq_none.mp hfe e hmem
          simp only [decide_eq_true_eq] at this
          exact this hid
      | some e =>
        simp only
        have hid : e.id = t.enemy.id := by
          simpa using List.find?_some hfe
        constructor
        · intro t' ht'
          simp only [Option.some.injEq] at ht'
          have hdef : t.defender_id = s.car_id := hcur t rfl
          constructor
          · rw [← ht']
            exact hdef
          · constructor
            · rw [← ht']
              simp only
              exact dictGet_set_self reg1 e.id _
            · cases hget : dictGet reg1 t.enemy.id with
              | none => rw [hget] at hmine; simp [Option.any] at hmine
              | some tr0 =>
                rcases hlive _ _ hget with ⟨e', hmem', hal', hid'⟩
                refine ⟨e', hmem', hal', ?_⟩
                rw [← ht']
                simp only
                exact hid'.trans hid.symm
        · intro k tr hk hforeign hex
          have hne : k ≠ e.id := by
            intro hkeq
            cases hget : dictGet reg1 t.enemy.id with
            | none => rw [hget] at hmine; simp [Option.any] at hmine
            | some tr0 =>
              rw [hget] at hmine
              simp only [Option.any_some, decide_eq_true_eq] at hmine
              have : dictGet reg1 k = some tr := by rw [hgetreg1 k hex]; exact hk
              rw [hkeq, hid, hget] at this
              simp only [Option.some.injEq] at this
              rw [this] at hmine
              exact hforeign hmine
          rw [dictGet_set_ne reg1 e.id k _ hne, hgetreg1 k hex]
          exact hk
    · rw [if_neg hmine]
      have := pick_new_target_spec s borders reg1
      refine ⟨this.1, fun k tr hk hforeign hex => ?_⟩
      exact this.2 k tr (by rw [hgetreg1 k hex]; exact hk) hforeign

end DefenderV2

namespace DefenderV2

open Game Astar DefenderCore

theorem evalDefender_spec (snap : Snapshot) (ai : List Item) (mc : Nat) (c : Character)
    (reg : Registry) (B : List Position)
    (hreset : reset_condition c.id snap.allies = false) :
    ∃ (t' : Option Target) (reg' : Registry),
      evalDefender snap ai mc c reg (some B) = some ((t', reg'), B) ∧
      (∀ t : Target, t' = some t → t.defender_id = c.id ∧
        dictGet reg' t.enemy.id = some t ∧
        ∃ e ∈ snap.enemies, e.alive = true ∧ e.id = t.enemy.id) ∧
      (∀ (k : String) (tr : Target), dictGet reg k = some tr → tr.defender_id ≠ c.id →
        (∃ e ∈ snap.enemies, e.alive = true ∧ e.id = k) → dictGet reg' k = some tr) := by
  have hcur1 : ∀ t : Target, (none : Option Target) = some t →
      t.defender_id = (mkState snap ai mc c).car_id := fun t ht => nomatch ht
  have spec1 := update_target_spec (mkState snap ai mc c) B none reg hcur1
  have hcur2 : ∀ t : Target, (_update_target (mkState snap ai mc c) B none reg).1 = some t →
      t.defender_id = (mkState snap ai mc c).car_id := fun t ht => (spec1.1 t ht).1
  have spec2 := update_target_spec (mkState snap ai mc c) B
    (_update_target (mkState snap ai mc c) B none reg).1
    (_update_target (mkState snap ai mc c) B none reg).2 hcur2
  refine ⟨_, _, ?_, fun t ht => (spec2.1 t ht), fun k tr hk hforeign hex => ?_⟩
  · unfold evalDefender evalInit
    have h2 : reset_condition (mkState snap ai mc c).car_id (mkState snap ai mc c).allies =
        false := hreset
    rw [h2]
    rfl
  · exact spec2.2 k tr (spec1.2 k tr hk hforeign hex) hforeign hex

theorem evalDefender_head_spec (snap : Snapshot) (ai : List Item) (mc : Nat) (c : Character)
    (reg : Registry) (bord : Option (List Position))
    (hreset : reset_condition c.id snap.allies = true) :
    ∃ (t' : Option Target) (reg' : Registry) (B : List Position),
      evalDefender snap ai mc c reg bord = some ((t', reg'), B) ∧
      (∀ t : Target, t' = some t → t.defender_id = c.id ∧
        dictGet reg' t.enemy.id = some t ∧
        ∃ e ∈ snap.enemies, e.alive = true ∧ e.id = t.enemy.id) := by
  set B := _precompute_border_positions (mkState snap ai mc c) with hB
  have hcur1 : ∀ t : Target, (none : Option Target) = some t →
      t.defender_id = (mkState snap ai mc c).car_id := fun t ht => nomatch ht
  have spec1 := update_target_spec (mkState snap ai mc c) B none [] hcur1
  have hcur2 : ∀ t : Target, (_update_target (mkState snap ai mc c) B none []).1 = some t →
      t.defender_id = (mkState snap ai mc c).car_id := fun t ht => (spec1.1 t ht).1
  have spec2 := update_target_spec (mkState snap ai mc c) B
    (_update_target (mkState snap ai mc c) B none []).1
    (_update_target (mkState snap ai mc c) B none []).2 hcur2
  refine ⟨_, _, B, ?_, fun t ht => (spec2.1 t ht)⟩
  unfold evalDefender evalInit
  have h2 : reset_condition (mkState snap ai mc c).car_id (mkState snap ai mc c).allies =
      true := hreset
  rw [h2]
  rfl

theorem runTick_aux (snap : Snapshot) (ai : List Item) (mc : Nat) :
    ∀ (cs : List Character) (reg : Registry) (B : List Position)
      (prev : List (String × Option Target)),
      (∀ c ∈ cs, reset_condition c.id snap.allies = false) →
      (((prev.map (·.1)) ++ cs.map (·.id)).Nodup) →
      TargetInv snap.enemies prev reg →
      ∀ (outs : List (String × Option Target)) (regF : Registry),
        runTick snap ai mc cs reg (some B) = some (outs, regF) →
        outs.map (·.1) = cs.map (·.id) ∧ TargetInv snap.enemies (prev ++ outs) regF := by
  intro cs
  induction cs with
  | nil =>
    intro reg B prev _ _ hinv outs regF hrun
    simp only [runTick, Option.some.injEq, Prod.mk.injEq] at hrun
    rw [← hrun.1, ← hrun.2]
    exact ⟨rfl, by simpa using hinv⟩
  | cons c cs ih =>
    intro reg B prev hreset hnodup hinv outs regF hrun
    rcases evalDefender_spec snap ai mc c reg B
      (hreset c (List.mem_cons_self c cs)) with ⟨t1, reg1, heval, hregt, hpres⟩
    rw [runTick, heval] at hrun
    replace hrun : (runTick snap ai mc cs reg1 (some B)).map
        (fun r => ((c.id, t1) :: r.1, r.2)) = some (outs, regF) := hrun
    cases hrec : runTick snap ai mc cs reg1 (some B) with
    | none => rw [hrec] at hrun; exact absurd hrun (by simp)
    | some r =>
      rw [hrec] at hrun
      simp only [Option.map_some', Option.some.injEq, Prod.mk.injEq] at hrun
      have hcid_not_later : c.id ∉ cs.map (·.id) := by
        have := hnodup
        rw [List.nodup_append] at this
        have h2 := this.2.1
        simp only [List.map_cons] at h2
        exact (List.nodup_cons.mp h2).1
      have hcid_not_prev : ∀ p ∈ prev, p.1 ≠ c.id := by
        intro p hp hpe
        have := hnodup
        rw [List.nodup_append] at this
        have hmem : p.1 ∈ prev.map (fun x => x.1) := List.mem_map_of_mem _ hp
        have hd := this.2.2 hmem
        exact hd (by simp [hpe])
      have hinv' : TargetInv snap.enemies (prev ++ [(c.id, t1)]) reg1 := by
        intro p hp t ht
        rcases List.mem_append.mp hp with hp | hp
        · rcases hinv p hp t ht with ⟨hd, ⟨tr, hget, htr⟩, hal⟩
          refine ⟨hd, ⟨tr, ?_, htr⟩, hal⟩
          exact hpres t.enemy.id tr hget (by rw [htr]; exact hcid_not_prev p hp) hal
        · simp only [List.mem_singleton] at hp
          rw [hp] at ht ⊢
          simp only at ht
          rcases hregt t ht with ⟨hd, hget, hal⟩
          exact ⟨hd, ⟨t, hget, hd⟩, hal⟩
      have hnodup' : (((prev ++ [(c.id, t1)]).map (·.1)) ++ cs.map (·.id)).Nodup := by
        have := hnodup
        simp only [List.map_append, List.map_cons, List.map_singleton] at this ⊢
        rw [List.append_assoc]
        simpa [List.append_assoc] using this
      have := ih reg1 B (prev ++ [(c.id, t1)])
        (fun c' hc' => hreset c' (List.mem_cons_of_mem _ hc')) hnodup' hinv' r.1 r.2
        (by rw [hrec])
      rw [← hrun.1, ← hrun.2]
      constructor
      · simp only [List.map_cons, this.1]
      · have h2 := this.2
        rw [List.append_assoc] at h2
        simpa using h2

theorem targetInv_pairwise (enemies : List Character)
    (outs : List (String × Option Target)) (reg : Registry)
    (hinv : TargetInv enemies outs reg) (hnodup : (outs.map (·.1)).Nodup) :
    outs.Pairwise (fun a b => ∀ ta tb : Target, a.2 = some ta → b.2 = some tb →
      ta.enemy.id ≠ tb.enemy.id) := by
  induction outs with
  | nil => exact List.Pairwise.nil
  | cons p rest ih =>
    simp only [List.map_cons, List.nodup_cons] at hnodup
    refine List.Pairwise.cons ?_ (ih (fun q hq t ht => hinv q (List.mem_cons_of_mem _ hq) t ht)
      hnodup.2)
    intro b hb ta tb hta htb heq
    rcases hinv p (List.mem_cons_self _ _) ta hta with ⟨-, ⟨tr, hget, htr⟩, -⟩
    rcases hinv b (List.mem_cons_of_mem _ hb) tb htb with ⟨-, ⟨tr', hget', htr'⟩, -⟩
    rw [heq, hget'] at hget
    simp only [Option.some.injEq] at hget
    rw [hget] at htr'
    rw [htr] at htr'
    have hmem : p.1 ∈ rest.map (fun x => x.1) := by
      rw [htr']
      exact List.mem_map_of_mem _ hb
    exact hnodup.1 hmem

/-- C4 (amended, DefenderV2): in a tick where the snapshot's allies are
evaluated sequentially in list order (each evaluation being construction plus
the `get_action` target refresh) over one snapshot, starting from any leftover
registry, no two defenders end the tick holding live `Target`s on the same
enemy id — provided the ally ids are distinct, which the registry keys its
claims on. -/
theorem defender_v2_target_exclusion (snap : Snapshot) (ai : List Item) (mc : Nat)
    (reg0 : Registry) (hallies : (snap.allies.map (·.id)).Nodup)
    (outs : List (String × Option Target)) (regF : Registry)
    (hrun : runTick snap ai mc snap.allies reg0 none = some (outs, regF)) :
    outs.Pairwise (fun a b => ∀ ta tb : Target, a.2 = some ta → b.2 = some tb →
      ta.enemy.id ≠ tb.enemy.id) := by
  cases hal : snap.allies with
  | nil =>
    rw [hal] at hrun
    simp only [runTick, Option.some.injEq, Prod.mk.injEq] at hrun
    rw [← hrun.1]
    exact List.Pairwise.nil
  | cons a rest =>
    rw [hal] at hrun hallies
    have hreset_a : reset_condition a.id snap.allies = true := by
      rw [hal]
      unfold reset_condition
      simp
    rcases evalDefender_head_spec snap ai mc a reg0 none hreset_a with
      ⟨t1, reg1, B, heval, hregt⟩
    rw [runTick, heval] at hrun
    replace hrun : (runTick snap ai mc rest reg1 (some B)).map
        (fun r => ((a.id, t1) :: r.1, r.2)) = some (outs, regF) := hrun
    cases hrec : runTick snap ai mc rest reg1 (some B) with
    | none => rw [hrec] at hrun; exact absurd hrun (by simp)
    | some r =>
      rw [hrec] at hrun
      simp only [Option.map_some', Option.some.injEq, Prod.mk.injEq] at hrun
      simp only [List.map_cons, List.nodup_cons] at hallies
      have hinv1 : TargetInv snap.enemies [(a.id, t1)] reg1 := by
        intro p hp t ht
        simp only [List.mem_singleton] at hp
        rw [hp] at ht ⊢
        simp only at ht
        rcases hregt t ht with ⟨hd, hget, hale⟩
        exact ⟨hd, ⟨t, hget, hd⟩, hale⟩
      have hreset_rest : ∀ c ∈ rest, reset_condition c.id snap.allies = false := by
        intro c hc
        rw [hal]
        unfold reset_condition
        simp only [decide_eq_false_iff_not]
        intro hceq
        exact hallies.1 (hceq ▸ List.mem_map_of_mem _ hc)
      have hnodup0 : ((([(a.id, t1)].map (·.1)) ++ rest.map (·.id)).Nodup) := by
        simp only [List.map_singleton, List.singleton_append, List.nodup_cons]
        exact ⟨hallies.1, hallies.2⟩
      have haux := runTick_aux snap ai mc rest reg1 B [(a.id, t1)] hreset_rest hnodup0
        hinv1 r.1 r.2 (by rw [hrec])
      have hout : outs = (a.id, t1) :: r.1 := by rw [← hrun.1]
      rw [hout]
      have hnodupF : (((a.id, t1) :: r.1).map (·.1)).Nodup := by
        simp only [List.map_cons, List.nodup_cons, haux.1]
        exact ⟨hallies.1, hallies.2⟩
      have hinvF : TargetInv snap.enemies ((a.id, t1) :: r.1) r.2 := by
        have := haux.2
        simpa using this
      have := targetInv_pairwise snap.enemies _ r.2 hinvF hnodupF
      exact this

end DefenderV2

namespace DefenderV2

open Game Astar DefenderCore

theorem defender_v2_target_exclusion_witness :
    (Scenarios.snapC4.allies.map (·.id)).Nodup ∧
    List.Pairwise (fun a b => ∀ ta tb : Target, a.2 = some ta → b.2 = some tb →
        ta.enemy.id ≠ tb.enemy.id)
      [("d1", some Scenarios.tE), ("d2", (none : Option Target))] :=
  ⟨by decide,
   defender_v2_target_exclusion Scenarios.snapC4 [] 1 [] (by decide)
     [("d1", some Scenarios.tE), ("d2", none)] [("E", Scenarios.tE)] (by decide)⟩

end DefenderV2

namespace DefenderV1

open Game Astar DefenderCore

/-- C4 counterexample (Defender.py): in the two-defender tick `snapC4` both
defenders end the evaluation sequence holding a live `Target` on the same
enemy id `"E"` — the claim-loop guard compares the registry entry against
`self.car_id` only after the trivially-true reset wiped the registry, so the
second defender re-claims the enemy the first one just took. -/
theorem defender_v1_shared_target :
    ((runTick Scenarios.snapC4 [Scenarios.ally1, Scenarios.ally2] []).map
        fun r => r.1.map fun p => (p.1, p.2.map fun t => t.enemy.id)) =
      some [("d1", some "E"), ("d2", some "E")] ∧
    Scenarios.ally1.id ≠ Scenarios.ally2.id := by
  exact ⟨by decide, by decide⟩

/-- C5 (code bug, Defender.py): the registry-reset guard of
`Defender.__init__` is `any(ally.id == self.allies[0].id for ally in
self.allies)`, which compares the first ally's id against itself: it is `True`
for every nonempty ally list and never depends on which defender is being
constructed, so every defender evaluation of a tick clears the shared `Target`
registry — not only the first-listed ally's. -/
theorem reset_condition_always_true (a : Character) (rest : List Character) :
    reset_condition (a :: rest) = some true := by
  unfold reset_condition
  simp

end DefenderV1

namespace DefenderCore

open Game Astar

theorem nearestOwnCellDist_cases (zone : Int → Int → String) (team : String) (w h : Int)
    (p : Position) (d : Int) (hd : nearestOwnCellDist zone team w h p = some d) :
    ∃ x y : Int, zone x y = team ∧ d = manhattan_distance p ⟨x, y⟩ := by
  unfold nearestOwnCellDist at hd
  have hmem := Game.pickBest_mem _ _ _ hd
  rcases List.mem_flatMap.mp hmem with ⟨x, _, hmem2⟩
  rcases List.mem_filterMap.mp hmem2 with ⟨y, _, hif⟩
  by_cases hz : zone x y = team
  · rw [if_pos hz] at hif
    simp only [Option.some.injEq] at hif
    exact ⟨x, y, hz, hif.symm⟩
  · rw [if_neg hz] at hif
    exact absurd hif (by simp)

theorem nearestOwnCellDist_pos_of_outside (zone : Int → Int → String) (team : String)
    (w h : Int) (p : Position) (d : Int)
    (hd : nearestOwnCellDist zone team w h p = some d)
    (hout : zone p.x p.y ≠ team) : 1 ≤ d := by
  rcases nearestOwnCellDist_cases zone team w h p d hd with ⟨x, y, hz, hdist⟩
  unfold manhattan_distance at hdist
  dsimp only at hdist
  have hax := abs_nonneg (p.x - x)
  have hay := abs_nonneg (p.y - y)
  by_contra hlt
  push_neg at hlt
  have hzero : |p.x - x| + |p.y - y| = 0 := by omega
  have hx0 : p.x - x = 0 := abs_eq_zero.mp (by omega)
  have hy0 : p.y - y = 0 := abs_eq_zero.mp (by omega)
  apply hout
  have hxx : p.x = x := by omega
  have hyy : p.y = y := by omega
  rw [hxx, hyy]
  exact hz

end DefenderCore

namespace DefenderThreat

open Game Astar DefenderCore

/-- C6 (amended): threat scoring in both defenders.  (i)–(ii) a dead enemy
scores `0` in either version.  (iii) the `Defender.py` score is monotone in
the distance to the nearest own-territory cell: among living enemies on the
same side of the territory boundary, the closer one never scores lower.
(iv) in `Defender.py` a living enemy inside own territory (×5 multiplier)
strictly outranks every living enemy outside it.  (v) the `DefenderV2.py`
score is monotone in the distance to the *precomputed border cells* — not to
the nearest own-territory cell, on which it is not monotone (see the
counterexample). -/
theorem threat_level_spec :
    (∀ (s : DefenderV1.DefenderState) (e : Character), e.alive = false →
        DefenderV1.calculate_threat_level s e = 0) ∧
    (∀ (s : DefenderV2.DefenderState) (B : List Position) (e : Character), e.alive = false →
        DefenderV2._calculate_threat_level s B e = 0) ∧
    (∀ (s : DefenderV1.DefenderState) (e1 e2 : Character) (d1 d2 : Int),
        e1.alive = true → e2.alive = true →
        DefenderV1.min_border_dist s e1.position = some d1 →
        DefenderV1.min_border_dist s e2.position = some d2 →
        d1 ≤ d2 →
        DefenderV1.is_in_our_territory s e1.position =
          DefenderV1.is_in_our_territory s e2.position →
        DefenderV1.calculate_threat_level s e2 ≤ DefenderV1.calculate_threat_level s e1) ∧
    (∀ (s : DefenderV1.DefenderState) (eI eO : Character),
        eI.alive = true → eO.alive = true →
        DefenderV1.is_in_our_territory s eI.position = true →
        DefenderV1.is_in_our_territory s eO.position = false →
        DefenderV1.calculate_threat_level s eO < DefenderV1.calculate_threat_level s eI) ∧
    (∀ (s : DefenderV2.DefenderState) (B : List Position) (e1 e2 : Character) (d1 d2 : Int),
        e1.alive = true → e2.alive = true →
        DefenderV2.min_border_dist B e1.position = some d1 →
        DefenderV2.min_border_dist B e2.position = some d2 →
        d1 ≤ d2 →
        DefenderV2._is_in_our_territory s e1.position =
          DefenderV2._is_in_our_territory s e2.position →
        DefenderV2._calculate_threat_level s B e2 ≤
          DefenderV2._calculate_threat_level s B e1) := by
  refine ⟨?_, ?_, ?_, ?_, ?_⟩
  · intro s e he
    simp [DefenderV1.calculate_threat_level, he]
  · intro s B e he
    simp [DefenderV2._calculate_threat_level, he]
  · intro s e1 e2 d1 d2 h1 h2 hd1 hd2 hle hins
    unfold DefenderV1.calculate_threat_level
    rw [h1, h2, hd1, hd2]
    simp only [Bool.not_true, Bool.false_eq_true, if_false]
    have hmax : max 20 (100 - 10 * d2) ≤ max 20 (100 - 10 * d1) :=
      max_le_max le_rfl (by omega)
    rw [← hins]
    by_cases hin : DefenderV1.is_in_our_territory s e1.position = true
    · rw [if_pos hin, if_pos hin]
      exact mul_le_mul_of_nonneg_right hmax (by norm_num)
    · rw [if_neg hin, if_neg hin]
      exact hmax
  · intro s eI eO hI hO hinI hinO
    unfold DefenderV1.calculate_threat_level
    rw [hI, hO, hinI, hinO]
    simp only [Bool.not_true, Bool.false_eq_true, if_false, if_true]
    have hIin : 100 ≤ (match DefenderV1.min_border_dist s eI.position with
        | none => (20 : Int)
        | some d => max 20 (100 - 10 * d)) * 5 := by
      cases hdI : DefenderV1.min_border_dist s eI.position with
      | none => norm_num
      | some d =>
        have : (20 : Int) ≤ max 20 (100 - 10 * d) := le_max_left _ _
        nlinarith
    have hOout : (match DefenderV1.min_border_dist s eO.position with
        | none => (20 : Int)
        | some d => max 20 (100 - 10 * d)) ≤ 90 := by
      cases hdO : DefenderV1.min_border_dist s eO.position with
      | none => norm_num
      | some d =>
        have hd1 : 1 ≤ d := by
          refine nearestOwnCellDist_pos_of_outside s.team_zone s.team_id
            s.map.width s.map.height eO.position d hdO ?_
          unfold DefenderV1.is_in_our_territory at hinO
          simpa using hinO
        have h90 : (100 - 10 * d : Int) ≤ 90 := by omega
        exact max_le (by norm_num) h90
    omega
  · intro s B e1 e2 d1 d2 h1 h2 hd1 hd2 hle hins
    unfold DefenderV2._calculate_threat_level
    rw [h1, h2, hd1, hd2]
    simp only [Bool.not_true, Bool.false_eq_true, if_false]
    have hmax : max 20 (100 - 10 * d2) ≤ max 20 (100 - 10 * d1) :=
      max_le_max le_rfl (by omega)
    rw [← hins]
    by_cases hin : DefenderV2._is_in_our_territory s e1.position = true
    · rw [if_pos hin, if_pos hin]
      exact mul_le_mul_of_nonneg_right hmax (by norm_num)
    · rw [if_neg hin, if_neg hin]
      exact hmax

theorem threat_level_spec_witness :
    DefenderV1.calculate_threat_level Scenarios.sD6 Scenarios.enemyDead = 0 ∧
    DefenderV2._calculate_threat_level Scenarios.sC6 [] Scenarios.enemyDead = 0 ∧
    DefenderV1.calculate_threat_level Scenarios.sD6 Scenarios.enemyFar ≤
      DefenderV1.calculate_threat_level Scenarios.sD6 Scenarios.enemyNear ∧
    DefenderV1.calculate_threat_level Scenarios.sD6 Scenarios.enemyFar <
      DefenderV1.calculate_threat_level Scenarios.sD6 Scenarios.enemyIn ∧
    DefenderV2._calculate_threat_level Scenarios.sC6 [⟨4, 2⟩] Scenarios.enemyNear ≤
      DefenderV2._calculate_threat_level Scenarios.sC6 [⟨4, 2⟩] Scenarios.enemyFar :=
  ⟨threat_level_spec.1 Scenarios.sD6 Scenarios.enemyDead (by decide),
   threat_level_spec.2.1 Scenarios.sC6 [] Scenarios.enemyDead (by decide),
   threat_level_spec.2.2.1 Scenarios.sD6 Scenarios.enemyNear Scenarios.enemyFar 2 4
     (by decide) (by decide) (by decide) (by decide) (by decide) (by decide),
   threat_level_spec.2.2.2.1 Scenarios.sD6 Scenarios.enemyIn Scenarios.enemyFar
     (by decide) (by decide) (by decide) (by decide),
   threat_level_spec.2.2.2.2 Scenarios.sC6 [⟨4, 2⟩] Scenarios.enemyFar Scenarios.enemyNear 4 5
     (by decide) (by decide) (by decide) (by decide) (by decide) (by decide)⟩

/-- C6 counterexample (DefenderV2.py): on the `gm75` board the own cell
`(1,2)` is walled off, so it is own territory but not a precomputed border
cell.  `enemyNear` is strictly closer to the nearest own-territory cell than
`enemyFar` (distance 2 vs 4), both are alive and outside own territory, yet
its V2 threat level is strictly lower (50 < 60): the V2 score decays with the
distance to the border cells, not with the distance to own territory, and is
not monotone in the latter. -/
theorem threat_v2_not_monotone :
    nearestOwnCellDist Scenarios.zone75 "A" 7 5 Scenarios.enemyNear.position = some 2 ∧
    nearestOwnCellDist Scenarios.zone75 "A" 7 5 Scenarios.enemyFar.position = some 4 ∧
    Scenarios.enemyNear.alive = true ∧ Scenarios.enemyFar.alive = true ∧
    DefenderV2._is_in_our_territory Scenarios.sC6 Scenarios.enemyNear.position = false ∧
    DefenderV2._is_in_our_territory Scenarios.sC6 Scenarios.enemyFar.position = false ∧
    DefenderV2._calculate_threat_level Scenarios.sC6
        (DefenderV2._precompute_border_positions Scenarios.sC6) Scenarios.enemyNear <
      DefenderV2._calculate_threat_level Scenarios.sC6
        (DefenderV2._precompute_border_positions Scenarios.sC6) Scenarios.enemyFar := by
  decide

end DefenderThreat

namespace DefenderV1

open Game Astar DefenderCore

/-- C8 (code bug, Defender.py): `Defender.__init__` never assigns `self.items`
or `self.all_items`, but `is_safe_to_clean_radiant` — reached through
`find_nearby_radiant` on every path of `get_action` that survives the
targeting block — begins by reading `self.items`: every such evaluation
raises `AttributeError` instead of returning an action or `None`.  In
particular the degenerate tick `snapC8` with no enemies and no items crashes
the defender rather than yielding a no-op. -/
theorem defender_get_action_raises :
    (∀ s : DefenderState, afterTarget s = .error ()) ∧
    get_action Scenarios.sC8 none [] = .error () :=
  ⟨fun _ => rfl, by decide⟩

end DefenderV1

namespace Astar

/-! ### Grid-path and reachability toolkit for the search claims -/

theorem adjStep_ne (m : PyMap) (p q : Pos) (h : adjStep m p q) : q ≠ p := by
  rcases h with ⟨-, h | h⟩
  · rintro rfl
    rcases h.2 with h2 | h2 <;> omega
  · rintro rfl
    rcases h.2 with h2 | h2 <;> omega

theorem d_manhattan_adj (m : PyMap) (p q : Pos) (h : adjStep m p q) :
    d_manhattan p q = 1 := by
  unfold d_manhattan
  rcases h with ⟨-, ⟨h1, h2 | h2⟩ | ⟨h1, h2 | h2⟩⟩ <;> omega

theorem d_manhattan_self (p : Pos) : d_manhattan p p = 0 := by
  simp [d_manhattan]

theorem d_manhattan_triangle (a b c : Pos) :
    d_manhattan a c ≤ d_manhattan a b + d_manhattan b c := by
  unfold d_manhattan
  omega

theorem d_manhattan_comm (a b : Pos) : d_manhattan a b = d_manhattan b a := by
  unfold d_manhattan
  omega

theorem ReachN_succ_self (m : PyMap) (s : Pos) (k : Nat) (p : Pos)
    (h : ReachN m s k p) : ReachN m s (k + 1) p := Or.inl h

theorem ReachN_mono (m : PyMap) (s : Pos) (j k : Nat) (hjk : j ≤ k) (p : Pos)
    (h : ReachN m s j p) : ReachN m s k p := by
  induction k with
  | zero =>
    have : j = 0 := by omega
    rw [this] at h
    exact h
  | succ k ih =>
    by_cases hj : j = k + 1
    · rw [hj] at h
      exact h
    · exact Or.inl (ih (by omega))

theorem ReachN_step (m : PyMap) (s : Pos) (k : Nat) (c p : Pos)
    (hc : ReachN m s k c) (hstep : adjStep m c p) : ReachN m s (k + 1) p :=
  Or.inr ⟨c, hc, hstep⟩

theorem Reach_refl (m : PyMap) (s : Pos) : Reach m s s := ⟨0, rfl⟩

theorem Reach_step (m : PyMap) (s c p : Pos) (hc : Reach m s c)
    (hstep : adjStep m c p) : Reach m s p := by
  rcases hc with ⟨k, hk⟩
  exact ⟨k + 1, ReachN_step m s k c p hk hstep⟩

theorem ReachN_elim (m : PyMap) (s : Pos) (k : Nat) (p : Pos)
    (h : ReachN m s k p) : p = s ∨ walkable m p := by
  induction k with
  | zero => exact Or.inl h
  | succ k ih =>
    rcases h with h | ⟨c, -, hstep⟩
    · exact ih h
    · exact Or.inr hstep.1

theorem Reach_elim (m : PyMap) (s p : Pos) (h : Reach m s p) :
    p = s ∨ walkable m p := by
  rcases h with ⟨k, hk⟩
  exact ReachN_elim m s k p hk

theorem isPathFrom_snoc (m : PyMap) :
    ∀ (l : List Pos) (s c q : Pos), IsPathFrom m s l → l.getLast? = some c →
      adjStep m c q → IsPathFrom m s (l ++ [q]) ∧ (l ++ [q]).getLast? = some q := by
  intro l
  induction l with
  | nil => intro s c q h; exact absurd h id
  | cons a rest ih =>
    intro s c q h hlast hstep
    cases rest with
    | nil =>
      simp only [IsPathFrom] at h
      simp only [List.getLast?_singleton, Option.some.injEq] at hlast
      refine ⟨⟨h, ?_, rfl⟩, by simp⟩
      rw [h] at hlast
      rw [← hlast] at hstep
      exact hstep
    | cons b rest' =>
      rcases h with ⟨has, hstep1, hrest⟩
      have hlast' : (b :: rest').getLast? = some c := by
        rw [← hlast]
        simp [List.getLast?_cons_cons]
      rcases ih b c q hrest hlast' hstep with ⟨h1, h2⟩
      refine ⟨⟨has, hstep1, h1⟩, ?_⟩
      simpa using h2

theorem isPath_snoc (m : PyMap) (l : List Pos) (s c q : Pos)
    (h : IsPath m s c l) (hstep : adjStep m c q) : IsPath m s q (l ++ [q]) := by
  rcases h with ⟨h1, h2⟩
  rcases isPathFrom_snoc m l s c q h1 h2 hstep with ⟨h3, h4⟩
  exact ⟨h3, h4⟩

theorem pathOfReachN (m : PyMap) (s : Pos) :
    ∀ (k : Nat) (p : Pos), ReachN m s k p →
      ∃ l, IsPath m s p l ∧ l.length ≤ k + 1 := by
  intro k
  induction k with
  | zero =>
    intro p h
    refine ⟨[p], ⟨?_, by simp⟩, by simp⟩
    exact h
  | succ k ih =>
    intro p h
    rcases h with h | ⟨c, hc, hstep⟩
    · rcases ih p h with ⟨l, hl, hlen⟩
      exact ⟨l, hl, by omega⟩
    · rcases ih c hc with ⟨l, hl, hlen⟩
      refine ⟨l ++ [p], isPath_snoc m l s c p hl hstep, ?_⟩
      simp only [List.length_append, List.length_singleton]
      omega

theorem reachN_transport (m : PyMap) (s : Pos) :
    ∀ (l : List Pos) (x y : Pos), IsPathFrom m x l → l.getLast? = some y →
      ∀ j, ReachN m s j x → ReachN m s (j + (l.length - 1)) y := by
  intro l
  induction l with
  | nil => intro x y h; exact absurd h id
  | cons a rest ih =>
    intro x y h hlast j hj
    cases rest with
    | nil =>
      simp only [IsPathFrom] at h
      simp only [List.getLast?_singleton, Option.some.injEq] at hlast
      have : y = x := by rw [← hlast, h]
      rw [this]
      simpa using hj
    | cons b rest' =>
      rcases h with ⟨-, hstep1, hrest⟩
      have hlast' : (b :: rest').getLast? = some y := by
        rw [← hlast]
        simp [List.getLast?_cons_cons]
      have hb : ReachN m s (j + 1) b := ReachN_step m s j x b hj hstep1
      have := ih b y hrest hlast' (j + 1) hb
      have hlen : (a :: b :: rest').length - 1 = ((b :: rest').length - 1) + 1 := by
        simp only [List.length_cons]
        omega
      rw [hlen]
      have heq : j + (((b :: rest').length - 1) + 1) = j + 1 + ((b :: rest').length - 1) := by
        omega
      rw [heq]
      exact this

theorem reachNOfPath (m : PyMap) (s p : Pos) (l : List Pos)
    (h : IsPath m s p l) : ReachN m s (l.length - 1) p := by
  rcases h with ⟨h1, h2⟩
  have := reachN_transport m s l s p h1 h2 0 rfl
  simpa using this

theorem reachOfPath (m : PyMap) (s p : Pos) (l : List Pos)
    (h : IsPath m s p l) : Reach m s p := ⟨l.length - 1, reachNOfPath m s p l h⟩

theorem pathOfReach (m : PyMap) (s p : Pos) (h : Reach m s p) :
    ∃ l, IsPath m s p l := by
  rcases h with ⟨k, hk⟩
  rcases pathOfReachN m s k p hk with ⟨l, hl, -⟩
  exact ⟨l, hl⟩

end Astar

namespace Astar

/-! ### Heap, dictionary and bounding lemmas for the search -/

theorem heapMin_eq_none (l : List (Nat × Pos)) : heapMin l = none ↔ l = [] := by
  cases l <;> simp [heapMin]

theorem heapMin_mem : ∀ (l : List (Nat × Pos)) (e : Nat × Pos), heapMin l = some e →
    e ∈ l := by
  intro l
  induction l with
  | nil => intro e h; simp [heapMin] at h
  | cons a rest ih =>
    intro e h
    simp only [heapMin, Option.some.injEq] at h
    cases hr : heapMin rest with
    | none =>
      simp only [hr] at h
      exact h ▸ List.mem_cons_self a rest
    | some mr =>
      simp only [hr] at h
      by_cases hc : a.1 < mr.1 ∨ (a.1 = mr.1 ∧ (a.2.1 < mr.2.1 ∨
          (a.2.1 = mr.2.1 ∧ a.2.2 ≤ mr.2.2)))
      · rw [if_pos hc] at h
        exact h ▸ List.mem_cons_self a rest
      · rw [if_neg hc] at h
        exact List.mem_cons_of_mem a (h ▸ ih mr hr)

theorem heapMin_fst_le : ∀ (l : List (Nat × Pos)) (e : Nat × Pos), heapMin l = some e →
    ∀ x ∈ l, e.1 ≤ x.1 := by
  intro l
  induction l with
  | nil => intro e h; simp [heapMin] at h
  | cons a rest ih =>
    intro e h x hx
    simp only [heapMin, Option.some.injEq] at h
    cases hr : heapMin rest with
    | none =>
      simp only [hr] at h
      rw [heapMin_eq_none] at hr
      subst hr
      simp only [List.mem_singleton] at hx
      rw [hx, ← h]
    | some mr =>
      simp only [hr] at h
      by_cases hc : a.1 < mr.1 ∨ (a.1 = mr.1 ∧ (a.2.1 < mr.2.1 ∨
          (a.2.1 = mr.2.1 ∧ a.2.2 ≤ mr.2.2)))
      · rw [if_pos hc] at h
        have ha : a.1 ≤ mr.1 := by
          rcases hc with hc | hc
          · exact le_of_lt hc
          · exact le_of_eq hc.1
        rcases List.mem_cons.mp hx with rfl | hx
        · rw [← h]
        · exact le_trans (h ▸ ha) (ih mr hr x hx)
      · rw [if_neg hc] at h
        push_neg at hc
        have hma : mr.1 ≤ a.1 := by
          have := hc.1
          omega
        rcases List.mem_cons.mp hx with rfl | hx
        · rw [← h]
          exact hma
        · rw [← h]
          exact ih mr hr x hx

theorem mem_keys_of_dictGet {κ β : Type} [DecidableEq κ] (d : List (κ × β)) (k : κ) (v : β)
    (h : dictGet d k = some v) : k ∈ d.map Prod.fst := by
  have := dictGet_mem d k v h
  exact List.mem_map_of_mem _ this

theorem dictGet_eq_none_iff {κ β : Type} [DecidableEq κ] (d : List (κ × β)) (k : κ) :
    dictGet d k = none ↔ ∀ e ∈ d, e.1 ≠ k := by
  unfold dictGet
  rw [Option.map_eq_none', List.find?_eq_none]
  constructor
  · intro h e he
    have := h e he
    simpa using this
  · intro h e he
    simpa using h e he

theorem dictSet_keys_nodup {κ β : Type} [DecidableEq κ] (d : List (κ × β)) (k : κ) (v : β)
    (h : (d.map Prod.fst).Nodup) : ((dictSet d k v).map Prod.fst).Nodup := by
  unfold dictSet
  simp only [List.map_cons, List.nodup_cons]
  constructor
  · intro hk
    rcases List.mem_map.mp hk with ⟨e, he, hek⟩
    have := List.of_mem_filter he
    simp only [decide_eq_true_eq] at this
    exact this hek
  · exact List.Nodup.sublist ((List.filter_sublist d).map Prod.fst) h

theorem filter_ne_key_eq_self {κ β : Type} [DecidableEq κ] (d : List (κ × β)) (k : κ)
    (h : ∀ e ∈ d, e.1 ≠ k) : (d.filter fun e => decide (e.1 ≠ k)) = d := by
  rw [List.filter_eq_self]
  intro e he
  simpa using h e he

theorem gsum_dictSet_none {κ : Type} [DecidableEq κ] (d : List (κ × Nat)) (k : κ) (v : Nat)
    (hget : dictGet d k = none) :
    ((dictSet d k v).map (·.2)).sum = v + (d.map (·.2)).sum := by
  unfold dictSet
  rw [filter_ne_key_eq_self d k ((dictGet_eq_none_iff d k).mp hget)]
  simp

theorem gsum_dictSet_some {κ : Type} [DecidableEq κ] :
    ∀ (d : List (κ × Nat)) (k : κ) (v vold : Nat),
    (d.map Prod.fst).Nodup → dictGet d k = some vold →
    ((dictSet d k v).map (·.2)).sum + vold = v + (d.map (·.2)).sum := by
  intro d
  induction d with
  | nil => intro k v vold _ hget; simp [dictGet] at hget
  | cons e rest ih =>
    intro k v vold hnodup hget
    simp only [List.map_cons, List.nodup_cons] at hnodup
    by_cases hek : e.1 = k
    · have hv : vold = e.2 := by
        unfold dictGet at hget
        rw [List.find?_cons_of_pos _ (by simpa using hek)] at hget
        simpa using hget.symm
      have hrest : ∀ e' ∈ rest, e'.1 ≠ k := by
        intro e' he' hk'
        exact hnodup.1 (by rw [hek, ← hk']; exact List.mem_map_of_mem _ he')
      unfold dictSet
      rw [List.filter_cons_of_neg (by simpa using hek)]
      rw [filter_ne_key_eq_self rest k hrest]
      simp only [List.map_cons, List.sum_cons, hv]
      omega
    · have hget' : dictGet rest k = some vold := by
        unfold dictGet at hget ⊢
        rwa [List.find?_cons_of_neg _ (by simpa using hek)] at hget
      have := ih k v vold hnodup.2 hget'
      unfold dictSet at this ⊢
      rw [List.filter_cons_of_pos (by simpa using hek)]
      simp only [List.map_cons, List.sum_cons] at this ⊢
      omega

theorem keys_length_le_box (l : List Pos) (hnodup : l.Nodup) (W H : Nat)
    (hbox : ∀ p ∈ l, 0 ≤ p.1 ∧ p.1 < (W : Int) ∧ 0 ≤ p.2 ∧ p.2 < (H : Int)) :
    l.length ≤ W * H := by
  classical
  have hsub : l.toFinset ⊆ (Finset.Icc (0 : Int) ((W : Int) - 1)) ×ˢ
      (Finset.Icc (0 : Int) ((H : Int) - 1)) := by
    intro p hp
    rw [List.mem_toFinset] at hp
    rcases hbox p hp with ⟨h1, h2, h3, h4⟩
    rw [Finset.mem_product, Finset.mem_Icc, Finset.mem_Icc]
    omega
  have hcard := Finset.card_le_card hsub
  rw [List.toFinset_card_of_nodup hnodup] at hcard
  rw [Finset.card_product] at hcard
  rw [Int.card_Icc, Int.card_Icc] at hcard
  calc l.length ≤ ((W : Int) - 1 + 1 - 0).toNat * ((H : Int) - 1 + 1 - 0).toNat := hcard
    _ = W * H := by
      congr 1 <;> omega

end Astar

namespace Astar

/-! ### Neighbour probes on wall-bordered maps -/

theorem pyGet_nonneg {α : Type} (l : List α) (i : Int) (hi : 0 ≤ i) :
    pyGet l i = l.get? i.toNat := by
  unfold pyGet
  rw [if_pos hi]

theorem mapAt_of_nonneg (m : PyMap) (x y : Int) (hx : 0 ≤ x) (hy : 0 ≤ y) :
    mapAt m (x, y) = (m.get? x.toNat).bind fun row => row.get? y.toNat := by
  unfold mapAt
  simp only
  rw [pyGet_nonneg m x hx]
  cases hrow : m.get? x.toNat with
  | none => rfl
  | some row =>
    simp only [Option.some_bind]
    exact pyGet_nonneg row y hy

theorem WB_interior (m : PyMap) (hWB : WallBorder m) (p : Pos) (hx : 0 ≤ p.1)
    (hy : 0 ≤ p.2) (h : mapAt m p = some true) : Interior m p := by
  have h' : mapAt m (p.1, p.2) = some true := h
  rw [mapAt_of_nonneg m p.1 p.2 hx hy] at h'
  cases hrow : m.get? p.1.toNat with
  | none => rw [hrow] at h'; exact absurd h' (by simp)
  | some row =>
    rw [hrow] at h'
    simp only [Option.some_bind] at h'
    have hlt : p.1.toNat < m.length := by
      by_contra hge
      rw [List.get?_eq_none.mpr (by omega)] at hrow
      exact absurd hrow (by simp)
    have hrowlen : row.length = rowLen m := hWB.1 row (List.get?_mem hrow)
    have hylt : p.2.toNat < row.length := by
      by_contra hge
      rw [List.get?_eq_none.mpr (by omega)] at h'
      exact absurd h' (by simp)
    have := hWB.2 p.1.toNat hlt p.2.toNat (by omega)
      (by rw [hrow]; simpa using h')
    unfold Interior
    omega

theorem walkable_interior (m : PyMap) (hWB : WallBorder m) (p : Pos)
    (h : walkable m p) : Interior m p := by
  rcases h with ⟨h1, h2, h3⟩
  exact WB_interior m hWB p h1 h2 h3

theorem mapAt_isSome_inbox (m : PyMap) (hWB : WallBorder m) (x y : Int) (hx0 : 0 ≤ x)
    (hx1 : x < (m.length : Int)) (hy0 : 0 ≤ y) (hy1 : y < (rowLen m : Int)) :
    ∃ b, mapAt m (x, y) = some b := by
  rw [mapAt_of_nonneg m x y hx0 hy0]
  have hlt : x.toNat < m.length := by omega
  obtain ⟨row, hrow⟩ : ∃ row, m.get? x.toNat = some row := by
    rw [List.get?_eq_get hlt]
    exact ⟨_, rfl⟩
  rw [hrow]
  have hlen : row.length = rowLen m := hWB.1 row (List.get?_mem hrow)
  have hylt : y.toNat < row.length := by omega
  obtain ⟨b, hb⟩ : ∃ b, row.get? y.toNat = some b := by
    rw [List.get?_eq_get hylt]
    exact ⟨_, rfl⟩
  refine ⟨b, ?_⟩
  simp only [Option.some_bind]
  exact hb

theorem neighborsAux_spec (m : PyMap) (p : Pos) :
    ∀ offs : List (Int × Int),
      (∀ o ∈ offs, ∃ b, mapAt m (p.1 + o.1, p.2 + o.2) = some b) →
      ∃ L, neighborsAux m p offs = some L ∧
        ∀ q, q ∈ L ↔ ∃ o ∈ offs, q = (p.1 + o.1, p.2 + o.2) ∧
          mapAt m (p.1 + o.1, p.2 + o.2) = some true := by
  intro offs
  induction offs with
  | nil => intro _; exact ⟨[], rfl, by simp⟩
  | cons o rest ih =>
    intro hdef
    rcases hdef o (List.mem_cons_self o rest) with ⟨b, hb⟩
    rcases ih (fun o' ho' => hdef o' (List.mem_cons_of_mem _ ho')) with ⟨L, hL, hmem⟩
    refine ⟨if b then (p.1 + o.1, p.2 + o.2) :: L else L, ?_, ?_⟩
    · unfold neighborsAux
      simp only [hb, hL]
    · intro q
      cases b with
      | true =>
        rw [if_pos rfl]
        constructor
        · intro hq
          rcases List.mem_cons.mp hq with rfl | hq
          · exact ⟨o, List.mem_cons_self o rest, rfl, hb⟩
          · rcases (hmem q).mp hq with ⟨o', ho', hqe, htrue⟩
            exact ⟨o', List.mem_cons_of_mem _ ho', hqe, htrue⟩
        · rintro ⟨o', ho', hqe, htrue⟩
          rcases List.mem_cons.mp ho' with rfl | ho'
          · exact hqe ▸ List.mem_cons_self _ L
          · exact List.mem_cons_of_mem _ ((hmem q).mpr ⟨o', ho', hqe, htrue⟩)
      | false =>
        rw [if_neg (by simp)]
        constructor
        · intro hq
          rcases (hmem q).mp hq with ⟨o', ho', hqe, htrue⟩
          exact ⟨o', List.mem_cons_of_mem _ ho', hqe, htrue⟩
        · rintro ⟨o', ho', hqe, htrue⟩
          rcases List.mem_cons.mp ho' with rfl | ho'
          · rw [hb] at htrue
            exact absurd htrue (by simp)
          · exact (hmem q).mpr ⟨o', ho', hqe, htrue⟩

theorem adjStep_offset_iff (m : PyMap) (p q : Pos) (hp1 : 1 ≤ p.1) (hp2 : 1 ≤ p.2) :
    adjStep m p q ↔ ∃ o ∈ nbrOffsets, q = (p.1 + o.1, p.2 + o.2) ∧
      mapAt m (p.1 + o.1, p.2 + o.2) = some true := by
  constructor
  · rintro ⟨⟨hq1, hq2, hqm⟩, hco⟩
    have hqpair : q = (q.1, q.2) := rfl
    rcases hco with ⟨h1, h2 | h2⟩ | ⟨h1, h2 | h2⟩
    · refine ⟨(0, 1), by simp [nbrOffsets], ?_, ?_⟩
      · rw [Prod.ext_iff]
        constructor <;> simp <;> omega
      · have : (p.1 + 0, p.2 + 1) = q := by
          rw [Prod.ext_iff]
          constructor <;> simp <;> omega
        rw [this]
        exact hqm
    · refine ⟨(0, -1), by simp [nbrOffsets], ?_, ?_⟩
      · rw [Prod.ext_iff]
        constructor <;> simp <;> omega
      · have : (p.1 + 0, p.2 + -1) = q := by
          rw [Prod.ext_iff]
          constructor <;> simp <;> omega
        rw [this]
        exact hqm
    · refine ⟨(1, 0), by simp [nbrOffsets], ?_, ?_⟩
      · rw [Prod.ext_iff]
        constructor <;> simp <;> omega
      · have : (p.1 + 1, p.2 + 0) = q := by
          rw [Prod.ext_iff]
          constructor <;> simp <;> omega
        rw [this]
        exact hqm
    · refine ⟨(-1, 0), by simp [nbrOffsets], ?_, ?_⟩
      · rw [Prod.ext_iff]
        constructor <;> simp <;> omega
      · have : (p.1 + -1, p.2 + 0) = q := by
          rw [Prod.ext_iff]
          constructor <;> simp <;> omega
        rw [this]
        exact hqm
  · rintro ⟨o, ho, rfl, hm⟩
    have ho' : o = (0, -1) ∨ o = (0, 1) ∨ o = (-1, 0) ∨ o = (1, 0) := by
      simpa [nbrOffsets] using ho
    rcases ho' with rfl | rfl | rfl | rfl
    · exact ⟨⟨by simp; omega, by simp; omega, hm⟩,
        Or.inl ⟨by simp, Or.inr (by simp; omega)⟩⟩
    · exact ⟨⟨by simp; omega, by simp; omega, hm⟩,
        Or.inl ⟨by simp, Or.inl (by simp)⟩⟩
    · exact ⟨⟨by simp; omega, by simp; omega, hm⟩,
        Or.inr ⟨by simp, Or.inr (by simp; omega)⟩⟩
    · exact ⟨⟨by simp; omega, by simp; omega, hm⟩,
        Or.inr ⟨by simp, Or.inl (by simp)⟩⟩

theorem neighbors_spec (m : PyMap) (hWB : WallBorder m) (p : Pos) (hp : Interior m p) :
    ∃ L, neighbors_one_move_udlr m p = some L ∧ ∀ q, (q ∈ L ↔ adjStep m p q) := by
  rcases hp with ⟨hp1, hp2, hp3, hp4⟩
  have hprobe : ∀ o ∈ nbrOffsets, ∃ b, mapAt m (p.1 + o.1, p.2 + o.2) = some b := by
    intro o ho
    have ho' : o = (0, -1) ∨ o = (0, 1) ∨ o = (-1, 0) ∨ o = (1, 0) := by
      simpa [nbrOffsets] using ho
    rcases ho' with rfl | rfl | rfl | rfl <;>
      exact mapAt_isSome_inbox m hWB _ _ (by simp; omega) (by simp; omega)
        (by simp; omega) (by simp; omega)
  rcases neighborsAux_spec m p nbrOffsets hprobe with ⟨L, hL, hmem⟩
  refine ⟨L, hL, fun q => ?_⟩
  rw [hmem q, adjStep_offset_iff m p q hp1 hp3]

end Astar

namespace Astar

/-! ### The relaxation step: invariant preservation and effects -/

theorem dictSet_filter_length {κ β : Type} [DecidableEq κ] :
    ∀ (d : List (κ × β)) (k : κ) (vold : β), (d.map Prod.fst).Nodup →
      dictGet d k = some vold →
      (d.filter fun e => decide (e.1 ≠ k)).length + 1 = d.length := by
  intro d
  induction d with
  | nil => intro k vold _ hget; simp [dictGet] at hget
  | cons e rest ih =>
    intro k vold hnodup hget
    simp only [List.map_cons, List.nodup_cons] at hnodup
    by_cases hek : e.1 = k
    · have hrest : ∀ e' ∈ rest, e'.1 ≠ k := by
        intro e' he' hk'
        exact hnodup.1 (by rw [hek, ← hk']; exact List.mem_map_of_mem _ he')
      rw [List.filter_cons_of_neg (by simpa using hek)]
      rw [filter_ne_key_eq_self rest k hrest]
      simp
    · have hget' : dictGet rest k = some vold := by
        unfold dictGet at hget ⊢
        rwa [List.find?_cons_of_neg _ (by simpa using hek)] at hget
      rw [List.filter_cons_of_pos (by simpa using hek)]
      simp only [List.length_cons]
      rw [← ih k vold hnodup.2 hget']

theorem dictSet_length_of_none {κ β : Type} [DecidableEq κ] (d : List (κ × β)) (k : κ)
    (v : β) (hget : dictGet d k = none) : (dictSet d k v).length = d.length + 1 := by
  unfold dictSet
  rw [filter_ne_key_eq_self d k ((dictGet_eq_none_iff d k).mp hget)]
  simp

theorem dictSet_length_of_some {κ β : Type} [DecidableEq κ] (d : List (κ × β)) (k : κ)
    (v vold : β) (hnodup : (d.map Prod.fst).Nodup) (hget : dictGet d k = some vold) :
    (dictSet d k v).length = d.length := by
  unfold dictSet
  simp only [List.length_cons]
  exact dictSet_filter_length d k vold hnodup hget

theorem relaxCore (m : PyMap) (start : Pos) (hf : Pos → Nat) (c q : Pos) (gc : Nat)
    (st : AState)
    (hgc : dictGet st.g_score c = some gc)
    (hcreach : Reach m start c)
    (hadj : adjStep m c q)
    (hgnodup : (st.g_score.map Prod.fst).Nodup)
    (hcfnodup : (st.came_from.map Prod.fst).Nodup)
    (hI1 : ∀ n v, dictGet st.g_score n = some v → Reach m start n)
    (hI4 : ∀ n v, dictGet st.g_score n = some v → ReachN m start v n)
    (hI6 : dictGet st.g_score start = some 0)
    (hI3 : ∀ e ∈ st.open_set, ∃ v, dictGet st.g_score e.2 = some v ∧ v + hf e.2 ≤ e.1)
    (hcf1 : ∀ n c', dictGet st.came_from n = some c' → adjStep m c' n ∧
      ∃ vn vc, dictGet st.g_score n = some vn ∧ dictGet st.g_score c' = some vc ∧
        vc + 1 ≤ vn)
    (hcf2 : ∀ n v, dictGet st.g_score n = some v → n ≠ start →
      (dictGet st.came_from n).isSome) :
    ∃ st', relax d_manhattan hf c st q = st' ∧
      (st'.g_score.map Prod.fst).Nodup ∧
      (st'.came_from.map Prod.fst).Nodup ∧
      (∀ n v, dictGet st'.g_score n = some v → Reach m start n) ∧
      (∀ n v, dictGet st'.g_score n = some v → ReachN m start v n) ∧
      dictGet st'.g_score start = some 0 ∧
      (∀ e ∈ st'.open_set, ∃ v, dictGet st'.g_score e.2 = some v ∧ v + hf e.2 ≤ e.1) ∧
      (∀ n c', dictGet st'.came_from n = some c' → adjStep m c' n ∧
        ∃ vn vc, dictGet st'.g_score n = some vn ∧ dictGet st'.g_score c' = some vc ∧
          vc + 1 ≤ vn) ∧
      (∀ n v, dictGet st'.g_score n = some v → n ≠ start →
        (dictGet st'.came_from n).isSome) ∧
      dictGet st'.g_score c = some gc ∧
      (∀ x, x ≠ q → dictGet st'.g_score x = dictGet st.g_score x) ∧
      (∃ vq, dictGet st'.g_score q = some vq ∧ vq ≤ gc + 1) ∧
      (∃ tail, st'.open_set = st.open_set ++ tail) ∧
      (∀ n v, dictGet st'.g_score n = some v → dictGet st.g_score n = some v ∨
        (v + hf n, n) ∈ st'.open_set) ∧
      (∀ n v, dictGet st.g_score n = some v → ∃ v', dictGet st'.g_score n = some v' ∧
        v' ≤ v) ∧
      (st' = st ∨ st'.g_score.length = st.g_score.length + 1 ∨
        (st'.g_score.length = st.g_score.length ∧ gSum st' < gSum st)) := by
  have hd1 : d_manhattan c q = 1 := d_manhattan_adj m c q hadj
  have hqc : q ≠ c := adjStep_ne m c q hadj
  have hupdate : ∀ tent : Nat,
      (∀ v, dictGet st.g_score q = some v → tent < v) → tent ≤ gc + 1 →
      tent = gc + d_manhattan c q →
      ∃ st', ({ came_from := dictSet st.came_from q c
                g_score := dictSet st.g_score q tent
                f_score := dictSet st.f_score q (tent + hf q)
                open_set := st.open_set ++ [(tent + hf q, q)] } : AState) = st' ∧
        (st'.g_score.map Prod.fst).Nodup ∧
        (st'.came_from.map Prod.fst).Nodup ∧
        (∀ n v, dictGet st'.g_score n = some v → Reach m start n) ∧
        (∀ n v, dictGet st'.g_score n = some v → ReachN m start v n) ∧
        dictGet st'.g_score start = some 0 ∧
        (∀ e ∈ st'.open_set, ∃ v, dictGet st'.g_score e.2 = some v ∧ v + hf e.2 ≤ e.1) ∧
        (∀ n c', dictGet st'.came_from n = some c' → adjStep m c' n ∧
          ∃ vn vc, dictGet st'.g_score n = some vn ∧ dictGet st'.g_score c' = some vc ∧
            vc + 1 ≤ vn) ∧
        (∀ n v, dictGet st'.g_score n = some v → n ≠ start →
          (dictGet st'.came_from n).isSome) ∧
        dictGet st'.g_score c = some gc ∧
        (∀ x, x ≠ q → dictGet st'.g_score x = dictGet st.g_score x) ∧
        (∃ vq, dictGet st'.g_score q = some vq ∧ vq ≤ gc + 1) ∧
        (∃ tail, st'.open_set = st.open_set ++ tail) ∧
        (∀ n v, dictGet st'.g_score n = some v → dictGet st.g_score n = some v ∨
          (v + hf n, n) ∈ st'.open_set) ∧
        (∀ n v, dictGet st.g_score n = some v → ∃ v', dictGet st'.g_score n = some v' ∧
          v' ≤ v) ∧
        (({ came_from := dictSet st.came_from q c
            g_score := dictSet st.g_score q tent
            f_score := dictSet st.f_score q (tent + hf q)
            open_set := st.open_set ++ [(tent + hf q, q)] } : AState) = st ∨
          (dictSet st.g_score q tent).length = st.g_score.length + 1 ∨
          ((dictSet st.g_score q tent).length = st.g_score.length ∧
            gSum { came_from := dictSet st.came_from q c
                   g_score := dictSet st.g_score q tent
                   f_score := dictSet st.f_score q (tent + hf q)
                   open_set := st.open_set ++ [(tent + hf q, q)] } < gSum st)) := by
    intro tent hlt htent htdef
    have ht1 : tent = gc + 1 := by rw [htdef, hd1]
    have hqstart : q ≠ start := by
      intro hqs
      have := hlt 0 (hqs ▸ hI6)
      omega
    refine ⟨_, rfl, ?_, ?_, ?_, ?_, ?_, ?_, ?_, ?_, ?_, ?_, ?_, ?_, ?_, ?_, ?_⟩
    · exact dictSet_keys_nodup st.g_score q tent hgnodup
    · exact dictSet_keys_nodup st.came_from q c hcfnodup
    · intro n v hv
      by_cases hn : n = q
      · exact hn ▸ Reach_step m start c q hcreach hadj
      · rw [dictGet_set_ne st.g_score q n tent hn] at hv
        exact hI1 n v hv
    · intro n v hv
      by_cases hn : n = q
      · rw [hn, dictGet_set_self] at hv
        injection hv with hv
        rw [hn, ← hv, ht1]
        exact ReachN_step m start gc c q (hI4 c gc hgc) hadj
      · rw [dictGet_set_ne st.g_score q n tent hn] at hv
        exact hI4 n v hv
    · rw [dictGet_set_ne st.g_score q start tent (Ne.symm hqstart)]
      exact hI6
    · intro e he
      rcases List.mem_append.mp he with he | he
      · rcases hI3 e he with ⟨v, hv, hvle⟩
        by_cases hn : e.2 = q
        · refine ⟨tent, by rw [hn, dictGet_set_self], ?_⟩
          have := hlt v (hn ▸ hv)
          omega
        · exact ⟨v, by rw [dictGet_set_ne st.g_score q e.2 tent hn]; exact hv, hvle⟩
      · simp only [List.mem_singleton] at he
        subst he
        exact ⟨tent, by simp [dictGet_set_self], le_refl _⟩
    · intro n c' hc'
      by_cases hn : n = q
      · rw [hn, dictGet_set_self] at hc'
        injection hc' with hc'
        constructor
        · rw [← hc', hn]
          exact hadj
        · refine ⟨tent, gc, ?_, ?_, by omega⟩
          · rw [hn, dictGet_set_self]
          · rw [← hc', dictGet_set_ne st.g_score q c tent (Ne.symm hqc)]
            exact hgc
      · rw [dictGet_set_ne st.came_from q n c hn] at hc'
        rcases hcf1 n c' hc' with ⟨hstep, vn, vc, hvn, hvc, hle⟩
        refine ⟨hstep, ?_⟩
        by_cases hcq : c' = q
        · refine ⟨vn, tent, ?_, ?_, ?_⟩
          · rw [dictGet_set_ne st.g_score q n tent hn]
            exact hvn
          · rw [hcq, dictGet_set_self]
          · have := hlt vc (by rw [← hcq]; exact hvc)
            omega
        · refine ⟨vn, vc, ?_, ?_, hle⟩
          · rw [dictGet_set_ne st.g_score q n tent hn]
            exact hvn
          · rw [dictGet_set_ne st.g_score q c' tent hcq]
            exact hvc
    · intro n v hv hns
      by_cases hn : n = q
      · rw [hn, dictGet_set_self]
        simp
      · rw [dictGet_set_ne st.g_score q n tent hn] at hv
        rw [dictGet_set_ne st.came_from q n c hn]
        exact hcf2 n v hv hns
    · rw [dictGet_set_ne st.g_score q c tent (fun h => hqc h.symm)]
      exact hgc
    · intro x hx
      exact dictGet_set_ne st.g_score q x tent hx
    · exact ⟨tent, dictGet_set_self st.g_score q tent, htent⟩
    · exact ⟨[(tent + hf q, q)], rfl⟩
    · intro n v hv
      by_cases hn : n = q
      · subst hn
        rw [dictGet_set_self] at hv
        injection hv with hv
        right
        subst hv
        exact List.mem_append_right _ (List.mem_singleton.mpr rfl)
      · rw [dictGet_set_ne st.g_score q n tent hn] at hv
        exact Or.inl hv
    · intro n v hv
      by_cases hn : n = q
      · refine ⟨tent, by rw [hn, dictGet_set_self], ?_⟩
        exact le_of_lt (hlt v (hn ▸ hv))
      · exact ⟨v, by rw [dictGet_set_ne st.g_score q n tent hn]; exact hv, le_refl v⟩
    · cases hold : dictGet st.g_score q with
      | none =>
        right; left
        exact dictSet_length_of_none st.g_score q tent hold
      | some vold =>
        right; right
        constructor
        · exact dictSet_length_of_some st.g_score q tent vold hgnodup hold
        · have hsum := gsum_dictSet_some st.g_score q tent vold hgnodup hold
          have hlt' := hlt vold hold
          unfold gSum
          simp only
          omega
  unfold relax
  rw [hgc]
  cases hgq : dictGet st.g_score q with
  | none =>
    simp only [hgq]
    have := hupdate (gc + d_manhattan c q)
      (fun v hv => absurd (hv ▸ hgq) (by simp [hv, hgq])) (by omega) rfl
    simpa using this
  | some gn =>
    simp only [hgq]
    by_cases hlt : gc + d_manhattan c q < gn
    · rw [if_pos (by simpa using hlt)]
      have := hupdate (gc + d_manhattan c q)
        (fun v hv => by rw [hgq] at hv; injection hv with hv; omega) (by omega) rfl
      simpa using this
    · rw [if_neg (by simpa using hlt)]
      refine ⟨st, rfl, hgnodup, hcfnodup, hI1, hI4, hI6, hI3, hcf1, hcf2, hgc, ?_, ?_, ?_,
        ?_, ?_, ?_⟩
      · intro x _; rfl
      · refine ⟨gn, hgq, ?_⟩
        omega
      · exact ⟨[], by simp⟩
      · intro n v hv; exact Or.inl hv
      · intro n v hv; exact ⟨v, hv, le_refl v⟩
      · exact Or.inl rfl

end Astar

namespace Astar

theorem foldCore (m : PyMap) (start : Pos) (hf : Pos → Nat) (c : Pos) (gc : Nat) :
    ∀ (L : List Pos) (st : AState),
    dictGet st.g_score c = some gc →
    Reach m start c →
    (∀ q ∈ L, adjStep m c q) →
    (st.g_score.map Prod.fst).Nodup →
    (st.came_from.map Prod.fst).Nodup →
    (∀ n v, dictGet st.g_score n = some v → Reach m start n) →
    (∀ n v, dictGet st.g_score n = some v → ReachN m start v n) →
    dictGet st.g_score start = some 0 →
    (∀ e ∈ st.open_set, ∃ v, dictGet st.g_score e.2 = some v ∧ v + hf e.2 ≤ e.1) →
    (∀ n c', dictGet st.came_from n = some c' → adjStep m c' n ∧
      ∃ vn vc, dictGet st.g_score n = some vn ∧ dictGet st.g_score c' = some vc ∧
        vc + 1 ≤ vn) →
    (∀ n v, dictGet st.g_score n = some v → n ≠ start →
      (dictGet st.came_from n).isSome) →
    ∃ st', L.foldl (relax d_manhattan hf c) st = st' ∧
      (st'.g_score.map Prod.fst).Nodup ∧
      (st'.came_from.map Prod.fst).Nodup ∧
      (∀ n v, dictGet st'.g_score n = some v → Reach m start n) ∧
      (∀ n v, dictGet st'.g_score n = some v → ReachN m start v n) ∧
      dictGet st'.g_score start = some 0 ∧
      (∀ e ∈ st'.open_set, ∃ v, dictGet st'.g_score e.2 = some v ∧ v + hf e.2 ≤ e.1) ∧
      (∀ n c', dictGet st'.came_from n = some c' → adjStep m c' n ∧
        ∃ vn vc, dictGet st'.g_score n = some vn ∧ dictGet st'.g_score c' = some vc ∧
          vc + 1 ≤ vn) ∧
      (∀ n v, dictGet st'.g_score n = some v → n ≠ start →
        (dictGet st'.came_from n).isSome) ∧
      dictGet st'.g_score c = some gc ∧
      (∀ x, x ∉ L → dictGet st'.g_score x = dictGet st.g_score x) ∧
      (∀ q ∈ L, ∃ vq, dictGet st'.g_score q = some vq ∧ vq ≤ gc + 1) ∧
      (∃ tail, st'.open_set = st.open_set ++ tail) ∧
      (∀ n v, dictGet st'.g_score n = some v → dictGet st.g_score n = some v ∨
        (v + hf n, n) ∈ st'.open_set) ∧
      (∀ n v, dictGet st.g_score n = some v → ∃ v', dictGet st'.g_score n = some v' ∧
        v' ≤ v) ∧
      (st' = st ∨ st.g_score.length < st'.g_score.length ∨
        (st'.g_score.length = st.g_score.length ∧ gSum st' < gSum st)) := by
  intro L
  induction L with
  | nil =>
    intro st hgc hcreach _ h1 h2 h3 h4 h5 h6 h7 h8
    refine ⟨st, rfl, h1, h2, h3, h4, h5, h6, h7, h8, hgc, fun x _ => rfl, by simp,
      ⟨[], by simp⟩, fun n v hv => Or.inl hv, fun n v hv => ⟨v, hv, le_refl v⟩,
      Or.inl rfl⟩
  | cons q rest ih =>
    intro st hgc hcreach hadj h1 h2 h3 h4 h5 h6 h7 h8
    rcases relaxCore m start hf c q gc st hgc hcreach (hadj q (List.mem_cons_self q rest))
        h1 h2 h3 h4 h5 h6 h7 h8 with
      ⟨st1, hst1, j1, j2, j3, j4, j5, j6, j7, j8, jgc, jother, ⟨vq1, hvq1, hvq1le⟩,
        ⟨tl1, htl1⟩, jnew, jmono, jmeas⟩
    rcases ih st1 jgc hcreach (fun q' hq' => hadj q' (List.mem_cons_of_mem _ hq'))
        j1 j2 j3 j4 j5 j6 j7 j8 with
      ⟨st', hst', k1, k2, k3, k4, k5, k6, k7, k8, kgc, kother, krest, ⟨tl2, htl2⟩,
        knew, kmono, kmeas⟩
    refine ⟨st', ?_, k1, k2, k3, k4, k5, k6, k7, k8, kgc, ?_, ?_, ?_, ?_, ?_, ?_⟩
    · simp only [List.foldl_cons, hst1, hst']
    · intro x hx
      have hxq : x ≠ q := fun h => hx (h ▸ List.mem_cons_self q rest)
      have hxr : x ∉ rest := fun h => hx (List.mem_cons_of_mem _ h)
      rw [kother x hxr, jother x hxq]
    · intro q' hq'
      rcases List.mem_cons.mp hq' with rfl | hq'
      · rcases kmono q' vq1 hvq1 with ⟨v', hv', hv'le⟩
        exact ⟨v', hv', le_trans hv'le hvq1le⟩
      · exact krest q' hq'
    · exact ⟨tl1 ++ tl2, by rw [htl2, htl1, List.append_assoc]⟩
    · intro n v hv
      rcases knew n v hv with hold | hmem
      · rcases jnew n v hold with hold2 | hmem2
        · exact Or.inl hold2
        · right
          rw [htl2]
          exact List.mem_append_left _ hmem2
      · exact Or.inr hmem
    · intro n v hv
      rcases jmono n v hv with ⟨v1, hv1, hv1le⟩
      rcases kmono n v1 hv1 with ⟨v', hv', hv'le⟩
      exact ⟨v', hv', le_trans hv'le hv1le⟩
    · have hlen1 : st.g_score.length ≤ st1.g_score.length := by
        rcases jmeas with rfl | h | ⟨h, -⟩ <;> omega
      have hlen2 : st1.g_score.length ≤ st'.g_score.length := by
        rcases kmeas with rfl | h | ⟨h, -⟩ <;> omega
      rcases jmeas with rfl | hj | ⟨hjl, hjs⟩
      · exact kmeas
      · right; left; omega
      · rcases kmeas with rfl | hk | ⟨hkl, hks⟩
        · right; right; exact ⟨hjl, hjs⟩
        · right; left; omega
        · right; right
          exact ⟨by omega, lt_trans hks hjs⟩

end Astar

namespace Astar

theorem reach_interior (m : PyMap) (hWB : WallBorder m) (start : Pos)
    (hstart : Interior m start) (p : Pos) (h : Reach m start p) : Interior m p := by
  rcases Reach_elim m start p h with rfl | hw
  · exact hstart
  · exact walkable_interior m hWB p hw

theorem astar_iter (m : PyMap) (hWB : WallBorder m) (start goal : Pos)
    (hstart : Interior m start) (st : AState) (hinv : AInv m start goal st)
    (e : Nat × Pos) (hpop : heapMin st.open_set = some e) (hne : e.2 ≠ goal) :
    ∃ L st', neighbors_one_move_udlr m e.2 = some L ∧
      L.foldl (relax d_manhattan (d_manhattan goal) e.2)
        { st with open_set := st.open_set.erase e } = st' ∧
      AInv m start goal st' ∧
      st.g_score.length ≤ st'.g_score.length ∧
      (st.g_score.length < st'.g_score.length ∨
        (st'.g_score.length = st.g_score.length ∧ gSum st' < gSum st) ∨
        (st'.g_score.length = st.g_score.length ∧ gSum st' = gSum st ∧
          st'.open_set.length < st.open_set.length)) := by
  obtain ⟨h1, h2, h3, h4, h5, h6, hSOC, hIg, h7, h8⟩ := hinv
  have hemem : e ∈ st.open_set := heapMin_mem st.open_set e hpop
  rcases h6 e hemem with ⟨gc, hgc, hgcle⟩
  have hcreach : Reach m start e.2 := h3 e.2 gc hgc
  have hcint : Interior m e.2 := reach_interior m hWB start hstart e.2 hcreach
  rcases neighbors_spec m hWB e.2 hcint with ⟨L, hL, hLmem⟩
  have h6' : ∀ e' ∈ st.open_set.erase e, ∃ v,
      dictGet st.g_score e'.2 = some v ∧ v + d_manhattan goal e'.2 ≤ e'.1 := by
    intro e' he'
    exact h6 e' (List.mem_of_mem_erase he')
  rcases foldCore m start (d_manhattan goal) e.2 gc L
      { st with open_set := st.open_set.erase e } hgc hcreach
      (fun q hq => (hLmem q).mp hq) h1 h2 h3 h4 h5 h6' h7 h8 with
    ⟨st', hst', k1, k2, k3, k4, k5, k6, k7, k8, kgc, kother, krest, ⟨tl, htl⟩,
      knew, kmono, kmeas⟩
  have hg0 : ({ st with open_set := st.open_set.erase e } : AState).g_score =
      st.g_score := rfl
  have hs0 : gSum { st with open_set := st.open_set.erase e } = gSum st := rfl
  rw [hg0, hs0] at kmeas
  have hopenerase : ∀ x ∈ st.open_set, x ≠ e → x ∈ st'.open_set := by
    intro x hx hxe
    rw [htl]
    exact List.mem_append_left _ ((List.mem_erase_of_ne hxe).mpr hx)
  refine ⟨L, st', hL, hst', ⟨k1, k2, k3, k4, k5, k6, ?_, ?_, k7, k8⟩, ?_, ?_⟩
  · -- SOC
    intro n v hv hmin
    rcases knew n v hv with hold | hmem
    · rcases hSOC n v hold hmin with hwit | hclosed
      · by_cases hwe : (v + d_manhattan goal n, n) = e
        · -- the popped entry was this node's optimal entry: it got fully expanded
          right
          intro q hq
          have hn : n = e.2 := by rw [← hwe]
          have hveq : v = gc := by
            rw [hn] at hold
            rw [hold] at hgc
            injection hgc
          rcases krest q ((hLmem q).mpr (hn ▸ hq)) with ⟨vq, hvq, hvqle⟩
          exact ⟨vq, hvq, by omega⟩
        · exact Or.inl (hopenerase _ hwit hwe)
      · right
        intro q hq
        rcases hclosed q hq with ⟨vq, hvq, hvqle⟩
        rcases kmono q vq hvq with ⟨vq', hvq', hle'⟩
        exact ⟨vq', hvq', by omega⟩
    · exact Or.inl hmem
  · -- the goal keeps an open entry while labelled
    intro v hv
    rcases knew goal v hv with hold | hmem
    · rcases hIg v hold with ⟨f, hf⟩
      have hfe : (f, goal) ≠ e := by
        intro hfeq
        exact hne (by rw [← hfeq])
      exact ⟨f, hopenerase _ hf hfe⟩
    · exact ⟨v + d_manhattan goal goal, hmem⟩
  · rcases kmeas with heq | hlt | ⟨heql, -⟩
    · rw [heq]
    · exact le_of_lt hlt
    · omega
  · have herase : (st.open_set.erase e).length + 1 = st.open_set.length := by
      rw [List.length_erase_of_mem hemem]
      have : st.open_set.length ≠ 0 := by
        intro h0
        rw [List.length_eq_zero.mp h0] at hemem
        exact absurd hemem (by simp)
      omega
    rcases kmeas with heq | hlt | ⟨heql, hsum⟩
    · right; right
      rw [heq]
      refine ⟨rfl, rfl, ?_⟩
      show (st.open_set.erase e).length < st.open_set.length
      omega
    · left; exact hlt
    · right; left; exact ⟨heql, hsum⟩

end Astar

namespace Astar

theorem manhattan_le_path (m : PyMap) :
    ∀ (l : List Pos) (a b : Pos), IsPathFrom m a l → l.getLast? = some b →
      d_manhattan a b ≤ l.length - 1 := by
  intro l
  induction l with
  | nil => intro a b h; exact absurd h id
  | cons p rest ih =>
    intro a b h hlast
    cases rest with
    | nil =>
      simp only [IsPathFrom] at h
      simp only [List.getLast?_singleton, Option.some.injEq] at hlast
      rw [← hlast, h, d_manhattan_self]
      omega
    | cons q rest' =>
      rcases h with ⟨-, hstep, hrest⟩
      have hlast' : (q :: rest').getLast? = some b := by
        rw [← hlast]
        simp [List.getLast?_cons_cons]
      have h1 := ih q b hrest hlast'
      have h2 := d_manhattan_triangle a q b
      have h3 := d_manhattan_adj m a q hstep
      simp only [List.length_cons] at h1 ⊢
      omega

theorem frontier_chain (m : PyMap) (start goal : Pos) (st : AState)
    (hinv : AInv m start goal st) :
    ∀ (k : Nat) (z : Pos), MinReach m start z k →
      dictGet st.g_score z = some k ∨
      ∃ (y : Pos) (j : Nat), MinReach m start y j ∧ dictGet st.g_score y = some j ∧
        (j + d_manhattan goal y, y) ∈ st.open_set ∧ j ≤ k ∧
        ∃ P, IsPathFrom m y P ∧ P.getLast? = some z ∧ P.length - 1 = k - j := by
  obtain ⟨h1, h2, h3, h4, h5, h6, hSOC, hIg, h7, h8⟩ := hinv
  intro k
  induction k with
  | zero =>
    intro z hmin
    have hz : z = start := hmin.1
    left
    rw [hz]
    exact h5
  | succ k ih =>
    intro z hmin
    rcases hmin.1 with hzk | ⟨c, hck, hstep⟩
    · exact absurd (hmin.2 k hzk) (by omega)
    · have hminc : MinReach m start c k := by
        refine ⟨hck, fun j hj => ?_⟩
        have := hmin.2 (j + 1) (ReachN_step m start j c z hj hstep)
        omega
      rcases ih c hminc with hsettled | ⟨y, j, hminy, hgy, hentry, hjk, P, hP, hPlast, hPlen⟩
      · rcases hSOC c k hsettled hminc with hwit | hclosed
        · right
          refine ⟨c, k, hminc, hsettled, hwit, by omega, [c, z], ?_, ?_, ?_⟩
          · exact ⟨rfl, hstep, rfl⟩
          · simp [List.getLast?_cons_cons]
          · simp
        · left
          rcases hclosed z hstep with ⟨vz, hvz, hvzle⟩
          have hge := hmin.2 vz (h4 z vz hvz)
          have : vz = k + 1 := by omega
          rw [← this]
          exact hvz
      · right
        rcases isPathFrom_snoc m P y c z hP hPlast hstep with ⟨hP', hPlast'⟩
        refine ⟨y, j, hminy, hgy, hentry, by omega, P ++ [z], hP', hPlast', ?_⟩
        have hPne : P ≠ [] := by
          intro h0
          rw [h0] at hP
          exact hP
        have : 1 ≤ P.length := by
          cases P with
          | nil => exact absurd rfl hPne
          | cons _ _ => simp
        simp only [List.length_append, List.length_singleton]
        omega

end Astar

namespace Astar

theorem nodup_subset_length_le {α : Type} [DecidableEq α] (l1 l2 : List α)
    (h1 : l1.Nodup) (hsub : ∀ x ∈ l1, x ∈ l2) : l1.length ≤ l2.length := by
  classical
  have hc1 : l1.toFinset.card = l1.length := List.toFinset_card_of_nodup h1
  have hsub' : l1.toFinset ⊆ l2.toFinset := by
    intro x hx
    rw [List.mem_toFinset] at hx ⊢
    exact hsub x hx
  have hcle := Finset.card_le_card hsub'
  have h2 := l2.toFinset_card_le
  omega

theorem getLast?_cons_of_ne_nil {α : Type} (a : α) (l : List α) (h : l ≠ []) :
    (a :: l).getLast? = l.getLast? := by
  cases l with
  | nil => exact absurd rfl h
  | cons b rest => simp [List.getLast?_cons_cons]

theorem cf_chain (m : PyMap) (start goal : Pos) (st : AState)
    (hinv : AInv m start goal st) :
    ∀ (v : Nat), ∀ n, dictGet st.g_score n = some v →
      ∃ l : List Pos,
        (∀ F, l.length ≤ F → reconstructAux st.came_from F n = some l) ∧
        IsPath m start n l.reverse ∧
        l.length ≤ v + 1 ∧
        l.Nodup ∧
        l.getLast? = some start ∧
        (∀ x ∈ l, ∃ vx, dictGet st.g_score x = some vx ∧ vx ≤ v) ∧
        (∀ x ∈ l, x ≠ start → x ∈ st.came_from.map Prod.fst) := by
  obtain ⟨h1, h2, h3, h4, h5, h6, hSOC, hIg, h7, h8⟩ := hinv
  have hcfstart : dictGet st.came_from start = none := by
    cases hcs : dictGet st.came_from start with
    | none => rfl
    | some c0 =>
      rcases h7 start c0 hcs with ⟨-, vn, vc, hvn, hvc, hle⟩
      rw [h5] at hvn
      injection hvn with hvn
      omega
  intro v
  induction v using Nat.strong_induction_on with
  | _ v ih =>
    intro n hgn
    by_cases hns : n = start
    · subst hns
      refine ⟨[n], ?_, ?_, by simp, by simp, by simp, ?_, ?_⟩
      · intro F hF
        cases F with
        | zero => simp at hF
        | succ F' =>
          unfold reconstructAux
          rw [hcfstart]
      · have hrev : ([n] : List Pos).reverse = [n] := by simp
        rw [hrev]
        exact ⟨rfl, by simp⟩
      · intro x hx
        simp only [List.mem_singleton] at hx
        subst hx
        refine ⟨v, hgn, le_refl v⟩
      · intro x hx hxs
        simp only [List.mem_singleton] at hx
        exact absurd hx hxs
    · have hsome := h8 n v hgn hns
      cases hcn : dictGet st.came_from n with
      | none => rw [hcn] at hsome; exact absurd hsome (by simp)
      | some c =>
        rcases h7 n c hcn with ⟨hstep, vn, vc, hvn, hvc, hle⟩
        have hveq : vn = v := by
          rw [hgn] at hvn
          injection hvn with h
          omega
        rcases ih vc (by omega) c hvc with
          ⟨lc, hreclc, hpathlc, hlenlc, hnodlc, hlastlc, hvalslc, hkeyslc⟩
        have hlcne : lc ≠ [] := by
          intro h0
          rw [h0] at hlastlc
          exact absurd hlastlc (by simp)
        refine ⟨n :: lc, ?_, ?_, ?_, ?_, ?_, ?_, ?_⟩
        · intro F hF
          cases F with
          | zero => simp at hF
          | succ F' =>
            unfold reconstructAux
            simp only [hcn]
            rw [hreclc F' (by simp only [List.length_cons] at hF; omega)]
            rfl
        · have hrev : (n :: lc).reverse = lc.reverse ++ [n] := by simp
          rw [hrev]
          exact isPath_snoc m lc.reverse start c n hpathlc hstep
        · simp only [List.length_cons]
          omega
        · rw [List.nodup_cons]
          refine ⟨?_, hnodlc⟩
          intro hmem
          rcases hvalslc n hmem with ⟨vx, hvx, hvxle⟩
          rw [hgn] at hvx
          injection hvx with hvx
          omega
        · rw [getLast?_cons_of_ne_nil n lc hlcne]
          exact hlastlc
        · intro x hx
          rcases List.mem_cons.mp hx with rfl | hx
          · exact ⟨v, hgn, le_refl v⟩
          · rcases hvalslc x hx with ⟨vx, hvx, hvxle⟩
            exact ⟨vx, hvx, by omega⟩
        · intro x hx hxs
          rcases List.mem_cons.mp hx with rfl | hx
          · exact mem_keys_of_dictGet st.came_from x c hcn
          · exact hkeyslc x hx hxs

theorem chain_le_keys (start : Pos) (l : List Pos) (cfkeys : List Pos) (hnodup : l.Nodup)
    (hlast : l.getLast? = some start) (hk : ∀ x ∈ l, x ≠ start → x ∈ cfkeys) :
    l.length ≤ cfkeys.length + 1 := by
  have hne : l ≠ [] := by
    intro h
    rw [h] at hlast
    exact absurd hlast (by simp)
  have hdecomp : l.dropLast ++ [l.getLast hne] = l := List.dropLast_append_getLast hne
  have hlasteq : l.getLast hne = start := by
    rw [List.getLast?_eq_getLast l hne] at hlast
    injection hlast
  have hnodup2 : (l.dropLast ++ [l.getLast hne]).Nodup := by
    rw [hdecomp]
    exact hnodup
  rw [List.nodup_append] at hnodup2
  have hsub : ∀ x ∈ l.dropLast, x ∈ cfkeys := by
    intro x hx
    have hxl : x ∈ l := by
      rw [← hdecomp]
      exact List.mem_append_left _ hx
    have hxs : x ≠ start := by
      intro hxeq
      exact (hnodup2.2.2 hx) (by rw [hxeq, ← hlasteq]; exact List.mem_singleton.mpr rfl)
    exact hk x hxl hxs
  have hlen := nodup_subset_length_le l.dropLast cfkeys hnodup2.1 hsub
  have hdl : l.dropLast.length = l.length - 1 := List.length_dropLast l
  have hlpos : 1 ≤ l.length := by
    cases l with
    | nil => exact absurd rfl hne
    | cons _ _ => simp
  omega

end Astar

namespace Astar

theorem dictGet_of_mem_nodup {κ β : Type} [DecidableEq κ] :
    ∀ (d : List (κ × β)) (k : κ) (v : β), (k, v) ∈ d → (d.map Prod.fst).Nodup →
      dictGet d k = some v := by
  intro d
  induction d with
  | nil => intro k v hmem; exact absurd hmem (by simp)
  | cons e rest ih =>
    intro k v hmem hnodup
    simp only [List.map_cons, List.nodup_cons] at hnodup
    rcases List.mem_cons.mp hmem with rfl | hmem
    · unfold dictGet
      rw [List.find?_cons_of_pos _ (by simp)]
      rfl
    · have hek : e.1 ≠ k := by
        intro heq
        exact hnodup.1 (heq ▸ List.mem_map_of_mem Prod.fst hmem)
      unfold dictGet
      rw [List.find?_cons_of_neg _ (by simpa using hek)]
      exact ih k v hmem hnodup.2

theorem pop_goal_value (m : PyMap) (start goal : Pos) (st : AState) (e : Nat × Pos)
    (k : Nat) (hinv : AInv m start goal st)
    (hpop : heapMin st.open_set = some e) (heqg : e.2 = goal)
    (hming : MinReach m start goal k) :
    dictGet st.g_score goal = some k := by
  have hcopy := hinv
  obtain ⟨h1, h2, h3, h4, h5, h6, hSOC, hIg, h7, h8⟩ := hcopy
  have hemem := heapMin_mem st.open_set e hpop
  rcases h6 e hemem with ⟨vg, hvg, hvgle⟩
  rw [heqg] at hvg hvgle
  rw [d_manhattan_self] at hvgle
  have hkvg : k ≤ vg := hming.2 vg (h4 goal vg hvg)
  rcases frontier_chain m start goal st hinv k goal hming with hsettled |
    ⟨y, j, hminy, hgy, hentry, hjk, P, hP, hPlast, hPlen⟩
  · exact hsettled
  · have hmin := heapMin_fst_le st.open_set e hpop _ hentry
    have hadm : d_manhattan y goal ≤ P.length - 1 := manhattan_le_path m P y goal hP hPlast
    have hcomm : d_manhattan goal y = d_manhattan y goal := d_manhattan_comm goal y
    simp only at hmin
    have hvgk : vg = k := by omega
    rw [← hvgk]
    exact hvg

theorem pop_goal_result (m : PyMap) (start goal : Pos) (st : AState) (e : Nat × Pos)
    (k : Nat) (hinv : AInv m start goal st)
    (hpop : heapMin st.open_set = some e) (heqg : e.2 = goal)
    (hming : MinReach m start goal k) :
    ∃ p, (∀ fuel : Nat,
        astarLoop (neighbors_one_move_udlr m) d_manhattan (d_manhattan goal) goal
          (fuel + 1) st = .path p) ∧
      IsPath m start goal p ∧ p.length = k + 1 := by
  have hgk := pop_goal_value m start goal st e k hinv hpop heqg hming
  rcases cf_chain m start goal st hinv k goal hgk with
    ⟨l, hrec, hpath, hlen, hnod, hlast, hvals, hkeys⟩
  have hbound : l.length ≤ st.came_from.length + 1 := by
    have := chain_le_keys start l (st.came_from.map Prod.fst) hnod hlast hkeys
    simpa using this
  have hlpos : 1 ≤ l.length := by
    cases l with
    | nil => rw [show ([] : List Pos).getLast? = none from rfl] at hlast; exact absurd hlast (by simp)
    | cons _ _ => simp
  refine ⟨l.reverse, ?_, hpath, ?_⟩
  · intro fuel
    rw [astarLoop, hpop]
    simp only
    rw [if_pos heqg, heqg]
    rw [hrec (st.came_from.length + 1) hbound]
  · have hrn := reachNOfPath m start goal l.reverse hpath
    have hge := hming.2 _ hrn
    have hrl : l.reverse.length = l.length := by simp
    rw [hrl] at hge ⊢
    omega

end Astar

namespace Astar

theorem astar_terminates (m : PyMap) (hWB : WallBorder m) (start goal : Pos)
    (hstart : Interior m start) :
    ∀ st, AInv m start goal st →
      ∃ N r, (∀ f, N ≤ f →
          astarLoop (neighbors_one_move_udlr m) d_manhattan (d_manhattan goal) goal f st
            = r) ∧
        ((∃ p k, r = AResult.path p ∧ MinReach m start goal k ∧ IsPath m start goal p ∧
            p.length = k + 1) ∨
          (r = AResult.noPath ∧ ¬ Reach m start goal)) := by
  classical
  have hwf : WellFounded (Prod.Lex (· < · : Nat → Nat → Prop)
      (Prod.Lex (· < · : Nat → Nat → Prop) (· < · : Nat → Nat → Prop))) :=
    WellFounded.prod_lex wellFounded_lt
      (WellFounded.prod_lex wellFounded_lt wellFounded_lt)
  have hkeysle : ∀ st : AState, AInv m start goal st →
      st.g_score.length ≤ m.length * rowLen m := by
    intro st hinv
    have hnodup : (st.g_score.map Prod.fst).Nodup := hinv.1
    have hbox : ∀ p ∈ st.g_score.map Prod.fst, 0 ≤ p.1 ∧ p.1 < (m.length : Int) ∧
        0 ≤ p.2 ∧ p.2 < ((rowLen m : Nat) : Int) := by
      intro p hp
      rcases List.mem_map.mp hp with ⟨pe, hmem, rfl⟩
      have hget : dictGet st.g_score pe.1 = some pe.2 :=
        dictGet_of_mem_nodup st.g_score pe.1 pe.2 (by rw [show (pe.1, pe.2) = pe from rfl]; exact hmem) hnodup
      have hreach := hinv.2.2.1 pe.1 pe.2 hget
      have hint := reach_interior m hWB start hstart pe.1 hreach
      rcases hint with ⟨i1, i2, i3, i4⟩
      exact ⟨by omega, by omega, by omega, by omega⟩
    have := keys_length_le_box (st.g_score.map Prod.fst) hnodup m.length (rowLen m) hbox
    simpa using this
  have main : ∀ t : Nat × Nat × Nat, ∀ st, AInv m start goal st →
      (m.length * rowLen m - st.g_score.length, gSum st, st.open_set.length) = t →
      ∃ N r, (∀ f, N ≤ f →
          astarLoop (neighbors_one_move_udlr m) d_manhattan (d_manhattan goal) goal f st
            = r) ∧
        ((∃ p k, r = AResult.path p ∧ MinReach m start goal k ∧ IsPath m start goal p ∧
            p.length = k + 1) ∨
          (r = AResult.noPath ∧ ¬ Reach m start goal)) := by
    intro t
    refine @WellFounded.induction _ _ hwf (fun t => ∀ st, AInv m start goal st →
        (m.length * rowLen m - st.g_score.length, gSum st, st.open_set.length) = t →
        ∃ N r, (∀ f, N ≤ f →
            astarLoop (neighbors_one_move_udlr m) d_manhattan (d_manhattan goal) goal f st
              = r) ∧
          ((∃ p k, r = AResult.path p ∧ MinReach m start goal k ∧ IsPath m start goal p ∧
              p.length = k + 1) ∨
            (r = AResult.noPath ∧ ¬ Reach m start goal))) t ?_
    intro t ihwf st hinv hmeas
    cases hpop : heapMin st.open_set with
    | none =>
      refine ⟨1, .noPath, ?_, Or.inr ⟨rfl, ?_⟩⟩
      · intro f hfle
        obtain ⟨f', rfl⟩ : ∃ f', f = f' + 1 := ⟨f - 1, by omega⟩
        rw [astarLoop, hpop]
      · intro hreach
        rw [heapMin_eq_none] at hpop
        haveI : DecidablePred (fun k => ReachN m start k goal) := Classical.decPred _
        have hk := Nat.find_spec hreach
        have hming : MinReach m start goal (Nat.find hreach) :=
          ⟨hk, fun j hj => Nat.find_min' hreach hj⟩
        rcases frontier_chain m start goal st hinv _ goal hming with hsettled |
          ⟨y, j, -, -, hentry, -⟩
        · rcases hinv.2.2.2.2.2.2.2.1 _ hsettled with ⟨f, hfmem⟩
          rw [hpop] at hfmem
          exact absurd hfmem (by simp)
        · rw [hpop] at hentry
          exact absurd hentry (by simp)
    | some e =>
      by_cases hg : e.2 = goal
      · have hemem := heapMin_mem st.open_set e hpop
        rcases hinv.2.2.2.2.2.1 e hemem with ⟨vg, hvg, -⟩
        have hreach : Reach m start goal := by
          have := hinv.2.2.1 e.2 vg hvg
          rw [hg] at this
          exact this
        haveI : DecidablePred (fun k => ReachN m start k goal) := Classical.decPred _
        have hming : MinReach m start goal (Nat.find hreach) :=
          ⟨Nat.find_spec hreach, fun j hj => Nat.find_min' hreach hj⟩
        rcases pop_goal_result m start goal st e (Nat.find hreach) hinv hpop hg hming with
          ⟨p, hploop, hpath, hplen⟩
        refine ⟨1, .path p, ?_, Or.inl ⟨p, Nat.find hreach, rfl, hming, hpath, hplen⟩⟩
        intro f hfle
        obtain ⟨f', rfl⟩ : ∃ f', f = f' + 1 := ⟨f - 1, by omega⟩
        exact hploop f'
      · rcases astar_iter m hWB start goal hstart st hinv e hpop hg with
          ⟨L, st', hL, hst', hinv', hlenle, hdec⟩
        have hstep : ∀ f, astarLoop (neighbors_one_move_udlr m) d_manhattan
            (d_manhattan goal) goal (f + 1) st =
            astarLoop (neighbors_one_move_udlr m) d_manhattan (d_manhattan goal) goal
              f st' := by
          intro f
          rw [astarLoop, hpop]
          simp only
          rw [if_neg hg, hL]
          simp only
          rw [hst']
        have hb' := hkeysle st' hinv'
        have hb := hkeysle st hinv
        have hlex : Prod.Lex (· < ·) (Prod.Lex (· < ·) (· < ·))
            (m.length * rowLen m - st'.g_score.length, gSum st', st'.open_set.length)
            t := by
          rw [← hmeas]
          rcases hdec with hk | ⟨hkeq, hsum⟩ | ⟨hkeq, hsumeq, hopen⟩
          · exact Prod.Lex.left _ _ (by omega)
          · have heq1 : m.length * rowLen m - st'.g_score.length =
                m.length * rowLen m - st.g_score.length := by omega
            rw [heq1]
            exact Prod.Lex.right _ (Prod.Lex.left _ _ hsum)
          · have heq1 : m.length * rowLen m - st'.g_score.length =
                m.length * rowLen m - st.g_score.length := by omega
            rw [heq1, hsumeq]
            exact Prod.Lex.right _ (Prod.Lex.right _ hopen)
        rcases ihwf _ hlex st' hinv' rfl with ⟨N, r, hloop, hres⟩
        refine ⟨N + 1, r, ?_, hres⟩
        intro f hfle
        obtain ⟨f', rfl⟩ : ∃ f', f = f' + 1 := ⟨f - 1, by omega⟩
        rw [hstep f']
        exact hloop f' (by omega)
  intro st0 hinv0
  exact main _ st0 hinv0 rfl

end Astar

namespace Astar

theorem AInv_init (m : PyMap) (start goal : Pos) :
    AInv m start goal
      { came_from := []
        g_score := dictSet [] start 0
        f_score := dictSet [] start (d_manhattan goal start)
        open_set := [(d_manhattan goal start, start)] } := by
  have hchar : ∀ n v, dictGet (dictSet ([] : List (Pos × Nat)) start 0) n = some v →
      n = start ∧ v = 0 := by
    intro n v hv
    by_cases hn : n = start
    · rw [hn, dictGet_set_self] at hv
      injection hv with hv
      exact ⟨hn, hv.symm⟩
    · rw [dictGet_set_ne _ _ _ _ hn] at hv
      exact absurd hv (by simp [dictGet])
  refine ⟨?_, ?_, ?_, ?_, ?_, ?_, ?_, ?_, ?_, ?_⟩
  · simp [dictSet]
  · simp
  · intro n v hv
    rcases hchar n v hv with ⟨rfl, -⟩
    exact Reach_refl m n
  · intro n v hv
    rcases hchar n v hv with ⟨rfl, rfl⟩
    rfl
  · exact dictGet_set_self [] start 0
  · intro e he
    simp only [List.mem_singleton] at he
    subst he
    refine ⟨0, dictGet_set_self [] start 0, by simp⟩
  · intro n v hv hmin
    rcases hchar n v hv with ⟨rfl, rfl⟩
    left
    simp
  · intro v hv
    rcases hchar goal v hv with ⟨hgs, -⟩
    exact ⟨d_manhattan goal start, by simp [hgs]⟩
  · intro n c' hc'
    exact absurd hc' (by simp [dictGet])
  · intro n v hv hns
    rcases hchar n v hv with ⟨rfl, -⟩
    exact absurd rfl hns

theorem path_length_pos (m : PyMap) (s g : Pos) (l : List Pos) (h : IsPath m s g l) :
    1 ≤ l.length := by
  cases l with
  | nil => exact absurd h.1 id
  | cons _ _ => simp

/-- C2 (amended): as stated the claim is false — a start on the map edge makes
the `udlr` probe raise `IndexError` or wrap around (counterexample
`astar_crash_on_wall_goal`).  On a wall-bordered rectangular map with the
start in the interior, the guarantee does hold: whenever no grid path joins
`start` to `goal` (the goal is a wall, or lies in a disconnected region),
`A_star_voiture` terminates — for every sufficiently large fuel it returns the
explicit "no path" result, never an exception and never a path. -/
theorem astar_unreachable_noPath (m : PyMap) (start goal : Pos) (hWB : WallBorder m)
    (hstart : Interior m start) (hunsol : ∀ l, ¬ IsPath m start goal l) :
    ∃ N, ∀ f, N ≤ f → A_star_voiture m start goal f = AResult.noPath := by
  rcases astar_terminates m hWB start goal hstart _ (AInv_init m start goal) with
    ⟨N, r, hloop, hres⟩
  rcases hres with ⟨p, k, -, -, hpath, -⟩ | ⟨hr, -⟩
  · exact absurd hpath (hunsol p)
  · refine ⟨N, fun f hf => ?_⟩
    show astarLoop (neighbors_one_move_udlr m) d_manhattan (d_manhattan goal) goal f
      { came_from := []
        g_score := dictSet [] start 0
        f_score := dictSet [] start (d_manhattan goal start)
        open_set := [(d_manhattan goal start, start)] } = AResult.noPath
    rw [hloop f hf, hr]

theorem astar_unreachable_noPath_witness :
    WallBorder mIso4 ∧ Interior mIso4 (1, 1) ∧
    (∀ l, ¬ IsPath mIso4 (1, 1) (2, 2) l) ∧
    ∃ N, ∀ f, N ≤ f → A_star_voiture mIso4 (1, 1) (2, 2) f = AResult.noPath := by
  have hnoadj : ∀ q, ¬ adjStep mIso4 (1, 1) q := by
    rintro q ⟨hw, hco⟩
    rcases hco with ⟨h1, h2 | h2⟩ | ⟨h1, h2 | h2⟩
    · have hq : q = ((1 : Int), (2 : Int)) := by
        rw [Prod.ext_iff]
        constructor <;> omega
      rw [hq] at hw
      exact absurd hw (by decide)
    · have hq : q = ((1 : Int), (0 : Int)) := by
        rw [Prod.ext_iff]
        constructor <;> omega
      rw [hq] at hw
      exact absurd hw (by decide)
    · have hq : q = ((2 : Int), (1 : Int)) := by
        rw [Prod.ext_iff]
        constructor <;> omega
      rw [hq] at hw
      exact absurd hw (by decide)
    · have hq : q = ((0 : Int), (1 : Int)) := by
        rw [Prod.ext_iff]
        constructor <;> omega
      rw [hq] at hw
      exact absurd hw (by decide)
  have hunsol : ∀ l, ¬ IsPath mIso4 (1, 1) (2, 2) l := by
    rintro l ⟨hpf, hlast⟩
    cases l with
    | nil => exact hpf
    | cons p rest =>
      cases rest with
      | nil =>
        have hp : p = ((1 : Int), (1 : Int)) := hpf
        have hp2 : p = ((2 : Int), (2 : Int)) := by simpa using hlast
        rw [hp] at hp2
        exact absurd hp2 (by decide)
      | cons q rest' =>
        exact hnoadj q hpf.2.1
  exact ⟨by decide, by decide, hunsol,
    astar_unreachable_noPath mIso4 (1, 1) (2, 2) (by decide) (by decide) hunsol⟩

/-- C1 (amended): as stated the claim is false — even on an all-walkable map a
solvable instance can crash on an `IndexError` from an edge-cell probe
(counterexample `astar_crash_on_solvable`).  On a wall-bordered rectangular
map with the start in the interior, `A_star_classic` with the `udlr` neighbour
function (`A_star_voiture`) is optimal: on every solvable instance it returns,
for every sufficiently large fuel, one fixed grid path from `start` to `goal`
of minimum length — the BFS shortest-path length. -/
theorem astar_optimal (m : PyMap) (start goal : Pos) (p0 : List Pos)
    (hWB : WallBorder m) (hstart : Interior m start)
    (hsol : IsPath m start goal p0) :
    ∃ N p, IsPath m start goal p ∧
      (∀ q, IsPath m start goal q → p.length ≤ q.length) ∧
      ∀ f, N ≤ f → A_star_voiture m start goal f = AResult.path p := by
  rcases astar_terminates m hWB start goal hstart _ (AInv_init m start goal) with
    ⟨N, r, hloop, hres⟩
  rcases hres with ⟨p, k, hr, hming, hpath, hplen⟩ | ⟨-, hnr⟩
  · refine ⟨N, p, hpath, ?_, fun f hf => ?_⟩
    · intro q hq
      have hge := hming.2 _ (reachNOfPath m start goal q hq)
      have hq1 := path_length_pos m start goal q hq
      omega
    · show astarLoop (neighbors_one_move_udlr m) d_manhattan (d_manhattan goal) goal f
        { came_from := []
          g_score := dictSet [] start 0
          f_score := dictSet [] start (d_manhattan goal start)
          open_set := [(d_manhattan goal start, start)] } = AResult.path p
      rw [hloop f hf, hr]
  · exact absurd (reachOfPath m start goal p0 hsol) hnr

theorem astar_optimal_witness :
    WallBorder mWB4 ∧ Interior mWB4 (1, 1) ∧
    IsPath mWB4 (1, 1) (2, 2) [(1, 1), (2, 1), (2, 2)] ∧
    ∃ N p, IsPath mWB4 (1, 1) (2, 2) p ∧
      (∀ q, IsPath mWB4 (1, 1) (2, 2) q → p.length ≤ q.length) ∧
      ∀ f, N ≤ f → A_star_voiture mWB4 (1, 1) (2, 2) f = AResult.path p :=
  ⟨by decide, by decide, by decide,
    astar_optimal mWB4 (1, 1) (2, 2) [(1, 1), (2, 1), (2, 2)] (by decide) (by decide)
      (by decide)⟩

end Astar
